import Mathlib

/-!
# DriveMovement: per-axis step-time generator

A shallow embedding of `src/Movement/DriveMovement.cpp`.

* `float` values are elements of an arbitrary type `F` carrying the operations the
  source applies to them (`FloatArith F`); nothing is assumed about rounding, so every
  theorem holds for any floating-point semantics, IEEE single precision included.
* `uint32_t` values are natural numbers, every operation reduced modulo `2^32`.
* `int32_t` values are integers; a conversion to `uint32_t` reduces modulo `2^32`.
* `MoveSegment*` is a list of segments: `nullptr` is `[]`, `GetNext()` is the tail.
  Dereferencing a null segment pointer has no defined behaviour: the functions that can do
  so return `Option`, with `none` for that case.
* The `MoveSegment` accessors, `DriveStepsPerUnit`, `DDA::MinCalcInterval`, `EVEN_STEPS`
  and the inline wrapper `CalcNextStepTime` are declared outside this source file; they
  are parameters (`Env`, and an explicit argument for the wrapper).
-/

namespace DriveMovement

/-! ## Machine arithmetic -/

/-- The operations the source applies to `float` values. `fastSqrtf` and `fabsf` are the
library routines of the same names; `ofUInt32`, `ofInt32` are the conversions of integers to
`float`, and `toUInt32`, `toInt32` the conversions of a `float` to an integer. -/
class FloatArith (F : Type) extends Zero F, One F, Add F, Sub F, Mul F, Div F, Neg F, LT F, LE F where
  fastSqrtf : F → F
  fabsf : F → F
  ofUInt32 : Nat → F
  ofInt32 : Int → F
  toUInt32 : F → Nat
  toInt32 : F → Int
  decLt : (a b : F) → Decidable (a < b)
  decLe : (a b : F) → Decidable (a ≤ b)

instance instDecLt {F : Type} [FloatArith F] (a b : F) : Decidable (a < b) := FloatArith.decLt a b

instance instDecLe {F : Type} [FloatArith F] (a b : F) : Decidable (a ≤ b) := FloatArith.decLe a b

/-- The number of values of a `uint32_t`. -/
def u32 : Nat := 4294967296

/-- Addition of two `uint32_t`. (In this and the next two definitions the operand that is a
constant at every use is written where `Nat.add` does not recurse on it, so that the term
stays small when the other operand is a variable.) -/
def add32 (a b : Nat) : Nat := (b + a) % u32

/-- Subtraction of two `uint32_t`: `a - b` modulo `2^32`. -/
def sub32 (a b : Nat) : Nat := ((u32 - b % u32) + a % u32) % u32

/-- Multiplication of two `uint32_t`. -/
def mul32 (a b : Nat) : Nat := (a * b) % u32

/-- Conversion of a signed integer to `uint32_t`. -/
def intToU32 (i : Int) : Nat := (i % 4294967296).toNat

/-- The result of `(uint32_t)x` for a float `x`. -/
def castU32 {F : Type} [FloatArith F] (x : F) : Nat := FloatArith.toUInt32 x % u32

/-- The result of `(int32_t)x` for a float `x`, a value in `[-2^31, 2^31)`. -/
def castI32 {F : Type} [FloatArith F] (x : F) : Int :=
  (FloatArith.toInt32 x + 2147483648) % 4294967296 - 2147483648

/-- The literal `0.5`. -/
def half {F : Type} [FloatArith F] : F := 1 / FloatArith.ofInt32 2

/-- The helper `fsquare`. -/
def fsquare {F : Type} [FloatArith F] (x : F) : F := x * x

/-! ## Data model -/

/-- The phases of a drive (`enum class DMState`). -/
inductive DMState
  | idle
  | stepError
  | cartAccel
  | cartLinear
  | cartDecelNoReverse
  | cartDecelForwardsReversing
  | cartDecelReverse
  | deltaForwardsNoReverse
  | deltaForwardsReversing
  | deltaReverse
  deriving DecidableEq, Repr

/-- The `mp.cart` member of the per-kinematics parameters. -/
structure CartParams (F : Type) where
  pressureAdvanceK : F
  effectiveStepsPerMm : F
  effectiveMmPerStep : F
  extraExtrusionDistance : F
  deriving DecidableEq, Repr

/-- The `mp.delta` member of the per-kinematics parameters. -/
structure DeltaParams (F : Type) where
  fTwoA : F
  fTwoB : F
  h0MinusZ0 : F
  fDSquaredMinusAsquaredMinusBsquaredTimesSsquared : F
  fHmz0s : F
  fMinusAaPlusBbTimesS : F
  reverseStartDistance : F
  deriving DecidableEq, Repr

/-- The record `DriveMovement`. `S` is the type of a move segment. The two members of the
union `mp` are kept side by side; the overlap of their storage is not modelled. -/
structure DM (F S : Type) where
  drive : Nat
  state : DMState
  direction : Bool
  directionChanged : Bool
  isDelta : Bool
  isExtruder : Bool
  totalSteps : Nat
  nextStep : Nat
  reverseStartStep : Nat
  phaseStepLimit : Nat
  nextStepTime : Nat
  stepInterval : Nat
  stepsTillRecalc : Nat
  pA : F
  pB : F
  pC : F
  currentSegment : List S
  distanceSoFar : F
  timeSoFar : F
  cart : CartParams F
  delta : DeltaParams F
  deriving DecidableEq, Repr

/-- The 32-bit counters of a record hold 32-bit values. -/
def DM.InRange {F S : Type} (dm : DM F S) : Prop :=
  dm.totalSteps < u32 ∧ dm.nextStep < u32 ∧ dm.reverseStartStep < u32 ∧
  dm.phaseStepLimit < u32 ∧ dm.nextStepTime < u32 ∧ dm.stepInterval < u32

instance instDecInRange {F S : Type} (dm : DM F S) : Decidable dm.InRange := by
  unfold DM.InRange; infer_instance

/-- The fields of a `DDA` that this file reads. `directionVector` is indexed by drive
(`X_AXIS = 0`, `Y_AXIS = 1`, `Z_AXIS = 2`). -/
structure DDA (F S : Type) where
  directionVector : Nat → F
  totalDistance : F
  acceleration : F
  deceleration : F
  topSpeed : F
  clocksNeeded : Nat
  usePressureAdvance : Bool
  shapedSegments : List S
  unshapedSegments : List S

/-- The fields of `PrepParams` that this file reads; the three `dparams` accessors of the
delta kinematics are functions of the drive. -/
structure PrepParams (F : Type) where
  initialX : F
  initialY : F
  a2plusb2 : F
  accelClocks : F
  decelClocks : F
  decelStartDistance : F
  GetTowerX : Nat → F
  GetTowerY : Nat → F
  GetDiagonalSquared : Nat → F

/-- What the source takes from other files: the `MoveSegment` accessors (a segment pointer
being the list from that segment on, `GetFirstDecelSegment` maps a list to the list from its
first deceleration segment on, `[]` when there is none), the platform's steps per unit,
`DDA::MinCalcInterval` and the compile-time switch `EVEN_STEPS`. -/
structure Env (F S : Type) where
  IsLinear : S → Bool
  IsAccelerating : S → Bool
  GetSegmentLength : S → F
  GetSegmentTime : S → F
  GetC : S → F
  CalcC : S → F → F
  CalcLinearB : S → F → F → F
  CalcNonlinearA : S → F → F
  CalcNonlinearB : S → F → F
  CalcNonlinearBK : S → F → F → F
  GetFirstDecelSegment : List S → List S
  DriveStepsPerUnit : Nat → F
  MinCalcInterval : Nat
  EVEN_STEPS : Bool

set_option linter.unusedSectionVars false

variable {F S : Type} [FloatArith F]

/-! ## Segment engines -/

/-- The body of the loop of `NewCartesianSegment` (lines 89-108) on the segment `seg`. -/
def NewCartesianSegment.visit (env : Env F S) (seg : S) (dm : DM F S) : DM F S :=
  let dm : DM F S := { dm with pC := env.CalcC seg dm.cart.effectiveMmPerStep }
  let dm : DM F S :=
    if env.IsLinear seg then
      { dm with pB := env.CalcLinearB seg dm.distanceSoFar dm.timeSoFar, state := DMState.cartLinear }
    else
      { dm with
        pA := env.CalcNonlinearA seg dm.distanceSoFar
        pB := env.CalcNonlinearB seg dm.timeSoFar
        state := if env.IsAccelerating seg then DMState.cartAccel else DMState.cartDecelNoReverse }
  let dm : DM F S := { dm with
    distanceSoFar := dm.distanceSoFar + env.GetSegmentLength seg
    timeSoFar := dm.timeSoFar + env.GetSegmentTime seg }
  { dm with phaseStepLimit := add32 (castU32 (dm.distanceSoFar * dm.cart.effectiveStepsPerMm)) 1 }

/-- The loop of `NewCartesianSegment`, on the segments from `currentSegment` on. -/
def NewCartesianSegment.loop (env : Env F S) : List S → DM F S → Bool × DM F S
  | [], dm => (false, { dm with currentSegment := [] })
  | seg :: rest, dm =>
    let dm := NewCartesianSegment.visit env seg dm
    if dm.nextStep < dm.phaseStepLimit then
      (true, { dm with currentSegment := seg :: rest })
    else
      NewCartesianSegment.loop env rest dm

/-- `DriveMovement::NewCartesianSegment`. -/
def NewCartesianSegment (env : Env F S) (dm : DM F S) : Bool × DM F S :=
  NewCartesianSegment.loop env dm.currentSegment dm

/-- The local `netStepsAtEnd` of `NewDeltaSegment`, for the updated `distanceSoFar`. -/
def netStepsAtEnd (env : Env F S) (dda : DDA F S) (dm : DM F S) : Int :=
  let stepsPerMm := env.DriveStepsPerUnit dm.drive
  let sDx := dm.distanceSoFar * dda.directionVector 0
  let sDy := dm.distanceSoFar * dda.directionVector 1
  castI32 (FloatArith.fastSqrtf (dm.delta.fDSquaredMinusAsquaredMinusBsquaredTimesSsquared
              - fsquare stepsPerMm * (sDx * (sDx + dm.delta.fTwoA) + sDy * (sDy + dm.delta.fTwoB)))
            + (dm.distanceSoFar * dda.directionVector 2 - dm.delta.h0MinusZ0) * stepsPerMm)

/-- Lines 128-144 of `NewDeltaSegment`: the coefficients of the segment `seg`, and the
distance and time at its end. -/
def NewDeltaSegment.coefficients (env : Env F S) (seg : S) (dm : DM F S) : DM F S :=
  let stepsPerMm := env.DriveStepsPerUnit dm.drive
  let dm : DM F S := { dm with pC := env.GetC seg / stepsPerMm }
  let dm : DM F S :=
    if env.IsLinear seg then
      { dm with pB := env.CalcLinearB seg dm.distanceSoFar dm.timeSoFar }
    else
      { dm with
        pA := env.CalcNonlinearA seg dm.distanceSoFar
        pB := env.CalcNonlinearB seg dm.timeSoFar }
  { dm with
    distanceSoFar := dm.distanceSoFar + env.GetSegmentLength seg
    timeSoFar := dm.timeSoFar + env.GetSegmentTime seg }

/-- Lines 152-176 of `NewDeltaSegment`: the case of the segment. `startDistance` is
`distanceSoFar` before the segment was added, `net` is `netStepsAtEnd`, and `last` says that
`currentSegment->GetNext()` is null. -/
def NewDeltaSegment.classify (startDistance : F) (net : Int) (last : Bool) (dm : DM F S) : DM F S :=
  if dm.delta.reverseStartDistance ≤ startDistance then
    let dm : DM F S := if dm.direction then { dm with direction := false, directionChanged := true } else dm
    { dm with
      state := DMState.deltaReverse
      phaseStepLimit :=
        if last then add32 dm.totalSteps 1
        else if dm.reverseStartStep ≤ dm.totalSteps then intToU32 ((mul32 2 dm.reverseStartStep : Int) - net)
        else intToU32 (1 - net) }
  else if dm.distanceSoFar ≤ dm.delta.reverseStartDistance then
    { dm with
      state := DMState.deltaForwardsNoReverse
      phaseStepLimit := if last then add32 dm.totalSteps 1 else intToU32 (net + 1) }
  else
    { dm with
      phaseStepLimit :=
        if last then add32 dm.totalSteps 1
        else intToU32 ((mul32 2 dm.reverseStartStep : Int) - net)
      state := DMState.deltaForwardsReversing }

/-- The body of the loop of `NewDeltaSegment` (lines 128-176) on the segment `seg`. -/
def NewDeltaSegment.visit (env : Env F S) (dda : DDA F S) (seg : S) (last : Bool) (dm : DM F S) :
    DM F S :=
  let dm1 := NewDeltaSegment.coefficients env seg dm
  NewDeltaSegment.classify dm.distanceSoFar (netStepsAtEnd env dda dm1) last dm1

/-- The loop of `NewDeltaSegment`, on the segments from `currentSegment` on. -/
def NewDeltaSegment.loop (env : Env F S) (dda : DDA F S) : List S → DM F S → Bool × DM F S
  | [], dm => (false, { dm with currentSegment := [] })
  | seg :: rest, dm =>
    let dm := NewDeltaSegment.visit env dda seg rest.isEmpty dm
    if dm.phaseStepLimit > dm.nextStep then
      (true, { dm with currentSegment := seg :: rest })
    else
      NewDeltaSegment.loop env dda rest dm

/-- `DriveMovement::NewDeltaSegment`. -/
def NewDeltaSegment (env : Env F S) (dda : DDA F S) (dm : DM F S) : Bool × DM F S :=
  NewDeltaSegment.loop env dda dm.currentSegment dm

/-- The body of the loop of `NewExtruderSegment` (lines 197-230) on the segment `seg`. -/
def NewExtruderSegment.visit (env : Env F S) (seg : S) (dm : DM F S) : DM F S :=
  let startDistance := dm.distanceSoFar
  let startTime := dm.timeSoFar
  let dm : DM F S := { dm with
    distanceSoFar := dm.distanceSoFar + env.GetSegmentLength seg
    timeSoFar := dm.timeSoFar + env.GetSegmentTime seg }
  let dm : DM F S := { dm with pC := env.CalcC seg dm.cart.effectiveMmPerStep }
  if env.IsLinear seg then
    { dm with
      pB := env.CalcLinearB seg startDistance startTime
      phaseStepLimit := add32 (castU32 (dm.distanceSoFar * dm.cart.effectiveStepsPerMm)) 1
      state := DMState.cartLinear }
  else
    let dm : DM F S := { dm with
      pA := env.CalcNonlinearA seg startDistance
      pB := env.CalcNonlinearBK seg startTime dm.cart.pressureAdvanceK }
    if env.IsAccelerating seg then
      let dm : DM F S := { dm with distanceSoFar := dm.distanceSoFar + dm.cart.extraExtrusionDistance }
      { dm with
        phaseStepLimit := add32 (castU32 (dm.distanceSoFar * dm.cart.effectiveStepsPerMm)) 1
        state := DMState.cartAccel }
    else
      { dm with
        phaseStepLimit := add32 dm.totalSteps 1
        state := DMState.cartDecelForwardsReversing }

/-- The loop of `NewExtruderSegment`, on the segments from `currentSegment` on. -/
def NewExtruderSegment.loop (env : Env F S) : List S → DM F S → Bool × DM F S
  | [], dm => (false, { dm with currentSegment := [] })
  | seg :: rest, dm =>
    let dm := NewExtruderSegment.visit env seg dm
    if dm.nextStep < dm.phaseStepLimit then
      (true, { dm with currentSegment := seg :: rest })
    else
      NewExtruderSegment.loop env rest dm

/-- `DriveMovement::NewExtruderSegment`. -/
def NewExtruderSegment (env : Env F S) (dm : DM F S) : Bool × DM F S :=
  NewExtruderSegment.loop env dm.currentSegment dm

/-! ## The step-time generator -/

/-- Lines 493-495 of `CalcNextStepTimeFull`: the segment engine of the kinematics. -/
def newSegment (env : Env F S) (dda : DDA F S) (dm : DM F S) : Bool × DM F S :=
  if dm.isDelta then NewDeltaSegment env dda dm
  else if dm.isExtruder then NewExtruderSegment env dm
  else NewCartesianSegment env dm

/-- Lines 487-502 of `CalcNextStepTimeFull`: when no steps are left in the phase
(`stepsToLimit == 0` for `stepsToLimit = phaseStepLimit - nextStep`), move to the next
segment and run the segment engine of the kinematics. The result is `(true, dm)` when the
call goes on, `(false, dm)` when it returns false there, `none` when `currentSegment` is
null at the dereference. -/
def advanceSegment (env : Env F S) (dda : DDA F S) (dm : DM F S) : Option (Bool × DM F S) :=
  if sub32 dm.phaseStepLimit dm.nextStep = 0 then
    match dm.currentSegment with
    | [] => none
    | _ :: rest =>
      let r := newSegment env dda { dm with currentSegment := rest }
      if r.1 then some (true, r.2)
      else some (false, { r.2 with state := DMState.stepError, nextStep := add32 r.2.nextStep 100000000 })
  else some (true, dm)

/-- The local `stepsToLimit` as it stands at line 509: `dm0` is the record on entry (line
487 reads it), `dm` the record after lines 490-502. -/
def stepsToLimit (dm0 dm : DM F S) : Nat :=
  if dm.phaseStepLimit > dm.reverseStartStep then sub32 dm.reverseStartStep dm.nextStep
  else sub32 dm0.phaseStepLimit dm0.nextStep

/-- The local `shiftFactor` (lines 509-524). -/
def shiftFactor (minCalcInterval stepInterval stepsToLimit : Nat) : Nat :=
  if stepsToLimit > 1 ∧ stepInterval < minCalcInterval then
    if stepInterval < minCalcInterval / 4 ∧ stepsToLimit > 8 then 3
    else if stepInterval < minCalcInterval / 2 ∧ stepsToLimit > 4 then 2
    else if stepsToLimit > 2 then 1
    else 0
  else 0

/-- The `shiftFactor` of a call: `dm0` is the record on entry, `dm` the record after lines
490-502. -/
def chosenShift (env : Env F S) (dm0 dm : DM F S) : Nat :=
  shiftFactor env.MinCalcInterval dm.stepInterval (stepsToLimit dm0 dm)

/-- Line 525: `stepsTillRecalc = (1u << shiftFactor) - 1u`. -/
def withRecalc (dm : DM F S) (shift : Nat) : DM F S :=
  { dm with stepsTillRecalc := sub32 (2 ^ shift) 1 }

/-- What the `switch` on the state yields: the step time as a float (before it is stored in
the integer `nextCalcStepTime`), or an early `return false`; each with the record. -/
inductive StepCalc (F S : Type)
  | time (t : F) (dm : DM F S)
  | fail (dm : DM F S)

/-- Lines 571-579: the carriage height after `1 << shiftFactor` more steps. -/
def stepHeight (dm : DM F S) (shift : Nat) : F :=
  if dm.direction then dm.delta.fHmz0s + FloatArith.ofUInt32 (2 ^ shift)
  else dm.delta.fHmz0s - FloatArith.ofUInt32 (2 ^ shift)

/-- The local `t1` (lines 581-582), for the updated height. -/
def deltaT1 (dda : DDA F S) (dm : DM F S) : F :=
  dm.delta.fMinusAaPlusBbTimesS + dm.delta.fHmz0s * dda.directionVector 2

/-- The local `t2` (lines 583-585), for the updated height. -/
def deltaT2 (dda : DDA F S) (dm : DM F S) : F :=
  let t2a := dm.delta.fDSquaredMinusAsquaredMinusBsquaredTimesSsquared - fsquare dm.delta.fHmz0s
              + fsquare (deltaT1 dda dm)
  if 0 < t2a then FloatArith.fastSqrtf t2a else 0

/-- The local `ds` (line 586), for the updated height. -/
def deltaDs (dda : DDA F S) (dm : DM F S) : F :=
  if dm.direction then deltaT1 dda dm - deltaT2 dda dm else deltaT1 dda dm + deltaT2 dda dm

/-- Lines 559-565: in `deltaForwardsReversing`, the turn at `nextStep == reverseStartStep`;
the other states are left as they are. -/
def deltaTurn (dm : DM F S) : DM F S :=
  if dm.state = DMState.deltaForwardsReversing ∧ dm.nextStep = dm.reverseStartStep then
    { dm with direction := false, directionChanged := true, state := DMState.deltaReverse }
  else dm

/-- Lines 571-579: the record with the new carriage height stored. -/
def deltaRaise (dm : DM F S) (shift : Nat) : DM F S :=
  { dm with delta.fHmz0s := stepHeight dm shift }

/-- The three states of a delta axis in motion. -/
def DMState.isDeltaMotion : DMState → Bool
  | DMState.deltaForwardsNoReverse => true
  | DMState.deltaForwardsReversing => true
  | DMState.deltaReverse => true
  | _ => false

/-- The record on which the delta formula is evaluated: after the turn and the new height. -/
def deltaPoint (dm : DM F S) (shift : Nat) : DM F S := deltaRaise (deltaTurn dm) shift

/-- Lines 569-602: the body shared by the three delta states. -/
def deltaStepTime (env : Env F S) (dda : DDA F S) (dm : DM F S) (shift : Nat) :
    Option (StepCalc F S) :=
  let dm : DM F S := deltaRaise dm shift
  let ds := deltaDs dda dm
  if ds < 0 then
    some (StepCalc.fail { dm with state := DMState.stepError, nextStep := add32 dm.nextStep 110000000 })
  else
    match dm.currentSegment with
    | [] => none
    | seg :: _ =>
      let pCds := dm.pC * ds
      let t : F :=
        if env.IsLinear seg then dm.pB + pCds
        else if env.IsAccelerating seg then dm.pB + FloatArith.fastSqrtf (dm.pA + pCds)
        else dm.pB - FloatArith.fastSqrtf (dm.pA + pCds)
      some (StepCalc.time t (if env.IsLinear seg then { dm with pA := ds } else dm))

/-- Lines 527-606: the `switch` on the state. -/
def stepTime (env : Env F S) (dda : DDA F S) (dm : DM F S) (shift : Nat) : Option (StepCalc F S) :=
  match dm.state with
  | DMState.cartLinear =>
    some (StepCalc.time (dm.pB + FloatArith.ofUInt32 (add32 dm.nextStep dm.stepsTillRecalc) * dm.pC) dm)
  | DMState.cartAccel =>
    some (StepCalc.time
      (dm.pB + FloatArith.fastSqrtf (dm.pA + dm.pC * FloatArith.ofUInt32 (add32 dm.nextStep dm.stepsTillRecalc))) dm)
  | DMState.cartDecelForwardsReversing =>
    if dm.nextStep ≤ dm.reverseStartStep then
      some (StepCalc.time
        (dm.pB - FloatArith.fastSqrtf (dm.pA + dm.pC * FloatArith.ofUInt32 (add32 dm.nextStep dm.stepsTillRecalc))) dm)
    else
      some (StepCalc.time
        (dm.pB + FloatArith.fastSqrtf (dm.pA + dm.pC * FloatArith.ofUInt32
          (add32 (sub32 (mul32 2 dm.reverseStartStep) dm.nextStep) dm.stepsTillRecalc)))
        { dm with direction := false, directionChanged := true, state := DMState.cartDecelReverse })
  | DMState.cartDecelReverse =>
    some (StepCalc.time
      (dm.pB + FloatArith.fastSqrtf (dm.pA + dm.pC * FloatArith.ofUInt32
        (add32 (sub32 (mul32 2 dm.reverseStartStep) dm.nextStep) dm.stepsTillRecalc))) dm)
  | DMState.cartDecelNoReverse =>
    some (StepCalc.time
      (dm.pB - FloatArith.fastSqrtf (dm.pA + dm.pC * FloatArith.ofUInt32 (add32 dm.nextStep dm.stepsTillRecalc))) dm)
  | DMState.deltaForwardsReversing =>
    deltaStepTime env dda (deltaTurn dm) shift
  | DMState.deltaForwardsNoReverse => deltaStepTime env dda dm shift
  | DMState.deltaReverse => deltaStepTime env dda dm shift
  | DMState.idle => some (StepCalc.fail dm)
  | DMState.stepError => some (StepCalc.fail dm)

/-- Lines 608-638: store the interval and the step time, then apply the late-step policy. -/
def finishStep (env : Env F S) (dda : DDA F S) (dm : DM F S) (shift nextCalcStepTime : Nat) :
    Bool × DM F S :=
  let dm : DM F S := { dm with
    stepInterval :=
      if nextCalcStepTime > dm.nextStepTime then sub32 nextCalcStepTime dm.nextStepTime >>> shift else 0 }
  let dm : DM F S := { dm with
    nextStepTime :=
      if env.EVEN_STEPS then sub32 nextCalcStepTime (mul32 dm.stepsTillRecalc dm.stepInterval)
      else nextCalcStepTime }
  if nextCalcStepTime > dda.clocksNeeded then
    if add32 dm.nextStep 1 ≥ dm.totalSteps then
      (true, { dm with nextStepTime := dda.clocksNeeded })
    else
      (false, { dm with
        state := DMState.stepError
        nextStep := add32 dm.nextStep 120000000
        stepInterval := nextCalcStepTime })
  else
    (true, dm)

/-- `DriveMovement::CalcNextStepTimeFull`: the value returned and the record left behind, or
`none` when the call dereferences a null `currentSegment`. -/
def CalcNextStepTimeFull (env : Env F S) (dda : DDA F S) (dm : DM F S) : Option (Bool × DM F S) :=
  match advanceSegment env dda dm with
  | none => none
  | some (false, dm1) => some (false, dm1)
  | some (true, dm1) =>
    let shift := chosenShift env dm dm1
    match stepTime env dda (withRecalc dm1 shift) shift with
    | none => none
    | some (StepCalc.fail dm3) => some (false, dm3)
    | some (StepCalc.time t dm3) => some (finishStep env dda dm3 shift (castU32 t))

/-- The interval stored at lines 609-611. -/
def newInterval (dm : DM F S) (shift c : Nat) : Nat :=
  if c > dm.nextStepTime then sub32 c dm.nextStepTime >>> shift else 0

/-- The step time stored at lines 612-616. -/
def newStepTime (env : Env F S) (dm : DM F S) (shift c : Nat) : Nat :=
  if env.EVEN_STEPS then sub32 c (mul32 dm.stepsTillRecalc (newInterval dm shift c)) else c

/-- The local `nextCalcStepTime` of a call that reaches line 608: `dm0` is the record on
entry. -/
def nextCalcStepTime (env : Env F S) (dda : DDA F S) (dm : DM F S) : Option Nat :=
  match advanceSegment env dda dm with
  | some (true, dm1) =>
    match stepTime env dda (withRecalc dm1 (chosenShift env dm dm1)) (chosenShift env dm dm1) with
    | some (StepCalc.time t _) => some (castU32 t)
    | _ => none
  | _ => none

/-! ## Preparation of a delta axis -/

/-- The local `A` of `PrepareDeltaAxis`. -/
def towerA (params : PrepParams F) (dm : DM F S) : F := params.initialX - params.GetTowerX dm.drive

/-- The local `B` of `PrepareDeltaAxis`. -/
def towerB (params : PrepParams F) (dm : DM F S) : F := params.initialY - params.GetTowerY dm.drive

/-- The local `aAplusbB` of `PrepareDeltaAxis`. -/
def aAplusbB (dda : DDA F S) (params : PrepParams F) (dm : DM F S) : F :=
  towerA params dm * dda.directionVector 0 + towerB params dm * dda.directionVector 1

/-- The local `dSquaredMinusAsquaredMinusBsquared` of `PrepareDeltaAxis`. -/
def dSquaredMinusAsquaredMinusBsquared (params : PrepParams F) (dm : DM F S) : F :=
  params.GetDiagonalSquared dm.drive - fsquare (towerA params dm) - fsquare (towerB params dm)

/-- The local `drev` of `PrepareDeltaAxis` (lines 301-302). -/
def drev (dda : DDA F S) (params : PrepParams F) (dm : DM F S) : F :=
  ((dda.directionVector 2 * FloatArith.fastSqrtf (params.a2plusb2 * params.GetDiagonalSquared dm.drive
      - fsquare (towerA params dm * dda.directionVector 1 - towerB params dm * dda.directionVector 0)))
    - aAplusbB dda params dm) / params.a2plusb2

/-- The local `hrev` of `PrepareDeltaAxis` (line 307). -/
def hrev (dda : DDA F S) (params : PrepParams F) (dm : DM F S) : F :=
  dda.directionVector 2 * drev dda params dm
    + FloatArith.fastSqrtf (dSquaredMinusAsquaredMinusBsquared params dm
        - FloatArith.ofInt32 2 * drev dda params dm * aAplusbB dda params dm
        - params.a2plusb2 * fsquare (drev dda params dm))

/-- The local `numStepsUp` of `PrepareDeltaAxis` (line 308). -/
def numStepsUp (env : Env F S) (dda : DDA F S) (params : PrepParams F) (dm : DM F S) : Int :=
  castI32 ((hrev dda params dm - dm.delta.h0MinusZ0) * env.DriveStepsPerUnit dm.drive)

/-- Lines 270-287 of `PrepareDeltaAxis` (the `DM_USE_FPU` branch): the geometric constants. -/
def PrepareDeltaAxis.constants (env : Env F S) (dda : DDA F S) (params : PrepParams F)
    (dm : DM F S) : DM F S :=
  let stepsPerMm := env.DriveStepsPerUnit dm.drive
  let dm : DM F S := { dm with
    delta.h0MinusZ0 := FloatArith.fastSqrtf (dSquaredMinusAsquaredMinusBsquared params dm) }
  { dm with
    delta.fTwoA := FloatArith.ofInt32 2 * towerA params dm
    delta.fTwoB := FloatArith.ofInt32 2 * towerB params dm
    delta.fHmz0s := dm.delta.h0MinusZ0 * stepsPerMm
    delta.fMinusAaPlusBbTimesS := -(aAplusbB dda params dm * stepsPerMm)
    delta.fDSquaredMinusAsquaredMinusBsquaredTimesSsquared :=
      dSquaredMinusAsquaredMinusBsquared params dm * fsquare stepsPerMm }

/-- Lines 292-295 of `PrepareDeltaAxis`: a move along Z only. -/
def PrepareDeltaAxis.pureZ (dda : DDA F S) (dm : DM F S) : DM F S :=
  let dm : DM F S := { dm with direction := decide ((0 : F) ≤ dda.directionVector 2) }
  { dm with
    delta.reverseStartDistance := if dm.direction then dda.totalDistance + 1 else -(1 : F)
    reverseStartStep := add32 dm.totalSteps 1 }

/-- Lines 310-333 of `PrepareDeltaAxis`: the reversal point is within the move, and `n` is
`numStepsUp`. -/
def PrepareDeltaAxis.apex (n : Int) (dm : DM F S) : DM F S :=
  if n < 1 then
    { dm with
      delta.reverseStartDistance := -(1 : F)
      reverseStartStep := add32 dm.totalSteps 1
      direction := false }
  else
    let dm : DM F S := { dm with reverseStartStep := add32 (intToU32 n) 1 }
    if dm.direction then
      { dm with totalSteps := intToU32 (2 * n - (dm.totalSteps : Int)) }
    else
      { dm with direction := true, totalSteps := intToU32 (2 * n + (dm.totalSteps : Int)) }

/-- Lines 289-341 of `PrepareDeltaAxis`: where, if anywhere, the carriage reverses. -/
def PrepareDeltaAxis.reversal (env : Env F S) (dda : DDA F S) (params : PrepParams F)
    (dm : DM F S) : DM F S :=
  if params.a2plusb2 ≤ 0 then
    PrepareDeltaAxis.pureZ dda dm
  else
    let d := drev dda params dm
    let dm : DM F S := { dm with delta.reverseStartDistance := d }
    if 0 < d ∧ d < dda.totalDistance then
      PrepareDeltaAxis.apex (numStepsUp env dda params dm) dm
    else
      { dm with reverseStartStep := add32 dm.totalSteps 1, direction := decide ((0 : F) ≤ d) }

/-- Lines 270-348 of `PrepareDeltaAxis`: the record with which the segment engine is
entered. -/
def PrepareDeltaAxis.plan (env : Env F S) (dda : DDA F S) (params : PrepParams F)
    (dm : DM F S) : DM F S :=
  let dm := PrepareDeltaAxis.reversal env dda params (PrepareDeltaAxis.constants env dda params dm)
  { dm with
    distanceSoFar := 0
    timeSoFar := 0
    isDelta := true
    currentSegment := if dda.shapedSegments.isEmpty then dda.unshapedSegments else dda.shapedSegments
    nextStep := 0 }

/-- `DriveMovement::PrepareDeltaAxis`. The inline `CalcNextStepTime` of the header is the
argument `calcNextStepTime`. -/
def PrepareDeltaAxis (env : Env F S) (calcNextStepTime : DDA F S → DM F S → Option (Bool × DM F S))
    (dda : DDA F S) (params : PrepParams F) (dm : DM F S) : Option (Bool × DM F S) :=
  let r := NewDeltaSegment env dda (PrepareDeltaAxis.plan env dda params dm)
  if r.1 then
    calcNextStepTime dda { r.2 with nextStepTime := 0, stepInterval := 999999, stepsTillRecalc := 0 }
  else
    some (false, r.2)

/-! ## Preparation of a Cartesian axis -/

/-- Lines 244-252 of `PrepareCartesianAxis`: the record with which the segment engine is
entered. -/
def PrepareCartesianAxis.plan (env : Env F S) (dda : DDA F S) (dm : DM F S) : DM F S :=
  let dm : DM F S := { dm with
    distanceSoFar := 0
    timeSoFar := 0
    cart.pressureAdvanceK := 0
    cart.effectiveStepsPerMm :=
      env.DriveStepsPerUnit dm.drive * FloatArith.fabsf (dda.directionVector dm.drive) }
  { dm with
    cart.effectiveMmPerStep := 1 / dm.cart.effectiveStepsPerMm
    isDelta := false
    isExtruder := false
    currentSegment := if dda.shapedSegments.isEmpty then dda.unshapedSegments else dda.shapedSegments
    nextStep := 0 }

/-- Lines 259-263 of `PrepareCartesianAxis`: the record handed to `CalcNextStepTime`. -/
def PrepareCartesianAxis.firstStep (dm : DM F S) : DM F S :=
  { dm with
    nextStepTime := 0
    stepInterval := 999999
    stepsTillRecalc := 0
    reverseStartStep := add32 dm.totalSteps 1 }

/-- `DriveMovement::PrepareCartesianAxis`. The inline `CalcNextStepTime` of the header is the
argument `calcNextStepTime`. -/
def PrepareCartesianAxis (env : Env F S)
    (calcNextStepTime : DDA F S → DM F S → Option (Bool × DM F S))
    (dda : DDA F S) (dm : DM F S) : Option (Bool × DM F S) :=
  let r := NewCartesianSegment env (PrepareCartesianAxis.plan env dda dm)
  if r.1 then calcNextStepTime dda (PrepareCartesianAxis.firstStep r.2)
  else some (false, r.2)

/-! ## Preparation of an extruder -/

/-- The `ExtruderShaper` of the drive: its pressure advance `GetK()` and the extrusion
pending, read by `GetExtrusionPending()` and written by `SetExtrusionPending`. -/
structure ExtruderShaper (F : Type) where
  k : F
  extrusionPending : F
  deriving DecidableEq, Repr

/-- The locals `forwardDistance` and `reverseDistance` of `PrepareExtruder`. -/
structure Distances (F : Type) where
  forwardDistance : F
  reverseDistance : F
  deriving DecidableEq, Repr

/-- Lines 366-370 of `PrepareExtruder`. -/
def PrepareExtruder.start (env : Env F S) (dda : DDA F S) (shaper : ExtruderShaper F)
    (dm : DM F S) : DM F S :=
  let dm : DM F S := { dm with
    distanceSoFar := shaper.extrusionPending / dda.directionVector dm.drive
    cart.effectiveStepsPerMm :=
      env.DriveStepsPerUnit dm.drive * FloatArith.fabsf (dda.directionVector dm.drive) }
  { dm with cart.effectiveMmPerStep := 1 / dm.cart.effectiveStepsPerMm }

/-- The local `initialDecelSpeed` (line 392). -/
def initialDecelSpeed (dda : DDA F S) (k : F) : F := dda.topSpeed - k * dda.deceleration

/-- The local `timeToReverse` (line 401), for the deceleration segment `seg`. -/
def timeToReverse (env : Env F S) (dda : DDA F S) (k : F) (seg : S) : F :=
  initialDecelSpeed dda k * ((-half) * env.GetC seg)

/-- Lines 383-416 of `PrepareExtruder`: the distances with pressure advance `k`, for
`forwardDistance = fwd` so far and `decelSeg` the first deceleration segment. -/
def PrepareExtruder.advanced (env : Env F S) (dda : DDA F S) (params : PrepParams F) (k fwd : F)
    (decelSeg : List S) : Distances F :=
  match decelSeg with
  | [] => ⟨fwd + dda.totalDistance, 0⟩
  | seg :: _ =>
    if initialDecelSpeed dda k ≤ 0 then
      ⟨fwd + params.decelStartDistance,
        ((half * dda.deceleration * params.decelClocks) - initialDecelSpeed dda k) * params.decelClocks⟩
    else if timeToReverse env dda k seg < params.decelClocks then
      ⟨fwd + (params.decelStartDistance + half * dda.deceleration * fsquare (timeToReverse env dda k seg)),
        half * dda.deceleration * fsquare (params.decelClocks - timeToReverse env dda k seg)⟩
    else
      ⟨fwd + (dda.totalDistance - (k * dda.deceleration * params.decelClocks)), 0⟩

/-- Lines 372-424 of `PrepareExtruder`, after `start`: the pressure advance stored in the
record, and the two distances. `none` when `dda.unshapedSegments` is null at line 384. -/
def PrepareExtruder.distances (env : Env F S) (dda : DDA F S) (params : PrepParams F)
    (shaper : ExtruderShaper F) (dm : DM F S) : Option (DM F S × Distances F) :=
  if dda.usePressureAdvance = true ∧ 0 < shaper.k then
    let dm : DM F S := { dm with cart.pressureAdvanceK := shaper.k }
    let dm : DM F S := { dm with
      cart.extraExtrusionDistance := dm.cart.pressureAdvanceK * dda.acceleration * params.accelClocks }
    match dda.unshapedSegments with
    | [] => none
    | seg :: rest =>
      some (dm, PrepareExtruder.advanced env dda params dm.cart.pressureAdvanceK
        (dm.distanceSoFar + dm.cart.extraExtrusionDistance)
        (env.GetFirstDecelSegment (seg :: rest)))
  else
    some ({ dm with cart.pressureAdvanceK := 0, cart.extraExtrusionDistance := 0 },
      ⟨dm.distanceSoFar + dda.totalDistance, 0⟩)

/-- Lines 426-461 of `PrepareExtruder`: the steps of the move. The Boolean is false where
the source returns false. -/
def PrepareExtruder.steps (dda : DDA F S) (shaper : ExtruderShaper F) (dm : DM F S)
    (d : Distances F) : Bool × DM F S × ExtruderShaper F :=
  let forwardSteps := d.forwardDistance * dm.cart.effectiveStepsPerMm
  if 0 < d.reverseDistance then
    let netDistance := d.forwardDistance - d.reverseDistance
    let netSteps : Int := castI32 (netDistance * dm.cart.effectiveStepsPerMm)
    if netSteps = 0 ∧ forwardSteps ≤ FloatArith.ofInt32 1 then
      (false, dm, { shaper with extrusionPending := netDistance * dda.directionVector dm.drive })
    else
      let dm : DM F S := { dm with reverseStartStep := castU32 (forwardSteps + FloatArith.ofInt32 1) }
      let dm : DM F S := { dm with
        totalSteps := castU32 (FloatArith.ofUInt32 (mul32 2 dm.reverseStartStep) - forwardSteps) }
      (true, dm, { shaper with
        extrusionPending :=
          (netDistance - FloatArith.ofInt32 netSteps * dm.cart.effectiveMmPerStep)
            * dda.directionVector dm.drive })
  else
    if 1 ≤ forwardSteps then
      let dm : DM F S := { dm with totalSteps := castU32 forwardSteps }
      (true, { dm with reverseStartStep := add32 dm.totalSteps 1 }, { shaper with
        extrusionPending :=
          (d.forwardDistance - FloatArith.ofUInt32 dm.totalSteps * dm.cart.effectiveMmPerStep)
            * dda.directionVector dm.drive })
    else if forwardSteps ≤ -(1 : F) then
      let dm : DM F S := { dm with totalSteps := castU32 (-forwardSteps) }
      (true, { dm with reverseStartStep := add32 dm.totalSteps 1 }, { shaper with
        extrusionPending :=
          (d.forwardDistance + FloatArith.ofUInt32 dm.totalSteps * dm.cart.effectiveMmPerStep)
            * dda.directionVector dm.drive })
    else
      (false, dm, { shaper with extrusionPending := d.forwardDistance * dda.directionVector dm.drive })

/-- Lines 463-468 of `PrepareExtruder`: the record with which the segment engine is
entered. -/
def PrepareExtruder.enter (dda : DDA F S) (dm : DM F S) : DM F S :=
  { dm with
    currentSegment := dda.unshapedSegments
    timeSoFar := 0
    isDelta := false
    isExtruder := true
    nextStep := 0 }

/-- `DriveMovement::PrepareExtruder`: the value returned, the record and the shaper left
behind; `none` when `dda.unshapedSegments` is null where it is dereferenced. The inline
`CalcNextStepTime` of the header is the argument `calcNextStepTime`. -/
def PrepareExtruder (env : Env F S) (calcNextStepTime : DDA F S → DM F S → Option (Bool × DM F S))
    (dda : DDA F S) (params : PrepParams F) (shaper : ExtruderShaper F) (dm : DM F S) :
    Option (Bool × DM F S × ExtruderShaper F) :=
  match PrepareExtruder.distances env dda params shaper (PrepareExtruder.start env dda shaper dm) with
  | none => none
  | some (dm1, d) =>
    let r := PrepareExtruder.steps dda shaper dm1 d
    if r.1 then
      let e := NewExtruderSegment env (PrepareExtruder.enter dda r.2.1)
      if e.1 then
        (calcNextStepTime dda { e.2 with nextStepTime := 0, stepInterval := 999999, stepsTillRecalc := 0 }).map
          (fun c => (c.1, c.2, r.2.2))
      else some (false, e.2, r.2.2)
    else some (false, r.2.1, r.2.2)

/-! ## The allocator -/

/-- The static members of `DriveMovement`: the free list, linked through `nextDM` (a list of
records: the link of a record is the rest of the list), and the number of records made. -/
structure Pool (F S : Type) where
  freeList : List (DM F S)
  numCreated : Nat

/-- `DriveMovement::Allocate`: the record returned, the list its `nextDM` points to, and the
pool afterwards. `fresh` is the record that `new DriveMovement(nullptr)` makes, whose fields
other than the link the constructor leaves unset. -/
def Allocate (fresh : DM F S) (pool : Pool F S) (p_drive : Nat) (st : DMState) :
    DM F S × List (DM F S) × Pool F S :=
  match pool.freeList with
  | dm :: rest =>
    ({ dm with drive := p_drive % 256, state := st }, [], { pool with freeList := rest })
  | [] =>
    ({ fresh with drive := p_drive % 256, state := st }, [],
      { pool with numCreated := add32 pool.numCreated 1 })

/-! ## Notions used to state the claims -/

/-- The distance reached after the segments `segs`, from `d0`: `distanceSoFar` after the loop
body has added each length in turn. -/
def distanceAfter (env : Env F S) (d0 : F) (segs : List S) : F :=
  segs.foldl (fun d s => d + env.GetSegmentLength s) d0

/-- The time reached after the segments `segs`, from `t0`. -/
def timeAfter (env : Env F S) (t0 : F) (segs : List S) : F :=
  segs.foldl (fun t s => t + env.GetSegmentTime s) t0

/-- The limit `floor(D * effectiveStepsPerMm) + 1` (a `uint32_t`) for the distance `D`
reached after the segments `segs`. -/
def limitAfter (env : Env F S) (dm : DM F S) (segs : List S) : Nat :=
  add32 (castU32 (distanceAfter env dm.distanceSoFar segs * dm.cart.effectiveStepsPerMm)) 1

/-- Some segment of `segs`, laid end to end from the distance `d0`, starts at or beyond the
distance `x`. -/
def StartsBeyond (env : Env F S) (d0 x : F) (segs : List S) : Prop :=
  ∃ pre seg suf, segs = pre ++ seg :: suf ∧ x ≤ distanceAfter env d0 pre

/-- The segments of the move that the preparation functions start from (line 346). -/
def moveSegments (dda : DDA F S) : List S :=
  if dda.shapedSegments.isEmpty then dda.unshapedSegments else dda.shapedSegments

/-- The invariant of the data model: outside `idle` and `stepError`, `currentSegment` is not
null. -/
def HasSegment (dm : DM F S) : Prop :=
  dm.state ≠ DMState.idle → dm.state ≠ DMState.stepError → dm.currentSegment ≠ []

/-- A state of motion: neither `idle` nor `stepError`. -/
def DMState.isMotion : DMState → Bool
  | DMState.idle => false
  | DMState.stepError => false
  | _ => true

/-! ## A concrete arithmetic, to run the definitions on examples -/

/-- Integer square root, by downward search from the first argument. -/
def isqrtFrom : Nat → Nat → Nat
  | 0, _ => 0
  | k + 1, n => if (k + 1) * (k + 1) ≤ n then k + 1 else isqrtFrom k n

/-- Whole numbers standing for floats, for the examples whose values are whole numbers. Sums,
differences and products are exact. The quotient and the square root are rounded down to a
whole number: they are the values of the source when the division leaves no remainder and
the root is taken of a perfect square, and the examples are chosen so that every quotient
and every root they take is of that kind. Examples with other values are run in single
precision (`F32`). -/
structure Fixed where
  val : Int
  deriving DecidableEq, Repr

instance instFloatArithFixed : FloatArith Fixed where
  zero := ⟨0⟩
  one := ⟨1⟩
  add a b := ⟨a.val + b.val⟩
  sub a b := ⟨a.val - b.val⟩
  mul a b := ⟨a.val * b.val⟩
  div a b := ⟨a.val / b.val⟩
  neg a := ⟨-a.val⟩
  lt a b := a.val < b.val
  le a b := a.val ≤ b.val
  fastSqrtf a := ⟨(isqrtFrom a.val.toNat a.val.toNat : Nat)⟩
  fabsf a := ⟨(a.val.natAbs : Nat)⟩
  ofUInt32 n := ⟨(n : Int)⟩
  ofInt32 i := ⟨i⟩
  toUInt32 a := a.val.toNat
  toInt32 a := a.val
  decLt a b := Int.decLt a.val b.val
  decLe a b := Int.decLe a.val b.val

/-- A move segment of the examples: its flags, length, duration and coefficient `c`. -/
structure Seg where
  linear : Bool
  accel : Bool
  len : Int
  time : Int
  c : Int
  deriving DecidableEq, Repr

/-! ## An exact arithmetic on fractions, for the examples with halves and quarters -/

/-- A fraction `num/den` in lowest terms. -/
structure Frac where
  num : Int
  den : Nat
  deriving DecidableEq, Repr

/-- The fraction `n/d` in lowest terms (`0` when `d = 0`). -/
def Frac.norm (n : Int) (d : Nat) : Frac :=
  if d = 0 then ⟨0, 1⟩ else ⟨n / (Nat.gcd n.natAbs d : Nat), d / Nat.gcd n.natAbs d⟩

/-- The whole number `i` as a fraction. -/
def Frac.ofInt (i : Int) : Frac := ⟨i, 1⟩

/-- The quotient of two fractions (`0` when the divisor is `0`). -/
def Frac.quot (a b : Frac) : Frac :=
  if b.num < 0 then Frac.norm (-(a.num * b.den)) (a.den * b.num.natAbs)
  else Frac.norm (a.num * b.den) (a.den * b.num.natAbs)

/-- Sums, differences, products and quotients of fractions are exact. The square root is that
of the whole part, rounded down: the value of the source on a whole perfect square, which is
all the examples take it of. -/
instance instFloatArithFrac : FloatArith Frac where
  zero := ⟨0, 1⟩
  one := ⟨1, 1⟩
  add a b := Frac.norm (a.num * b.den + b.num * a.den) (a.den * b.den)
  sub a b := Frac.norm (a.num * b.den - b.num * a.den) (a.den * b.den)
  mul a b := Frac.norm (a.num * b.num) (a.den * b.den)
  div a b := Frac.quot a b
  neg a := ⟨-a.num, a.den⟩
  lt a b := a.num * b.den < b.num * a.den
  le a b := a.num * b.den ≤ b.num * a.den
  fastSqrtf a := ⟨(isqrtFrom (a.num / a.den).toNat (a.num / a.den).toNat : Nat), 1⟩
  fabsf a := ⟨(a.num.natAbs : Nat), a.den⟩
  ofUInt32 n := ⟨(n : Int), 1⟩
  ofInt32 i := ⟨i, 1⟩
  toUInt32 a := (Int.tdiv a.num a.den).toNat
  toInt32 a := Int.tdiv a.num a.den
  decLt a b := Int.decLt (a.num * b.den) (b.num * a.den)
  decLe a b := Int.decLe (a.num * b.den) (b.num * a.den)

/-- The environment of the extruder examples: one step per mm. -/
def fracEnv : Env Frac Seg where
  IsLinear s := s.linear
  IsAccelerating s := s.accel
  GetSegmentLength s := Frac.ofInt s.len
  GetSegmentTime s := Frac.ofInt s.time
  GetC s := Frac.ofInt s.c
  CalcC s mmPerStep := Frac.ofInt s.c * mmPerStep
  CalcLinearB s d t := t - d * Frac.ofInt s.c
  CalcNonlinearA s d := -(d * Frac.ofInt s.c)
  CalcNonlinearB _ t := t
  CalcNonlinearBK _ t k := t - k
  GetFirstDecelSegment l := l.dropWhile (fun s => s.linear || s.accel)
  DriveStepsPerUnit _ := Frac.ofInt 1
  MinCalcInterval := 40
  EVEN_STEPS := true

/-- The environment of the examples: one step per mm, `MinCalcInterval = 40`. -/
def demoEnv (evenSteps : Bool) : Env Fixed Seg where
  IsLinear s := s.linear
  IsAccelerating s := s.accel
  GetSegmentLength s := ⟨s.len⟩
  GetSegmentTime s := ⟨s.time⟩
  GetC s := ⟨s.c⟩
  CalcC s mmPerStep := ⟨s.c * mmPerStep.val⟩
  CalcLinearB s d t := ⟨t.val - d.val * s.c⟩
  CalcNonlinearA s d := ⟨-(d.val * s.c)⟩
  CalcNonlinearB _ t := t
  CalcNonlinearBK _ t k := ⟨t.val - k.val⟩
  GetFirstDecelSegment l := l.dropWhile (fun s => s.linear || s.accel)
  DriveStepsPerUnit _ := ⟨1⟩
  MinCalcInterval := 40
  EVEN_STEPS := evenSteps

/-- The move of the examples: along X, 1000 clocks long. -/
def demoDDA : DDA Fixed Seg where
  directionVector i := if i = 0 then ⟨1⟩ else ⟨0⟩
  totalDistance := ⟨100⟩
  acceleration := ⟨0⟩
  deceleration := ⟨0⟩
  topSpeed := ⟨1⟩
  clocksNeeded := 1000
  usePressureAdvance := false
  shapedSegments := []
  unshapedSegments := []

/-- A record at rest on drive 0, from which the examples are built. -/
def demoDM : DM Fixed Seg where
  drive := 0
  state := DMState.idle
  direction := true
  directionChanged := false
  isDelta := false
  isExtruder := false
  totalSteps := 0
  nextStep := 0
  reverseStartStep := 0
  phaseStepLimit := 0
  nextStepTime := 0
  stepInterval := 0
  stepsTillRecalc := 0
  pA := ⟨0⟩
  pB := ⟨0⟩
  pC := ⟨0⟩
  currentSegment := []
  distanceSoFar := ⟨0⟩
  timeSoFar := ⟨0⟩
  cart := ⟨⟨0⟩, ⟨1⟩, ⟨1⟩, ⟨0⟩⟩
  delta := ⟨⟨0⟩, ⟨0⟩, ⟨0⟩, ⟨0⟩, ⟨0⟩, ⟨0⟩, ⟨0⟩⟩

/-- A linear Cartesian phase at step 1 of 100, eight steps before the end of the phase, the
last interval being 0 clocks. -/
def tierState : DM Fixed Seg :=
  { demoDM with
    state := DMState.cartLinear, totalSteps := 100, nextStep := 1, reverseStartStep := 101,
    phaseStepLimit := 9, pB := ⟨3⟩, pC := ⟨2⟩, stepInterval := 0, nextStepTime := 10 }

/-- A Cartesian axis at the end of its first segment (step 5), the next segment ending at
distance 104; the last interval was 0 clocks. -/
def boundaryState : DM Fixed Seg :=
  { demoDM with
    state := DMState.cartLinear, totalSteps := 1000, nextStep := 5, reverseStartStep := 1001,
    phaseStepLimit := 5, pB := ⟨3⟩, pC := ⟨2⟩, stepInterval := 0, nextStepTime := 10,
    distanceSoFar := ⟨4⟩, timeSoFar := ⟨10⟩,
    currentSegment := [⟨true, false, 4, 10, 1⟩, ⟨true, false, 100, 200, 1⟩] }

/-- A linear Cartesian phase whose formula gives step 1 at clock 5, the previous step time
being 10. -/
def earlyState : DM Fixed Seg :=
  { demoDM with
    state := DMState.cartLinear, totalSteps := 100, nextStep := 1, reverseStartStep := 101,
    phaseStepLimit := 2, pB := ⟨3⟩, pC := ⟨2⟩, stepInterval := 999999, nextStepTime := 10 }

/-- The record `boundaryState` once the second segment has been entered. -/
def boundaryNext : DM Fixed Seg :=
  { boundaryState with
    currentSegment := [⟨true, false, 100, 200, 1⟩], pB := ⟨6⟩, pC := ⟨1⟩,
    distanceSoFar := ⟨104⟩, timeSoFar := ⟨210⟩, phaseStepLimit := 105 }

/-- A linear Cartesian phase at step 4 of 5 whose formula gives clock 2000, after the end
of the move (`clocksNeeded = 1000`). -/
def lateState : DM Fixed Seg :=
  { demoDM with
    state := DMState.cartLinear, totalSteps := 5, nextStep := 4, reverseStartStep := 6,
    phaseStepLimit := 6, pB := ⟨2000⟩, pC := ⟨0⟩, stepInterval := 999999, nextStepTime := 900 }

/-- `max(0, x)` on floats: `x` when `0 < x`, else `0`. -/
def fmaxZero (x : F) : F := if 0 < x then x else 0

/-- The `ds` of the delta formula in the words of the specification, for the record `dm` on
which the formula is evaluated (its height not yet updated) and the `shiftFactor` of the
call: `t1 = fMinusAaPlusBbTimesS + fHmz0s*dirZ`,
`t2 = sqrt(max(0, fDSquaredMinusAsquaredMinusBsquaredTimesSsquared - fHmz0s^2 + t1^2))` on
the updated `fHmz0s`, and `ds = direction ? t1 - t2 : t1 + t2`. -/
def specDs (dda : DDA F S) (dm : DM F S) (shift : Nat) : F :=
  let h : F :=
    if dm.direction then dm.delta.fHmz0s + FloatArith.ofUInt32 (2 ^ shift)
    else dm.delta.fHmz0s - FloatArith.ofUInt32 (2 ^ shift)
  let t1 : F := dm.delta.fMinusAaPlusBbTimesS + h * dda.directionVector 2
  let t2 : F := FloatArith.fastSqrtf
    (fmaxZero (dm.delta.fDSquaredMinusAsquaredMinusBsquaredTimesSsquared - h * h + t1 * t1))
  if dm.direction then t1 - t2 else t1 + t2

/-- The call computes the step time `t` (the float, before it is stored as an integer number
of clocks) from the record `dm1` that the segment advance left, with `r` further steps. -/
def ComputesStepTime (env : Env F S) (dda : DDA F S) (dm dm1 : DM F S) (r : Nat) (t : F) : Prop :=
  advanceSegment env dda dm = some (true, dm1) ∧
  r = 2 ^ chosenShift env dm dm1 - 1 ∧
  (∃ dm3, stepTime env dda (withRecalc dm1 (chosenShift env dm dm1)) (chosenShift env dm dm1)
      = some (StepCalc.time t dm3) ∧ dm3.stepsTillRecalc = r) ∧
  nextCalcStepTime env dda dm = some (castU32 t)

/-- A delta axis moving down at step 3 of 10 whose coefficients make `ds` negative. -/
def breakState : DM Fixed Seg :=
  { demoDM with
    state := DMState.deltaReverse, direction := false, isDelta := true, totalSteps := 10,
    nextStep := 3, reverseStartStep := 11, phaseStepLimit := 11, stepInterval := 999999,
    delta := ⟨⟨0⟩, ⟨0⟩, ⟨0⟩, ⟨0⟩, ⟨201⟩, ⟨-100⟩, ⟨-1⟩⟩ }

/-- A move of 5 along Z downwards. -/
def zDownDDA : DDA Fixed Seg :=
  { demoDDA with directionVector := fun i => if i = 2 then ⟨-1⟩ else ⟨0⟩, totalDistance := ⟨5⟩ }

/-- A record at rest on drive 0, in the arithmetic on fractions. -/
def fracDM : DM Frac Seg where
  drive := 0
  state := DMState.idle
  direction := true
  directionChanged := false
  isDelta := false
  isExtruder := true
  totalSteps := 0
  nextStep := 0
  reverseStartStep := 0
  phaseStepLimit := 0
  nextStepTime := 0
  stepInterval := 0
  stepsTillRecalc := 0
  pA := ⟨0, 1⟩
  pB := ⟨0, 1⟩
  pC := ⟨0, 1⟩
  currentSegment := []
  distanceSoFar := ⟨0, 1⟩
  timeSoFar := ⟨0, 1⟩
  cart := ⟨⟨0, 1⟩, ⟨1, 1⟩, ⟨1, 1⟩, ⟨0, 1⟩⟩
  delta := ⟨⟨0, 1⟩, ⟨0, 1⟩, ⟨0, 1⟩, ⟨0, 1⟩, ⟨0, 1⟩, ⟨0, 1⟩, ⟨0, 1⟩⟩

/-- A deceleration segment with `c = -1`. -/
def decelSeg : Seg := ⟨false, false, 5, 1, -1⟩

/-- An extruder move with pressure advance: top speed 1, deceleration 4, one deceleration
segment. -/
def retractDDA : DDA Frac Seg where
  directionVector _ := ⟨1, 1⟩
  totalDistance := ⟨5, 1⟩
  acceleration := ⟨0, 1⟩
  deceleration := ⟨4, 1⟩
  topSpeed := ⟨1, 1⟩
  clocksNeeded := 1000
  usePressureAdvance := true
  shapedSegments := []
  unshapedSegments := [decelSeg]

/-- Its preparation parameters: deceleration from distance 5 on, for 1 clock. -/
def retractParams : PrepParams Frac where
  initialX := ⟨0, 1⟩
  initialY := ⟨0, 1⟩
  a2plusb2 := ⟨0, 1⟩
  accelClocks := ⟨0, 1⟩
  decelClocks := ⟨1, 1⟩
  decelStartDistance := ⟨5, 1⟩
  GetTowerX _ := ⟨0, 1⟩
  GetTowerY _ := ⟨0, 1⟩
  GetDiagonalSquared _ := ⟨0, 1⟩

/-- A shaper with `K = 1` and nothing pending. -/
def advShaper : ExtruderShaper Frac := ⟨⟨1, 1⟩, ⟨0, 1⟩⟩

/-- The parameters of a short move: deceleration from distance 1 on, for a quarter clock. -/
def tinyParams : PrepParams Frac :=
  { retractParams with decelClocks := ⟨1, 4⟩, decelStartDistance := ⟨1, 1⟩ }

/-- A move with top speed 3 and deceleration 2, so that `topSpeed - K*deceleration = 1`. -/
def slowDDA : DDA Frac Seg :=
  { retractDDA with topSpeed := ⟨3, 1⟩, deceleration := ⟨2, 1⟩ }

/-- Its parameters with a deceleration of 2 clocks. -/
def slowParams : PrepParams Frac :=
  { retractParams with decelClocks := ⟨2, 1⟩ }

/-- Its parameters with a deceleration of a quarter clock. -/
def calmParams : PrepParams Frac :=
  { retractParams with decelClocks := ⟨1, 4⟩ }

/-- A record at the end of its first segment, like `boundaryState`, but in `stepError`. -/
def errorState : DM Fixed Seg :=
  { boundaryState with state := DMState.stepError }

/-- A record in `stepError` in the middle of a phase: `tierState` after an error. -/
def stuckState : DM Fixed Seg :=
  { tierState with state := DMState.stepError }

/-- A record at step 5 whose only segment ends before step 5. -/
def skippedState : DM Fixed Seg :=
  { demoDM with nextStep := 5, currentSegment := [⟨true, false, 4, 10, 1⟩] }

/-- What a segment engine leaves, for the record `a` it was given: `currentSegment` non-null
and a state of motion when it returns true, `currentSegment` null when it returns false, and
a direction that is upward only if it was. -/
def Engaged (a : DM F S) (r : Bool × DM F S) : Prop :=
  (r.1 = true → r.2.currentSegment ≠ [] ∧ r.2.state.isMotion = true) ∧
  (r.1 = false → r.2.currentSegment = []) ∧
  (r.2.direction = true → a.direction = true)

/-- The record that comes out of the `switch`, whichever way it ends. -/
def StepCalc.record : StepCalc F S → DM F S
  | StepCalc.time _ d => d
  | StepCalc.fail d => d

/-- A Cartesian axis at step 5 before two linear segments, of lengths 4 and 100. -/
def walkState : DM Fixed Seg :=
  { demoDM with
    nextStep := 5, totalSteps := 1000,
    currentSegment := [⟨true, false, 4, 10, 1⟩, ⟨true, false, 100, 200, 1⟩] }

/-- An extruder in its deceleration, one step past the turn at step 6 of 10. -/
def turnState : DM Fixed Seg :=
  { demoDM with
    state := DMState.cartDecelForwardsReversing, isExtruder := true, totalSteps := 10,
    nextStep := 7, reverseStartStep := 6, phaseStepLimit := 11, pB := ⟨10⟩, pC := ⟨5⟩,
    stepInterval := 999999, nextStepTime := 5,
    currentSegment := [⟨false, false, 10, 100, 1⟩] }

/-- A linear Cartesian phase at step 1 of a phase that ends before step 50: `pB = 3`,
`pC = 50`, the previous step was at clock 3 and the last interval was long. -/
def cruiseState : DM Fixed Seg :=
  { demoDM with
    state := DMState.cartLinear, totalSteps := 100, nextStep := 1, reverseStartStep := 101,
    phaseStepLimit := 50, pB := ⟨3⟩, pC := ⟨50⟩, stepInterval := 999999, nextStepTime := 3,
    currentSegment := [⟨true, false, 100, 200, 1⟩] }

/-- The record `cruiseState` after the call for step 1: that step is at clock 53. -/
def cruiseFirst : DM Fixed Seg :=
  { cruiseState with stepInterval := 50, nextStepTime := 53 }

/-- The record after the call for step 2, at clock 103. -/
def cruiseSecond : DM Fixed Seg :=
  { cruiseState with stepInterval := 50, nextStepTime := 103, nextStep := 2 }

/-- An extruder at its last step, step 7 of 7, one step after the turn at step 6, in a phase
that ends with the move; the last interval was 5 clocks. -/
def overrunState : DM Fixed Seg :=
  { demoDM with
    state := DMState.cartDecelForwardsReversing, isExtruder := true, totalSteps := 7,
    nextStep := 7, reverseStartStep := 6, phaseStepLimit := 8, pB := ⟨10⟩, pC := ⟨3⟩,
    stepInterval := 5, nextStepTime := 5,
    currentSegment := [⟨false, false, 10, 100, 1⟩] }

/-- A delta axis on its way down at step 5 of 7, the turn having been at step 3, in the last
phase of the move; the last interval was 5 clocks. -/
def descentState : DM Fixed Seg :=
  { demoDM with
    state := DMState.deltaReverse, isDelta := true, direction := false, directionChanged := true,
    totalSteps := 7, nextStep := 5, reverseStartStep := 3, phaseStepLimit := 8,
    pB := ⟨10⟩, pC := ⟨1⟩, stepInterval := 5, nextStepTime := 5,
    currentSegment := [⟨true, false, 10, 100, 1⟩],
    delta := ⟨⟨0⟩, ⟨0⟩, ⟨0⟩, ⟨4⟩, ⟨10⟩, ⟨0⟩, ⟨-1⟩⟩ }

/-- The number of binary digits of `n`, by halving; `fuel` bounds the number of halvings. -/
def bitLength : Nat → Nat → Nat
  | 0, _ => 0
  | fuel + 1, n => if n = 0 then 0 else bitLength fuel (n / 2) + 1

/-- The whole number nearest to `n/d`, a tie going to the even one. -/
def roundHalfEven (n d : Nat) : Nat :=
  if 2 * (n % d) > d ∨ (2 * (n % d) = d ∧ (n / d) % 2 = 1) then n / d + 1 else n / d

/-- The binary exponent `e` of the last of 24 significant digits of `n/d` (both positive):
`2^23 <= (n/d) / 2^e < 2^24`. -/
def lastDigit (n d : Nat) : Int :=
  let s : Int := (bitLength n n : Int) - (bitLength d d : Int)
  if d * 2 ^ s.toNat ≤ n * 2 ^ (-s).toNat then s - 23 else s - 24

/-- The value with 24 significant binary digits nearest to `n/d` (both positive), a tie going
to the even last digit. -/
def Frac.nearest (n d : Nat) : Frac :=
  let e := lastDigit n d
  Frac.norm ((roundHalfEven (n * 2 ^ (-e).toNat) (d * 2 ^ e.toNat) * 2 ^ e.toNat : Nat) : Int)
    (2 ^ (-e).toNat)

/-- Rounding of a fraction to single precision: to nearest, ties to even. -/
def Frac.round24 (a : Frac) : Frac :=
  if a.num = 0 ∨ a.den = 0 then ⟨0, 1⟩
  else if a.num < 0 then ⟨-(Frac.nearest a.num.natAbs a.den).num, (Frac.nearest a.num.natAbs a.den).den⟩
  else Frac.nearest a.num.natAbs a.den

/-- Integer square root, one binary digit at a time from digit `k - 1` down; `r` is the root
found so far. -/
def isqrtBits : Nat → Nat → Nat → Nat
  | 0, _, r => r
  | k + 1, n, r => if (r + 2 ^ k) * (r + 2 ^ k) ≤ n then isqrtBits k n (r + 2 ^ k) else isqrtBits k n r

/-- The square root of a fraction rounded to single precision (`0` for a negative one). The root
is taken of `num * den * 4^p` with `p` large enough for 26 digits and more; when it is not
exact, half a unit is added, which lies on the same side of every rounding boundary as the
true root. -/
def Frac.sqrt24 (a : Frac) : Frac :=
  if a.num ≤ 0 ∨ a.den = 0 then ⟨0, 1⟩
  else
    let p := 26 + bitLength a.den a.den
    let m := a.num.natAbs * a.den * 4 ^ p
    let s := isqrtBits (bitLength m m / 2 + 1) m 0
    if s * s = m then Frac.round24 (Frac.norm s (a.den * 2 ^ p))
    else Frac.round24 (Frac.norm ((2 * s + 1 : Nat) : Int) (2 * (a.den * 2 ^ p)))

/-- A `float` of the target: IEEE 754 single precision, held as the fraction it stands for.
Every operation is the exact one followed by rounding to nearest, ties to even. Infinities,
NaNs, subnormal numbers and overflow are left out. -/
structure F32 where
  frac : Frac
  deriving DecidableEq, Repr

instance instFloatArithF32 : FloatArith F32 where
  zero := ⟨⟨0, 1⟩⟩
  one := ⟨⟨1, 1⟩⟩
  add a b := ⟨Frac.round24 (a.frac + b.frac)⟩
  sub a b := ⟨Frac.round24 (a.frac - b.frac)⟩
  mul a b := ⟨Frac.round24 (a.frac * b.frac)⟩
  div a b := ⟨Frac.round24 (a.frac / b.frac)⟩
  neg a := ⟨-a.frac⟩
  lt a b := a.frac < b.frac
  le a b := a.frac ≤ b.frac
  fastSqrtf a := ⟨Frac.sqrt24 a.frac⟩
  fabsf a := ⟨FloatArith.fabsf a.frac⟩
  ofUInt32 n := ⟨Frac.round24 ⟨(n : Int), 1⟩⟩
  ofInt32 i := ⟨Frac.round24 ⟨i, 1⟩⟩
  toUInt32 a := FloatArith.toUInt32 a.frac
  toInt32 a := FloatArith.toInt32 a.frac
  decLt a b := FloatArith.decLt a.frac b.frac
  decLe a b := FloatArith.decLe a.frac b.frac


/-- The environment of the single-precision examples: one step per mm, `MinCalcInterval = 40`,
`EVEN_STEPS` on. -/
def f32Env : Env F32 Seg where
  IsLinear s := s.linear
  IsAccelerating s := s.accel
  GetSegmentLength s := FloatArith.ofInt32 s.len
  GetSegmentTime s := FloatArith.ofInt32 s.time
  GetC s := FloatArith.ofInt32 s.c
  CalcC s mmPerStep := FloatArith.ofInt32 s.c * mmPerStep
  CalcLinearB s d t := t - d * FloatArith.ofInt32 s.c
  CalcNonlinearA s d := -(d * FloatArith.ofInt32 s.c)
  CalcNonlinearB _ t := t
  CalcNonlinearBK _ t k := t - k
  GetFirstDecelSegment l := l.dropWhile (fun s => s.linear || s.accel)
  DriveStepsPerUnit _ := FloatArith.ofInt32 1
  MinCalcInterval := 40
  EVEN_STEPS := true

/-- A long slow move along X: 40000000 clocks. -/
def longDDA : DDA F32 Seg where
  directionVector i := if i = 0 then ⟨⟨1, 1⟩⟩ else ⟨⟨0, 1⟩⟩
  totalDistance := ⟨⟨100, 1⟩⟩
  acceleration := ⟨⟨0, 1⟩⟩
  deceleration := ⟨⟨0, 1⟩⟩
  topSpeed := ⟨⟨1, 1⟩⟩
  clocksNeeded := 40000000
  usePressureAdvance := false
  shapedSegments := []
  unshapedSegments := []

/-- A linear Cartesian phase late in a long move, in single precision: step 1 of the phase,
`pB = 33554432 = 2^25` clocks, `pC = 101.5` clocks per step, the previous step at clock
33554432 and the last interval 101 clocks. -/
def longState : DM F32 Seg where
  drive := 0
  state := DMState.cartLinear
  direction := true
  directionChanged := false
  isDelta := false
  isExtruder := false
  totalSteps := 200
  nextStep := 1
  reverseStartStep := 201
  phaseStepLimit := 100
  nextStepTime := 33554432
  stepInterval := 101
  stepsTillRecalc := 0
  pA := ⟨⟨0, 1⟩⟩
  pB := ⟨⟨33554432, 1⟩⟩
  pC := ⟨⟨203, 2⟩⟩
  currentSegment := [⟨true, false, 100, 200, 1⟩]
  distanceSoFar := ⟨⟨0, 1⟩⟩
  timeSoFar := ⟨⟨0, 1⟩⟩
  cart := ⟨⟨⟨0, 1⟩⟩, ⟨⟨1, 1⟩⟩, ⟨⟨1, 1⟩⟩, ⟨⟨0, 1⟩⟩⟩
  delta := ⟨⟨⟨0, 1⟩⟩, ⟨⟨0, 1⟩⟩, ⟨⟨0, 1⟩⟩, ⟨⟨0, 1⟩⟩, ⟨⟨0, 1⟩⟩, ⟨⟨0, 1⟩⟩, ⟨⟨0, 1⟩⟩⟩

/-- The record `longState` after the call for step 1: that step is at clock 33554532. -/
def longFirst : DM F32 Seg :=
  { longState with stepInterval := 100, nextStepTime := 33554532 }

/-- The record after the call for step 2, at clock 33554636. -/
def longSecond : DM F32 Seg :=
  { longState with stepInterval := 104, nextStepTime := 33554636, nextStep := 2 }

/-- The whole number `i` as a `float`, for an `i` that single precision holds exactly: every
`|i| <= 2^24`, and the even ones up to `2^25`. -/
def F32.whole (i : Int) : F32 := ⟨⟨i, 1⟩⟩

/-- A record at rest on drive 0, in single precision. -/
def restState : DM F32 Seg where
  drive := 0
  state := DMState.idle
  direction := true
  directionChanged := false
  isDelta := false
  isExtruder := false
  totalSteps := 0
  nextStep := 0
  reverseStartStep := 0
  phaseStepLimit := 0
  nextStepTime := 0
  stepInterval := 0
  stepsTillRecalc := 0
  pA := F32.whole 0
  pB := F32.whole 0
  pC := F32.whole 0
  currentSegment := []
  distanceSoFar := F32.whole 0
  timeSoFar := F32.whole 0
  cart := ⟨F32.whole 0, F32.whole 1, F32.whole 1, F32.whole 0⟩
  delta := ⟨F32.whole 0, F32.whole 0, F32.whole 0, F32.whole 0, F32.whole 0, F32.whole 0,
    F32.whole 0⟩

/-- A move of 5 mm straight down, in one linear segment of 500 clocks. -/
def dropDDA : DDA F32 Seg where
  directionVector i := if i = 2 then F32.whole (-1) else F32.whole 0
  totalDistance := F32.whole 5
  acceleration := F32.whole 0
  deceleration := F32.whole 0
  topSpeed := F32.whole 1
  clocksNeeded := 500
  usePressureAdvance := false
  shapedSegments := []
  unshapedSegments := [⟨true, false, 5, 500, 100⟩]

/-- The same move straight up. -/
def liftDDA : DDA F32 Seg :=
  { dropDDA with directionVector := fun i => if i = 2 then F32.whole 1 else F32.whole 0 }

/-- Preparation parameters of a move along Z only, for a tower at `(6, 0)` with a rod 10
long and the effector at the origin: `a2plusb2 = 0`; the carriage starts at height 8. -/
def plumbParams : PrepParams F32 where
  initialX := F32.whole 0
  initialY := F32.whole 0
  a2plusb2 := F32.whole 0
  accelClocks := F32.whole 0
  decelClocks := F32.whole 0
  decelStartDistance := F32.whole 0
  GetTowerX _ := F32.whole 6
  GetTowerY _ := F32.whole 0
  GetDiagonalSquared _ := F32.whole 100

/-- Preparation parameters of a move along X past that tower: `a2plusb2 = 1`. The carriage
is highest, at height 10, when the effector is at distance 6. -/
def towerParams : PrepParams F32 :=
  { plumbParams with a2plusb2 := F32.whole 1 }

/-- A move of 14 mm along X in one linear segment: the carriage rises from height 8 to 10
and comes down to 6. -/
def passDDA : DDA F32 Seg :=
  { dropDDA with
    directionVector := fun i => if i = 0 then F32.whole 1 else F32.whole 0
    totalDistance := F32.whole 14
    clocksNeeded := 1400
    unshapedSegments := [⟨true, false, 14, 1400, 100⟩] }

/-- A move of 7 mm along X in one linear segment: the carriage rises from height 8 to 10 and
comes down to `sqrt 99`, about 9.95. -/
def arcDDA : DDA F32 Seg :=
  { passDDA with
    totalDistance := F32.whole 7
    clocksNeeded := 700
    unshapedSegments := [⟨true, false, 7, 700, 100⟩] }

/-- The record handed to `PrepareDeltaAxis` for a net movement of 5 steps down. -/
def downFive : DM F32 Seg := { restState with totalSteps := 5, direction := false }

/-- The record handed to `PrepareDeltaAxis` for a net movement of 5 steps up. -/
def upFive : DM F32 Seg := { restState with totalSteps := 5, direction := true }

/-- The record handed to `PrepareDeltaAxis` for a net movement of 2 steps down. -/
def downTwo : DM F32 Seg := { restState with totalSteps := 2, direction := false }

/-- The record handed to `PrepareDeltaAxis` for a net movement of 2 steps up. -/
def upTwo : DM F32 Seg := { restState with totalSteps := 2, direction := true }

/-- The record handed to `PrepareDeltaAxis` for a net movement of 1 step up. -/
def upOne : DM F32 Seg := { restState with totalSteps := 1, direction := true }

/-- What no segment engine writes: `b` has these fields as `a` has them. -/
def Kept (a b : DM F S) : Prop :=
  b.drive = a.drive ∧ b.isDelta = a.isDelta ∧ b.isExtruder = a.isExtruder ∧
  b.totalSteps = a.totalSteps ∧ b.nextStep = a.nextStep ∧
  b.reverseStartStep = a.reverseStartStep ∧ b.nextStepTime = a.nextStepTime ∧
  b.stepInterval = a.stepInterval ∧ b.stepsTillRecalc = a.stepsTillRecalc ∧
  b.cart = a.cart ∧ b.delta = a.delta

/-- What the `switch` on the state leaves alone when it yields a step time. -/
def Carried (a b : DM F S) : Prop :=
  b.totalSteps = a.totalSteps ∧ b.nextStep = a.nextStep ∧
  b.reverseStartStep = a.reverseStartStep ∧ b.phaseStepLimit = a.phaseStepLimit ∧
  b.nextStepTime = a.nextStepTime ∧ b.stepInterval = a.stepInterval ∧
  b.stepsTillRecalc = a.stepsTillRecalc ∧ b.currentSegment = a.currentSegment

/-! ## Lemmas on the 32-bit arithmetic -/

theorem sub32_eq_zero_iff {a b : Nat} (ha : a < u32) (hb : b < u32) : sub32 a b = 0 ↔ a = b := by
  unfold sub32 u32 at *
  omega

theorem sub32_of_le {a b : Nat} (ha : a < u32) (hba : b ≤ a) : sub32 a b = a - b := by
  unfold sub32 u32 at *
  omega

theorem add32_lt (a b : Nat) : add32 a b < u32 := by
  unfold add32 u32
  omega

theorem castU32_lt (x : F) : castU32 x < u32 := by
  unfold castU32 u32
  omega

theorem castI32_range (x : F) : -2147483648 ≤ castI32 x ∧ castI32 x < 2147483648 := by
  unfold castI32
  omega

/-! ## The segment engines keep the step counters -/

theorem kept_refl (a : DM F S) : Kept a a := by
  simp [Kept]

theorem kept_trans {a b c : DM F S} (h1 : Kept a b) (h2 : Kept b c) : Kept a c := by
  unfold Kept at *
  obtain ⟨a1, a2, a3, a4, a5, a6, a7, a8, a9, a10, a11⟩ := h1
  obtain ⟨b1, b2, b3, b4, b5, b6, b7, b8, b9, b10, b11⟩ := h2
  exact ⟨b1.trans a1, b2.trans a2, b3.trans a3, b4.trans a4, b5.trans a5, b6.trans a6,
    b7.trans a7, b8.trans a8, b9.trans a9, b10.trans a10, b11.trans a11⟩

theorem cartesianVisit_kept (env : Env F S) (seg : S) (dm : DM F S) :
    Kept dm (NewCartesianSegment.visit env seg dm) := by
  unfold NewCartesianSegment.visit Kept
  split_ifs <;> simp

theorem cartesianLoop_kept (env : Env F S) (l : List S) :
    ∀ dm : DM F S, Kept dm (NewCartesianSegment.loop env l dm).2 := by
  induction l with
  | nil => intro dm; simp [NewCartesianSegment.loop, Kept]
  | cons seg rest ih =>
    intro dm
    have hv := cartesianVisit_kept env seg dm
    simp only [NewCartesianSegment.loop]
    split_ifs
    · exact hv
    · exact kept_trans hv (ih _)

theorem extruderVisit_kept (env : Env F S) (seg : S) (dm : DM F S) :
    Kept dm (NewExtruderSegment.visit env seg dm) := by
  unfold NewExtruderSegment.visit Kept
  split_ifs <;> simp

theorem extruderLoop_kept (env : Env F S) (l : List S) :
    ∀ dm : DM F S, Kept dm (NewExtruderSegment.loop env l dm).2 := by
  induction l with
  | nil => intro dm; simp [NewExtruderSegment.loop, Kept]
  | cons seg rest ih =>
    intro dm
    have hv := extruderVisit_kept env seg dm
    simp only [NewExtruderSegment.loop]
    split_ifs
    · exact hv
    · exact kept_trans hv (ih _)

theorem deltaCoefficients_kept (env : Env F S) (seg : S) (dm : DM F S) :
    Kept dm (NewDeltaSegment.coefficients env seg dm) := by
  unfold NewDeltaSegment.coefficients Kept
  split_ifs <;> simp

theorem deltaClassify_kept (d : F) (net : Int) (last : Bool) (dm : DM F S) :
    Kept dm (NewDeltaSegment.classify d net last dm) := by
  unfold NewDeltaSegment.classify Kept
  split_ifs <;> simp

theorem deltaVisit_kept (env : Env F S) (dda : DDA F S) (seg : S) (last : Bool)
    (dm : DM F S) : Kept dm (NewDeltaSegment.visit env dda seg last dm) :=
  kept_trans (deltaCoefficients_kept env seg dm) (deltaClassify_kept _ _ _ _)

theorem deltaLoop_kept (env : Env F S) (dda : DDA F S) (l : List S) :
    ∀ dm : DM F S, Kept dm (NewDeltaSegment.loop env dda l dm).2 := by
  induction l with
  | nil => intro dm; simp [NewDeltaSegment.loop, Kept]
  | cons seg rest ih =>
    intro dm
    have hv := deltaVisit_kept env dda seg rest.isEmpty dm
    simp only [NewDeltaSegment.loop]
    split_ifs
    · exact hv
    · exact kept_trans hv (ih _)

/-! ## Lemmas on the step-time generator -/

theorem newSegment_kept (env : Env F S) (dda : DDA F S) (dm : DM F S) :
    Kept dm (newSegment env dda dm).2 := by
  unfold newSegment
  split_ifs
  · exact deltaLoop_kept env dda _ _
  · exact extruderLoop_kept env _ _
  · exact cartesianLoop_kept env _ _

/-- How `advanceSegment` ends, case by case. -/
theorem advanceSegment_cases (env : Env F S) (dda : DDA F S) (dm : DM F S) :
    (sub32 dm.phaseStepLimit dm.nextStep ≠ 0 ∧ advanceSegment env dda dm = some (true, dm)) ∨
    (sub32 dm.phaseStepLimit dm.nextStep = 0 ∧ dm.currentSegment = [] ∧
      advanceSegment env dda dm = none) ∨
    (∃ seg rest, sub32 dm.phaseStepLimit dm.nextStep = 0 ∧ dm.currentSegment = seg :: rest ∧
      (newSegment env dda { dm with currentSegment := rest }).1 = true ∧
      advanceSegment env dda dm = some (true, (newSegment env dda { dm with currentSegment := rest }).2)) ∨
    (∃ seg rest, sub32 dm.phaseStepLimit dm.nextStep = 0 ∧ dm.currentSegment = seg :: rest ∧
      (newSegment env dda { dm with currentSegment := rest }).1 = false ∧
      advanceSegment env dda dm = some (false,
        { (newSegment env dda { dm with currentSegment := rest }).2 with
          state := DMState.stepError
          nextStep := add32 (newSegment env dda { dm with currentSegment := rest }).2.nextStep 100000000 })) := by
  by_cases h0 : sub32 dm.phaseStepLimit dm.nextStep = 0
  · cases hs : dm.currentSegment with
    | nil => right; left; exact ⟨h0, rfl, by simp [advanceSegment, h0, hs]⟩
    | cons seg rest =>
      by_cases hm : (newSegment env dda { dm with currentSegment := rest }).1 = true
      · right; right; left
        exact ⟨seg, rest, h0, rfl, hm, by simp [advanceSegment, h0, hs, hm]⟩
      · right; right; right
        simp only [Bool.not_eq_true] at hm
        exact ⟨seg, rest, h0, rfl, hm, by simp [advanceSegment, h0, hs, hm]⟩
  · left; exact ⟨h0, by simp [advanceSegment, h0]⟩

theorem advanceSegment_kept {env : Env F S} {dda : DDA F S} {dm dm1 : DM F S}
    (h : advanceSegment env dda dm = some (true, dm1)) : Kept dm dm1 := by
  rcases advanceSegment_cases env dda dm with ⟨-, h1⟩ | ⟨-, -, h1⟩ | ⟨seg, rest, -, -, -, h1⟩ |
    ⟨seg, rest, -, -, -, h1⟩
  · rw [h1] at h
    simp only [Option.some.injEq, Prod.mk.injEq, true_and] at h
    subst h
    exact kept_refl _
  · rw [h1] at h; simp at h
  · rw [h1] at h
    simp only [Option.some.injEq, Prod.mk.injEq, true_and] at h
    subst h
    exact kept_trans (by simp [Kept]) (newSegment_kept env dda _)
  · rw [h1] at h; simp at h

theorem shiftFactor_le (m i n : Nat) : shiftFactor m i n ≤ 3 := by
  unfold shiftFactor
  split_ifs <;> omega

theorem sub32_pow_shift {k : Nat} (hk : k ≤ 3) : sub32 (2 ^ k) 1 = 2 ^ k - 1 := by
  have h : k = 0 ∨ k = 1 ∨ k = 2 ∨ k = 3 := by omega
  rcases h with rfl | rfl | rfl | rfl <;> rfl

theorem withRecalc_recalc (env : Env F S) (dm0 dm : DM F S) :
    (withRecalc dm (chosenShift env dm0 dm)).stepsTillRecalc = 2 ^ chosenShift env dm0 dm - 1 := by
  unfold withRecalc
  exact sub32_pow_shift (shiftFactor_le _ _ _)

/-- How `deltaStepTime` ends, case by case. -/
theorem deltaStepTime_cases (env : Env F S) (dda : DDA F S) (dm : DM F S) (shift : Nat) :
    (deltaDs dda (deltaRaise dm shift) < 0 ∧
      deltaStepTime env dda dm shift = some (StepCalc.fail
        { deltaRaise dm shift with
          state := DMState.stepError, nextStep := add32 dm.nextStep 110000000 })) ∨
    (¬ deltaDs dda (deltaRaise dm shift) < 0 ∧ dm.currentSegment = [] ∧
      deltaStepTime env dda dm shift = none) ∨
    (¬ deltaDs dda (deltaRaise dm shift) < 0 ∧
      ∃ t dm3, deltaStepTime env dda dm shift = some (StepCalc.time t dm3) ∧ Carried dm dm3 ∧
        dm3.state = dm.state ∧ dm3.direction = dm.direction ∧
        dm3.directionChanged = dm.directionChanged) := by
  by_cases hds : deltaDs dda (deltaRaise dm shift) < 0
  · left
    refine ⟨hds, ?_⟩
    simp only [deltaStepTime, hds, if_true]
    rfl
  · right
    cases hs : dm.currentSegment with
    | nil =>
      left
      refine ⟨hds, rfl, ?_⟩
      have hs2 : (deltaRaise dm shift).currentSegment = [] := hs
      simp only [deltaStepTime, hds, if_false, hs2]
    | cons seg rest =>
      right
      refine ⟨hds, ?_⟩
      have hs2 : (deltaRaise dm shift).currentSegment = seg :: rest := hs
      simp only [deltaStepTime, hds, if_false, hs2]
      refine ⟨_, _, rfl, ?_⟩
      split_ifs <;> simp [Carried, deltaRaise, hs]

theorem carried_refl (a : DM F S) : Carried a a := by
  simp [Carried]

theorem carried_trans {a b c : DM F S} (h1 : Carried a b) (h2 : Carried b c) : Carried a c := by
  unfold Carried at *
  obtain ⟨a1, a2, a3, a4, a5, a6, a7, a8⟩ := h1
  obtain ⟨b1, b2, b3, b4, b5, b6, b7, b8⟩ := h2
  exact ⟨b1.trans a1, b2.trans a2, b3.trans a3, b4.trans a4, b5.trans a5, b6.trans a6,
    b7.trans a7, b8.trans a8⟩

theorem deltaTurn_carried (dm : DM F S) : Carried dm (deltaTurn dm) := by
  unfold deltaTurn
  split_ifs <;> simp [Carried]

theorem stepTime_delta {env : Env F S} {dda : DDA F S} {dm : DM F S} {shift : Nat}
    (h : dm.state.isDeltaMotion = true) :
    stepTime env dda dm shift = deltaStepTime env dda (deltaTurn dm) shift := by
  cases hst : dm.state <;> simp [hst, DMState.isDeltaMotion] at h <;>
    simp only [stepTime, hst] <;> simp [deltaTurn, hst]

/-- A failure inside the `switch`: either the state was not a state of motion and the record
is untouched, or the delta formula broke down. -/
theorem stepTime_fail {env : Env F S} {dda : DDA F S} {dm dm3 : DM F S} {shift : Nat}
    (h : stepTime env dda dm shift = some (StepCalc.fail dm3)) :
    (dm3 = dm ∧ (dm.state = DMState.idle ∨ dm.state = DMState.stepError)) ∨
    (dm.state.isDeltaMotion = true ∧ deltaDs dda (deltaPoint dm shift) < 0 ∧
      dm3.state = DMState.stepError ∧ dm3.nextStep = add32 dm.nextStep 110000000 ∧
      dm3.stepsTillRecalc = dm.stepsTillRecalc) := by
  by_cases hd : dm.state.isDeltaMotion = true
  · right
    rw [stepTime_delta hd] at h
    have hc := deltaTurn_carried dm
    rcases deltaStepTime_cases env dda (deltaTurn dm) shift with ⟨h1, h2⟩ | ⟨-, -, h2⟩ |
      ⟨-, t, d, h2, -⟩
    · rw [h2] at h
      simp only [Option.some.injEq, StepCalc.fail.injEq] at h
      subst h
      refine ⟨hd, h1, rfl, ?_, ?_⟩
      · show add32 (deltaTurn dm).nextStep 110000000 = add32 dm.nextStep 110000000
        rw [hc.2.1]
      · show (deltaTurn dm).stepsTillRecalc = dm.stepsTillRecalc
        exact hc.2.2.2.2.2.2.1
    · rw [h2] at h; simp at h
    · rw [h2] at h; simp at h
  · left
    cases hst : dm.state <;> simp [hst, DMState.isDeltaMotion] at hd <;>
      simp only [stepTime, hst] at h <;> first
        | (simp only [Option.some.injEq, StepCalc.fail.injEq] at h; exact ⟨h.symm, by simp⟩)
        | (split_ifs at h <;> simp at h)
        | simp at h

/-- A step time out of the `switch` leaves the counters as they were. -/
theorem stepTime_carried {env : Env F S} {dda : DDA F S} {dm dm3 : DM F S} {shift : Nat} {t : F}
    (h : stepTime env dda dm shift = some (StepCalc.time t dm3)) : Carried dm dm3 := by
  by_cases hd : dm.state.isDeltaMotion = true
  · rw [stepTime_delta hd] at h
    rcases deltaStepTime_cases env dda (deltaTurn dm) shift with ⟨-, h2⟩ | ⟨-, -, h2⟩ |
      ⟨-, t2, d, h2, hc, -⟩
    · rw [h2] at h; simp at h
    · rw [h2] at h; simp at h
    · rw [h2] at h
      simp only [Option.some.injEq, StepCalc.time.injEq] at h
      obtain ⟨-, rfl⟩ := h
      exact carried_trans (deltaTurn_carried dm) hc
  · cases hst : dm.state <;> simp [hst, DMState.isDeltaMotion] at hd <;>
      simp only [stepTime, hst] at h <;> first
        | (simp only [Option.some.injEq, StepCalc.time.injEq] at h
           obtain ⟨-, rfl⟩ := h
           exact carried_refl _)
        | (split_ifs at h <;> simp only [Option.some.injEq, StepCalc.time.injEq] at h <;>
            obtain ⟨-, rfl⟩ := h <;> simp [Carried])
        | simp at h

theorem finishStep_late_last (env : Env F S) (dda : DDA F S) (dm : DM F S) (shift c : Nat)
    (hl : c > dda.clocksNeeded) (hn : add32 dm.nextStep 1 ≥ dm.totalSteps) :
    finishStep env dda dm shift c =
      (true, { dm with stepInterval := newInterval dm shift c, nextStepTime := dda.clocksNeeded }) := by
  unfold finishStep
  simp only [hl, hn, if_true]
  rfl

theorem finishStep_late_other (env : Env F S) (dda : DDA F S) (dm : DM F S) (shift c : Nat)
    (hl : c > dda.clocksNeeded) (hn : ¬ add32 dm.nextStep 1 ≥ dm.totalSteps) :
    finishStep env dda dm shift c =
      (false, { dm with
        nextStepTime := newStepTime env dm shift c
        state := DMState.stepError
        nextStep := add32 dm.nextStep 120000000
        stepInterval := c }) := by
  unfold finishStep
  simp only [hl, hn, if_true, if_false]
  rfl

theorem finishStep_in_time (env : Env F S) (dda : DDA F S) (dm : DM F S) (shift c : Nat)
    (hl : ¬ c > dda.clocksNeeded) :
    finishStep env dda dm shift c =
      (true, { dm with
        stepInterval := newInterval dm shift c, nextStepTime := newStepTime env dm shift c }) := by
  unfold finishStep
  simp only [hl, if_false]
  rfl

theorem newInterval_mul_le (dm : DM F S) (shift c : Nat) (hc : c < u32)
    (hr : dm.stepsTillRecalc < 2 ^ shift) :
    dm.stepsTillRecalc * newInterval dm shift c ≤ c - dm.nextStepTime := by
  unfold newInterval
  split_ifs with h
  · have h1 : sub32 c dm.nextStepTime = c - dm.nextStepTime := sub32_of_le hc (Nat.le_of_lt h)
    rw [h1, Nat.shiftRight_eq_div_pow]
    calc dm.stepsTillRecalc * ((c - dm.nextStepTime) / 2 ^ shift)
        ≤ 2 ^ shift * ((c - dm.nextStepTime) / 2 ^ shift) :=
          Nat.mul_le_mul_right _ (Nat.le_of_lt hr)
      _ ≤ c - dm.nextStepTime := Nat.mul_div_le _ _
  · simp

theorem newStepTime_eq (env : Env F S) (dm : DM F S) (shift c : Nat) (hc : c < u32)
    (hr : dm.stepsTillRecalc < 2 ^ shift) :
    newStepTime env dm shift c =
      if env.EVEN_STEPS then c - dm.stepsTillRecalc * newInterval dm shift c else c := by
  have h := newInterval_mul_le dm shift c hc hr
  unfold newStepTime
  split_ifs
  · have h2 : mul32 dm.stepsTillRecalc (newInterval dm shift c)
        = dm.stepsTillRecalc * newInterval dm shift c := by
      unfold mul32 u32
      apply Nat.mod_eq_of_lt
      unfold u32 at hc
      omega
    rw [h2]
    apply sub32_of_le hc
    omega
  · rfl

theorem newStepTime_le (env : Env F S) (dm : DM F S) (shift c : Nat) (hc : c < u32)
    (hr : dm.stepsTillRecalc < 2 ^ shift) : newStepTime env dm shift c ≤ c := by
  rw [newStepTime_eq env dm shift c hc hr]
  split_ifs <;> omega

theorem newStepTime_ge (env : Env F S) (dm : DM F S) (shift c : Nat) (hc : c < u32)
    (hr : dm.stepsTillRecalc < 2 ^ shift) (h : dm.nextStepTime ≤ c) :
    dm.nextStepTime ≤ newStepTime env dm shift c := by
  have h1 := newInterval_mul_le dm shift c hc hr
  rw [newStepTime_eq env dm shift c hc hr]
  split_ifs <;> omega

/-- How a call of `CalcNextStepTimeFull` that returns came to its result. -/
theorem CalcNextStepTimeFull_cases {env : Env F S} {dda : DDA F S} {dm : DM F S}
    {r : Bool × DM F S} (h : CalcNextStepTimeFull env dda dm = some r) :
    (∃ seg rest, sub32 dm.phaseStepLimit dm.nextStep = 0 ∧ dm.currentSegment = seg :: rest ∧
      (newSegment env dda { dm with currentSegment := rest }).1 = false ∧
      r = (false, { (newSegment env dda { dm with currentSegment := rest }).2 with
          state := DMState.stepError
          nextStep := add32 dm.nextStep 100000000 }) ∧
      advanceSegment env dda dm = some r) ∨
    (∃ dm1, advanceSegment env dda dm = some (true, dm1) ∧
      ((∃ dm3, stepTime env dda (withRecalc dm1 (chosenShift env dm dm1)) (chosenShift env dm dm1)
            = some (StepCalc.fail dm3) ∧ r = (false, dm3)) ∨
       (∃ t dm3, stepTime env dda (withRecalc dm1 (chosenShift env dm dm1)) (chosenShift env dm dm1)
            = some (StepCalc.time t dm3) ∧
          r = finishStep env dda dm3 (chosenShift env dm dm1) (castU32 t)))) := by
  rcases advanceSegment_cases env dda dm with ⟨-, h1⟩ | ⟨-, -, h1⟩ | ⟨seg, rest, -, -, -, h1⟩ |
    ⟨seg, rest, h0, hs, hm, h1⟩
  on_goal 4 =>
    left
    have hk := (newSegment_kept env dda { dm with currentSegment := rest }).2.2.2.2.1
    simp only [CalcNextStepTimeFull, h1, Option.some.injEq] at h
    refine ⟨seg, rest, h0, hs, hm, ?_, ?_⟩
    · rw [← h, hk]
    · rw [h1, h]
  on_goal 2 => simp [CalcNextStepTimeFull, h1] at h
  all_goals
    right
    refine ⟨_, h1, ?_⟩
    simp only [CalcNextStepTimeFull, h1] at h
    split at h
    · simp at h
    · left; exact ⟨_, by assumption, by simpa using h.symm⟩
    · right; exact ⟨_, _, by assumption, by simpa using h.symm⟩

theorem finishStep_recalc (env : Env F S) (dda : DDA F S) (dm : DM F S) (shift c : Nat) :
    (finishStep env dda dm shift c).2.stepsTillRecalc = dm.stepsTillRecalc := by
  by_cases hl : c > dda.clocksNeeded
  · by_cases hn : add32 dm.nextStep 1 ≥ dm.totalSteps
    · rw [finishStep_late_last env dda dm shift c hl hn]
    · rw [finishStep_late_other env dda dm shift c hl hn]
  · rw [finishStep_in_time env dda dm shift c hl]

/-- Every call that gets past the segment advance leaves `stepsTillRecalc` at
`2 ^ shiftFactor - 1`. -/
theorem CalcNextStepTimeFull_recalc {env : Env F S} {dda : DDA F S} {dm dm1 : DM F S}
    {r : Bool × DM F S} (hadv : advanceSegment env dda dm = some (true, dm1))
    (hr : CalcNextStepTimeFull env dda dm = some r) :
    r.2.stepsTillRecalc = 2 ^ chosenShift env dm dm1 - 1 := by
  have hw := withRecalc_recalc env dm dm1
  rcases CalcNextStepTimeFull_cases hr with ⟨_, _, _, _, _, hr1, h1⟩ | ⟨d1, h1, h2⟩
  · rw [h1, hr1] at hadv
    simp only [Option.some.injEq, Prod.mk.injEq, Bool.false_eq_true, false_and] at hadv
  · rw [h1] at hadv
    simp only [Option.some.injEq, Prod.mk.injEq, true_and] at hadv
    subst hadv
    rcases h2 with ⟨dm3, h3, rfl⟩ | ⟨t, dm3, h3, rfl⟩
    · rcases stepTime_fail h3 with ⟨rfl, -⟩ | ⟨-, -, -, -, h4⟩
      · exact hw
      · exact h4.trans hw
    · rw [finishStep_recalc]
      exact (stepTime_carried h3).2.2.2.2.2.2.1.trans hw

/-- The same, with the interval read on entry. -/
theorem CalcNextStepTimeFull_recalc_entry {env : Env F S} {dda : DDA F S} {dm dm1 : DM F S}
    {r : Bool × DM F S} (hadv : advanceSegment env dda dm = some (true, dm1))
    (hr : CalcNextStepTimeFull env dda dm = some r) :
    r.2.stepsTillRecalc
      = 2 ^ shiftFactor env.MinCalcInterval dm.stepInterval (stepsToLimit dm dm1) - 1 := by
  have h := CalcNextStepTimeFull_recalc hadv hr
  have hk := (advanceSegment_kept hadv).2.2.2.2.2.2.2.1
  unfold chosenShift at h
  rw [hk] at h
  exact h

/-- A call that reaches line 608: the stages it went through. -/
theorem nextCalcStepTime_stages {env : Env F S} {dda : DDA F S} {dm : DM F S} {c : Nat}
    (hc : nextCalcStepTime env dda dm = some c) :
    ∃ dm1 t dm3, advanceSegment env dda dm = some (true, dm1) ∧
      stepTime env dda (withRecalc dm1 (chosenShift env dm dm1)) (chosenShift env dm dm1)
        = some (StepCalc.time t dm3) ∧
      c = castU32 t ∧
      CalcNextStepTimeFull env dda dm = some (finishStep env dda dm3 (chosenShift env dm dm1) c) ∧
      dm3.nextStep = dm.nextStep ∧ dm3.totalSteps = dm.totalSteps ∧
      dm3.nextStepTime = dm.nextStepTime ∧ dm3.stepsTillRecalc < 2 ^ chosenShift env dm dm1 := by
  unfold nextCalcStepTime at hc
  split at hc
  · rename_i dm1 hadv
    split at hc
    · rename_i t dm3 hst
      simp only [Option.some.injEq] at hc
      have hk := advanceSegment_kept hadv
      have hcar := stepTime_carried hst
      have hw := withRecalc_recalc env dm dm1
      have hp : 0 < 2 ^ chosenShift env dm dm1 := Nat.two_pow_pos _
      obtain ⟨-, -, -, k4, k5, -, k7, -⟩ := hk
      obtain ⟨c1, c2, -, -, c5, -, c7, -⟩ := hcar
      refine ⟨dm1, t, dm3, hadv, hst, hc.symm, ?_, ?_, ?_, ?_, ?_⟩
      · simp only [CalcNextStepTimeFull, hadv, hst, hc]
      · exact c2.trans k5
      · exact c1.trans k4
      · exact c5.trans k7
      · rw [c7, hw]
        omega
    · simp at hc
  · simp at hc

/-- A call that returns true reached line 608. -/
theorem nextCalcStepTime_of_true {env : Env F S} {dda : DDA F S} {dm dm' : DM F S}
    (h : CalcNextStepTimeFull env dda dm = some (true, dm')) :
    ∃ c, nextCalcStepTime env dda dm = some c := by
  rcases CalcNextStepTimeFull_cases h with ⟨_, _, _, _, _, hr1, -⟩ | ⟨d1, h1, h2⟩
  · simp only [Prod.mk.injEq, Bool.true_eq_false, false_and] at hr1
  · rcases h2 with ⟨dm3, -, hr1⟩ | ⟨t, dm3, h3, -⟩
    · simp only [Prod.mk.injEq, Bool.true_eq_false, false_and] at hr1
    · exact ⟨castU32 t, by simp only [nextCalcStepTime, h1, h3]⟩

theorem specDs_eq (dda : DDA F S) (dm : DM F S) (shift : Nat)
    (hsqrt : FloatArith.fastSqrtf (0 : F) = 0) :
    specDs dda dm shift = deltaDs dda (deltaRaise dm shift) := by
  have ht2 : ∀ x : F, FloatArith.fastSqrtf (fmaxZero x) = if 0 < x then FloatArith.fastSqrtf x else 0 := by
    intro x
    unfold fmaxZero
    split_ifs
    · rfl
    · exact hsqrt
  unfold specDs deltaDs deltaT2 deltaT1 deltaRaise stepHeight fsquare
  simp only [ht2]

theorem deltaTurn_withRecalc (dm : DM F S) (k : Nat) :
    deltaTurn (withRecalc dm k) = withRecalc (deltaTurn dm) k := by
  unfold deltaTurn withRecalc
  split_ifs <;> rfl

theorem specDs_withRecalc (dda : DDA F S) (dm : DM F S) (k shift : Nat) :
    specDs dda (withRecalc dm k) shift = specDs dda dm shift := by
  unfold specDs withRecalc
  rfl

theorem add32_tag_ne (n : Nat) :
    add32 n 120000000 ≠ add32 n 110000000 ∧ add32 n 120000000 ≠ add32 n 100000000 ∧
    add32 n 110000000 ≠ add32 n 100000000 ∧ n ≠ add32 n 100000000 ∧ n ≠ add32 n 110000000 := by
  unfold add32 u32 at *
  omega

/-- A call in a delta state that got past the segment advance goes through the delta
formula. -/
theorem CalcNextStepTimeFull_delta {env : Env F S} {dda : DDA F S} {dm dm1 : DM F S}
    (hadv : advanceSegment env dda dm = some (true, dm1))
    (hst : dm1.state.isDeltaMotion = true) :
    CalcNextStepTimeFull env dda dm =
      match deltaStepTime env dda (deltaTurn (withRecalc dm1 (chosenShift env dm dm1)))
          (chosenShift env dm dm1) with
      | none => none
      | some (StepCalc.fail dm3) => some (false, dm3)
      | some (StepCalc.time t dm3) =>
        some (finishStep env dda dm3 (chosenShift env dm dm1) (castU32 t)) := by
  have h2 : (withRecalc dm1 (chosenShift env dm dm1)).state.isDeltaMotion = true := hst
  simp only [CalcNextStepTimeFull, hadv, stepTime_delta h2]

theorem finishStep_false {env : Env F S} {dda : DDA F S} {dm dm' : DM F S} {shift c : Nat}
    (h : finishStep env dda dm shift c = (false, dm')) :
    dm'.nextStep = add32 dm.nextStep 120000000 := by
  by_cases hl : c > dda.clocksNeeded
  · by_cases hn : add32 dm.nextStep 1 ≥ dm.totalSteps
    · rw [finishStep_late_last env dda dm shift c hl hn] at h
      simp only [Prod.mk.injEq, Bool.true_eq_false, false_and] at h
    · rw [finishStep_late_other env dda dm shift c hl hn] at h
      simp only [Prod.mk.injEq, true_and] at h
      rw [← h]
  · rw [finishStep_in_time env dda dm shift c hl] at h
    simp only [Prod.mk.injEq, Bool.true_eq_false, false_and] at h

theorem finishStep_segment (env : Env F S) (dda : DDA F S) (dm : DM F S) (shift c : Nat) :
    (finishStep env dda dm shift c).2.currentSegment = dm.currentSegment := by
  by_cases hl : c > dda.clocksNeeded
  · by_cases hn : add32 dm.nextStep 1 ≥ dm.totalSteps
    · rw [finishStep_late_last env dda dm shift c hl hn]
    · rw [finishStep_late_other env dda dm shift c hl hn]
  · rw [finishStep_in_time env dda dm shift c hl]

theorem stepTime_fail_segment {env : Env F S} {dda : DDA F S} {dm dm3 : DM F S} {shift : Nat}
    (h : stepTime env dda dm shift = some (StepCalc.fail dm3)) :
    dm3.currentSegment = dm.currentSegment := by
  by_cases hd : dm.state.isDeltaMotion = true
  · rw [stepTime_delta hd] at h
    have hc := deltaTurn_carried dm
    rcases deltaStepTime_cases env dda (deltaTurn dm) shift with ⟨-, h2⟩ | ⟨-, -, h2⟩ |
      ⟨-, t, d, h2, -⟩
    · rw [h2] at h
      simp only [Option.some.injEq, StepCalc.fail.injEq] at h
      subst h
      show (deltaTurn dm).currentSegment = dm.currentSegment
      exact hc.2.2.2.2.2.2.2
    · rw [h2] at h; simp at h
    · rw [h2] at h; simp at h
  · rcases stepTime_fail h with ⟨rfl, -⟩ | ⟨h1, -⟩
    · rfl
    · exact absurd h1 hd

theorem CalcNextStepTimeFull_exhausted {env : Env F S} {dda : DDA F S} {dm d : DM F S}
    (h : advanceSegment env dda dm = some (false, d)) :
    CalcNextStepTimeFull env dda dm = some (false, d) := by
  simp only [CalcNextStepTimeFull, h]

theorem computesStepTime_intro {env : Env F S} {dda : DDA F S} {dm dm1 dm3 : DM F S} {t : F}
    (hadv : advanceSegment env dda dm = some (true, dm1))
    (hst : stepTime env dda (withRecalc dm1 (chosenShift env dm dm1)) (chosenShift env dm dm1)
      = some (StepCalc.time t dm3)) :
    ComputesStepTime env dda dm dm1 (2 ^ chosenShift env dm dm1 - 1) t := by
  refine ⟨hadv, rfl, ⟨dm3, hst, ?_⟩, ?_⟩
  · rw [(stepTime_carried hst).2.2.2.2.2.2.1]
    exact withRecalc_recalc env dm dm1
  · simp only [nextCalcStepTime, hadv, hst]

theorem constants_kept (env : Env F S) (dda : DDA F S) (params : PrepParams F) (dm : DM F S) :
    (PrepareDeltaAxis.constants env dda params dm).drive = dm.drive ∧
    (PrepareDeltaAxis.constants env dda params dm).totalSteps = dm.totalSteps ∧
    (PrepareDeltaAxis.constants env dda params dm).direction = dm.direction ∧
    (PrepareDeltaAxis.constants env dda params dm).delta.h0MinusZ0
      = FloatArith.fastSqrtf (dSquaredMinusAsquaredMinusBsquared params dm) := by
  unfold PrepareDeltaAxis.constants
  exact ⟨rfl, rfl, rfl, rfl⟩

theorem drev_constants (env : Env F S) (dda : DDA F S) (params : PrepParams F) (dm : DM F S) :
    drev dda params (PrepareDeltaAxis.constants env dda params dm) = drev dda params dm := by
  unfold drev aAplusbB towerA towerB
  rw [(constants_kept env dda params dm).1]

theorem numStepsUp_constants (env : Env F S) (dda : DDA F S) (params : PrepParams F) (dm : DM F S) :
    numStepsUp env dda params (PrepareDeltaAxis.constants env dda params dm) =
      castI32 ((hrev dda params dm - FloatArith.fastSqrtf (dSquaredMinusAsquaredMinusBsquared params dm))
        * env.DriveStepsPerUnit dm.drive) := by
  have h := constants_kept env dda params dm
  unfold numStepsUp hrev drev aAplusbB dSquaredMinusAsquaredMinusBsquared towerA towerB
  rw [h.2.2.2, h.1]
  unfold dSquaredMinusAsquaredMinusBsquared towerA towerB
  rfl

/-- What the plan takes over from the reversal calculation. -/
theorem plan_fields (env : Env F S) (dda : DDA F S) (params : PrepParams F) (dm : DM F S) :
    (PrepareDeltaAxis.plan env dda params dm).direction
      = (PrepareDeltaAxis.reversal env dda params (PrepareDeltaAxis.constants env dda params dm)).direction ∧
    (PrepareDeltaAxis.plan env dda params dm).delta.reverseStartDistance
      = (PrepareDeltaAxis.reversal env dda params
          (PrepareDeltaAxis.constants env dda params dm)).delta.reverseStartDistance ∧
    (PrepareDeltaAxis.plan env dda params dm).reverseStartStep
      = (PrepareDeltaAxis.reversal env dda params (PrepareDeltaAxis.constants env dda params dm)).reverseStartStep ∧
    (PrepareDeltaAxis.plan env dda params dm).totalSteps
      = (PrepareDeltaAxis.reversal env dda params (PrepareDeltaAxis.constants env dda params dm)).totalSteps := by
  unfold PrepareDeltaAxis.plan
  exact ⟨rfl, rfl, rfl, rfl⟩

theorem engine_keeps_plan (env : Env F S) (dda : DDA F S) (p : DM F S) :
    (NewDeltaSegment env dda p).2.delta.reverseStartDistance = p.delta.reverseStartDistance ∧
    (NewDeltaSegment env dda p).2.reverseStartStep = p.reverseStartStep ∧
    (NewDeltaSegment env dda p).2.totalSteps = p.totalSteps := by
  have hk := deltaLoop_kept env dda p.currentSegment p
  obtain ⟨-, -, -, k4, -, k6, -, -, -, -, k11⟩ := hk
  exact ⟨by unfold NewDeltaSegment; rw [k11], k6, k4⟩

theorem intToU32_of_range {i : Int} (h0 : 0 ≤ i) (h1 : i < 4294967296) : (intToU32 i : Int) = i := by
  unfold intToU32
  omega

theorem add32_intToU32_succ {n : Int} (h0 : 1 ≤ n) (h1 : n < 2147483648) :
    (add32 (intToU32 n) 1 : Int) = n + 1 := by
  unfold add32 intToU32 u32
  omega

theorem apex_below (n : Int) (d : DM F S) (h : n < 1) :
    (PrepareDeltaAxis.apex n d).delta.reverseStartDistance = -(1 : F) ∧
    (PrepareDeltaAxis.apex n d).direction = false ∧
    (PrepareDeltaAxis.apex n d).reverseStartStep = add32 d.totalSteps 1 ∧
    (PrepareDeltaAxis.apex n d).totalSteps = d.totalSteps := by
  unfold PrepareDeltaAxis.apex
  rw [if_pos h]
  exact ⟨rfl, rfl, rfl, rfl⟩

theorem apex_up (n : Int) (d : DM F S) (h : ¬ n < 1) (hd : d.direction = true) :
    (PrepareDeltaAxis.apex n d).reverseStartStep = add32 (intToU32 n) 1 ∧
    (PrepareDeltaAxis.apex n d).direction = true ∧
    (PrepareDeltaAxis.apex n d).totalSteps = intToU32 (2 * n - (d.totalSteps : Int)) := by
  unfold PrepareDeltaAxis.apex
  rw [if_neg h]
  dsimp only
  split_ifs
  exact ⟨rfl, hd, rfl⟩

theorem apex_down (n : Int) (d : DM F S) (h : ¬ n < 1) (hd : d.direction = false) :
    (PrepareDeltaAxis.apex n d).reverseStartStep = add32 (intToU32 n) 1 ∧
    (PrepareDeltaAxis.apex n d).direction = true ∧
    (PrepareDeltaAxis.apex n d).totalSteps = intToU32 (2 * n + (d.totalSteps : Int)) := by
  unfold PrepareDeltaAxis.apex
  rw [if_neg h]
  dsimp only
  split_ifs with hc
  · have hc2 : d.direction = true := hc
    rw [hd] at hc2
    exact absurd hc2 (by decide)
  · exact ⟨rfl, rfl, rfl⟩

/-- With the reversal point inside the move, the plan is the apex case for `numStepsUp`. -/
theorem reversal_apex (env : Env F S) (dda : DDA F S) (params : PrepParams F) (dm : DM F S)
    (h1 : ¬ params.a2plusb2 ≤ 0) (h2 : 0 < drev dda params dm)
    (h3 : drev dda params dm < dda.totalDistance) :
    ∃ d : DM F S, d.totalSteps = dm.totalSteps ∧ d.direction = dm.direction ∧
      PrepareDeltaAxis.reversal env dda params (PrepareDeltaAxis.constants env dda params dm)
        = PrepareDeltaAxis.apex
            (castI32 ((hrev dda params dm
                - FloatArith.fastSqrtf (dSquaredMinusAsquaredMinusBsquared params dm))
              * env.DriveStepsPerUnit dm.drive)) d := by
  obtain ⟨-, c2, c3, -⟩ := constants_kept env dda params dm
  have hd := drev_constants env dda params dm
  have hnum := numStepsUp_constants env dda params dm
  have hin : 0 < drev dda params (PrepareDeltaAxis.constants env dda params dm) ∧
      drev dda params (PrepareDeltaAxis.constants env dda params dm) < dda.totalDistance := by
    rw [hd]; exact ⟨h2, h3⟩
  have hnum2 : numStepsUp env dda params
      { PrepareDeltaAxis.constants env dda params dm with
        delta.reverseStartDistance := drev dda params (PrepareDeltaAxis.constants env dda params dm) }
      = _ := hnum
  refine ⟨{ PrepareDeltaAxis.constants env dda params dm with
        delta.reverseStartDistance := drev dda params (PrepareDeltaAxis.constants env dda params dm) },
    c2, c3, ?_⟩
  unfold PrepareDeltaAxis.reversal
  rw [if_neg h1]
  simp only [if_pos hin, hnum2]

/-! ## Lemmas for the engines, the extruder preparation and the state transitions -/

theorem reversal_pureZ (env : Env F S) (dda : DDA F S) (params : PrepParams F) (d : DM F S)
    (h : params.a2plusb2 ≤ 0) :
    (PrepareDeltaAxis.reversal env dda params d).reverseStartStep = add32 d.totalSteps 1 ∧
    (PrepareDeltaAxis.reversal env dda params d).totalSteps = d.totalSteps := by
  unfold PrepareDeltaAxis.reversal
  rw [if_pos h]
  exact ⟨rfl, rfl⟩

theorem reversal_outside (env : Env F S) (dda : DDA F S) (params : PrepParams F) (d : DM F S)
    (h : ¬ params.a2plusb2 ≤ 0)
    (hout : ¬ (0 < drev dda params d ∧ drev dda params d < dda.totalDistance)) :
    (PrepareDeltaAxis.reversal env dda params d).reverseStartStep = add32 d.totalSteps 1 ∧
    (PrepareDeltaAxis.reversal env dda params d).totalSteps = d.totalSteps := by
  unfold PrepareDeltaAxis.reversal
  rw [if_neg h]
  dsimp only
  rw [if_neg hout]
  exact ⟨rfl, rfl⟩

theorem extruderStart_fields (env : Env F S) (dda : DDA F S) (shaper : ExtruderShaper F)
    (dm : DM F S) :
    (PrepareExtruder.start env dda shaper dm).totalSteps = dm.totalSteps ∧
    (PrepareExtruder.start env dda shaper dm).drive = dm.drive ∧
    (PrepareExtruder.start env dda shaper dm).distanceSoFar
      = shaper.extrusionPending / dda.directionVector dm.drive ∧
    (PrepareExtruder.start env dda shaper dm).cart.effectiveStepsPerMm
      = env.DriveStepsPerUnit dm.drive * FloatArith.fabsf (dda.directionVector dm.drive) :=
  ⟨rfl, rfl, rfl, rfl⟩

/-- Without pressure advance the forward distance is what is pending plus the whole move. -/
theorem distances_plain (env : Env F S) (dda : DDA F S) (params : PrepParams F)
    (shaper : ExtruderShaper F) (x : DM F S)
    (h : ¬ (dda.usePressureAdvance = true ∧ 0 < shaper.k)) :
    PrepareExtruder.distances env dda params shaper x
      = some ({ x with cart.pressureAdvanceK := 0, cart.extraExtrusionDistance := 0 },
          ⟨x.distanceSoFar + dda.totalDistance, 0⟩) := by
  unfold PrepareExtruder.distances
  rw [if_neg h]

/-- With pressure advance the extra extrusion distance is added first. -/
theorem distances_advance (env : Env F S) (dda : DDA F S) (params : PrepParams F)
    (shaper : ExtruderShaper F) (x : DM F S)
    (hpa : dda.usePressureAdvance = true) (hk : 0 < shaper.k) (hne : dda.unshapedSegments ≠ []) :
    PrepareExtruder.distances env dda params shaper x
      = some ({ x with
            cart.pressureAdvanceK := shaper.k
            cart.extraExtrusionDistance := shaper.k * dda.acceleration * params.accelClocks },
          PrepareExtruder.advanced env dda params shaper.k
            (x.distanceSoFar + shaper.k * dda.acceleration * params.accelClocks)
            (env.GetFirstDecelSegment dda.unshapedSegments)) := by
  unfold PrepareExtruder.distances
  rw [if_pos ⟨hpa, hk⟩]
  cases hs : dda.unshapedSegments with
  | nil => exact absurd hs hne
  | cons seg rest => rfl

/-- The distances are worked out without touching the step counters. -/
theorem distances_kept {env : Env F S} {dda : DDA F S} {params : PrepParams F}
    {shaper : ExtruderShaper F} {x dm1 : DM F S} {d : Distances F}
    (h : PrepareExtruder.distances env dda params shaper x = some (dm1, d)) :
    dm1.totalSteps = x.totalSteps ∧ dm1.drive = x.drive ∧
    dm1.cart.effectiveStepsPerMm = x.cart.effectiveStepsPerMm ∧
    dm1.distanceSoFar = x.distanceSoFar := by
  by_cases hc : dda.usePressureAdvance = true ∧ 0 < shaper.k
  · by_cases hne : dda.unshapedSegments = []
    · unfold PrepareExtruder.distances at h
      rw [if_pos hc] at h
      simp only [hne] at h
      exact absurd h (by simp)
    · rw [distances_advance env dda params shaper x hc.1 hc.2 hne] at h
      simp only [Option.some.injEq, Prod.mk.injEq] at h
      obtain ⟨rfl, -⟩ := h
      exact ⟨rfl, rfl, rfl, rfl⟩
  · rw [distances_plain env dda params shaper x hc] at h
    simp only [Option.some.injEq, Prod.mk.injEq] at h
    obtain ⟨rfl, -⟩ := h
    exact ⟨rfl, rfl, rfl, rfl⟩

/-- The skipped move with a reverse distance (lines 432-437). -/
theorem steps_skip_reverse (dda : DDA F S) (shaper : ExtruderShaper F) (x : DM F S)
    (d : Distances F) (h : 0 < d.reverseDistance)
    (hn : castI32 ((d.forwardDistance - d.reverseDistance) * x.cart.effectiveStepsPerMm) = 0)
    (hf : d.forwardDistance * x.cart.effectiveStepsPerMm ≤ FloatArith.ofInt32 1) :
    PrepareExtruder.steps dda shaper x d
      = (false, x, { shaper with
          extrusionPending
            := (d.forwardDistance - d.reverseDistance) * dda.directionVector x.drive }) := by
  unfold PrepareExtruder.steps
  dsimp only
  rw [if_pos h, if_pos ⟨hn, hf⟩]

/-- The skipped move without a reverse distance (lines 455-459). -/
theorem steps_skip_forward (dda : DDA F S) (shaper : ExtruderShaper F) (x : DM F S)
    (d : Distances F) (h : ¬ 0 < d.reverseDistance)
    (h1 : ¬ 1 ≤ d.forwardDistance * x.cart.effectiveStepsPerMm)
    (h2 : ¬ d.forwardDistance * x.cart.effectiveStepsPerMm ≤ -(1 : F)) :
    PrepareExtruder.steps dda shaper x d
      = (false, x, { shaper with
          extrusionPending := d.forwardDistance * dda.directionVector x.drive }) := by
  unfold PrepareExtruder.steps
  dsimp only
  rw [if_neg h, if_neg h1, if_neg h2]

/-- Without a reverse distance, a move that has steps gets the sentinel. -/
theorem steps_no_reverse (dda : DDA F S) (shaper : ExtruderShaper F) (x : DM F S)
    (d : Distances F) (h : ¬ 0 < d.reverseDistance)
    (ht : (PrepareExtruder.steps dda shaper x d).1 = true) :
    (PrepareExtruder.steps dda shaper x d).2.1.reverseStartStep
      = add32 (PrepareExtruder.steps dda shaper x d).2.1.totalSteps 1 := by
  unfold PrepareExtruder.steps at ht ⊢
  dsimp only at ht ⊢
  rw [if_neg h] at ht ⊢
  split_ifs at ht ⊢ with h1 h2
  all_goals rfl

/-- What `PrepareExtruder` returns when its step count says there is nothing to do. -/
theorem prepareExtruder_skip {env : Env F S}
    (calc0 : DDA F S → DM F S → Option (Bool × DM F S)) {dda : DDA F S} {params : PrepParams F}
    {shaper sh : ExtruderShaper F} {dm dm1 x : DM F S} {d : Distances F}
    (hd : PrepareExtruder.distances env dda params shaper (PrepareExtruder.start env dda shaper dm)
      = some (dm1, d))
    (hs : PrepareExtruder.steps dda shaper dm1 d = (false, x, sh)) :
    PrepareExtruder env calc0 dda params shaper dm = some (false, x, sh) := by
  simp only [PrepareExtruder, hd, hs]
  rfl

/-- What `PrepareExtruder` does when its step count says there are steps: the engine is
run, and either it finds no segment or the step generator is called; both records have the
counters of the plan. -/
theorem prepareExtruder_go {env : Env F S}
    (calc0 : DDA F S → DM F S → Option (Bool × DM F S)) {dda : DDA F S} {params : PrepParams F}
    {shaper : ExtruderShaper F} {dm dm1 : DM F S} {d : Distances F}
    (hd : PrepareExtruder.distances env dda params shaper (PrepareExtruder.start env dda shaper dm)
      = some (dm1, d))
    (hs : (PrepareExtruder.steps dda shaper dm1 d).1 = true) :
    ∃ x : DM F S,
      x.totalSteps = (PrepareExtruder.steps dda shaper dm1 d).2.1.totalSteps ∧
      x.reverseStartStep = (PrepareExtruder.steps dda shaper dm1 d).2.1.reverseStartStep ∧
      (PrepareExtruder env calc0 dda params shaper dm
          = (calc0 dda x).map (fun c => (c.1, c.2, (PrepareExtruder.steps dda shaper dm1 d).2.2)) ∨
       PrepareExtruder env calc0 dda params shaper dm
          = some (false, x, (PrepareExtruder.steps dda shaper dm1 d).2.2)) := by
  obtain ⟨-, -, -, k4, -, k6, -⟩ := extruderLoop_kept env
    (PrepareExtruder.enter dda (PrepareExtruder.steps dda shaper dm1 d).2.1).currentSegment
    (PrepareExtruder.enter dda (PrepareExtruder.steps dda shaper dm1 d).2.1)
  by_cases he : (NewExtruderSegment env
      (PrepareExtruder.enter dda (PrepareExtruder.steps dda shaper dm1 d).2.1)).1 = true
  · refine ⟨{ (NewExtruderSegment env
        (PrepareExtruder.enter dda (PrepareExtruder.steps dda shaper dm1 d).2.1)).2 with
        nextStepTime := 0, stepInterval := 999999, stepsTillRecalc := 0 }, k4, k6, Or.inl ?_⟩
    simp only [PrepareExtruder, hd, hs, he, if_true]
  · refine ⟨(NewExtruderSegment env
        (PrepareExtruder.enter dda (PrepareExtruder.steps dda shaper dm1 d).2.1)).2, k4, k6, Or.inr ?_⟩
    simp only [PrepareExtruder, hd, hs, he, if_true, if_false]
    rfl

/-- The three cases of lines 392-415 for a deceleration segment `seg`. -/
theorem advanced_cases (env : Env F S) (dda : DDA F S) (params : PrepParams F) (k fwd : F)
    (seg : S) (more : List S) :
    (initialDecelSpeed dda k ≤ 0 →
      PrepareExtruder.advanced env dda params k fwd (seg :: more)
        = ⟨fwd + params.decelStartDistance,
            ((half * dda.deceleration * params.decelClocks) - initialDecelSpeed dda k)
              * params.decelClocks⟩) ∧
    (¬ initialDecelSpeed dda k ≤ 0 → timeToReverse env dda k seg < params.decelClocks →
      PrepareExtruder.advanced env dda params k fwd (seg :: more)
        = ⟨fwd + (params.decelStartDistance
              + half * dda.deceleration * fsquare (timeToReverse env dda k seg)),
            half * dda.deceleration * fsquare (params.decelClocks - timeToReverse env dda k seg)⟩) ∧
    (¬ initialDecelSpeed dda k ≤ 0 → ¬ timeToReverse env dda k seg < params.decelClocks →
      PrepareExtruder.advanced env dda params k fwd (seg :: more)
        = ⟨fwd + (dda.totalDistance - (k * dda.deceleration * params.decelClocks)), 0⟩) := by
  refine ⟨fun h => ?_, fun h h2 => ?_, fun h h2 => ?_⟩
  · simp only [PrepareExtruder.advanced, if_pos h]
  · simp only [PrepareExtruder.advanced, if_neg h, if_pos h2]
  · simp only [PrepareExtruder.advanced, if_neg h, if_neg h2]

/-! ## What the engines leave in `state`, `currentSegment` and `direction` -/

theorem cartesianVisit_motion (env : Env F S) (seg : S) (dm : DM F S) :
    (NewCartesianSegment.visit env seg dm).state.isMotion = true ∧
    (NewCartesianSegment.visit env seg dm).direction = dm.direction := by
  unfold NewCartesianSegment.visit
  dsimp only
  split_ifs <;> exact ⟨rfl, rfl⟩

theorem extruderVisit_motion (env : Env F S) (seg : S) (dm : DM F S) :
    (NewExtruderSegment.visit env seg dm).state.isMotion = true ∧
    (NewExtruderSegment.visit env seg dm).direction = dm.direction := by
  unfold NewExtruderSegment.visit
  dsimp only
  split_ifs <;> exact ⟨rfl, rfl⟩

theorem deltaVisit_motion (env : Env F S) (dda : DDA F S) (seg : S) (last : Bool) (dm : DM F S) :
    (NewDeltaSegment.visit env dda seg last dm).state.isMotion = true ∧
    ((NewDeltaSegment.visit env dda seg last dm).direction = true → dm.direction = true) := by
  unfold NewDeltaSegment.visit NewDeltaSegment.classify NewDeltaSegment.coefficients
  dsimp only
  split_ifs <;> first
    | exact ⟨rfl, fun h => h⟩
    | exact ⟨rfl, fun h => absurd h (by decide)⟩

theorem cartesianLoop_engaged (env : Env F S) (l : List S) :
    ∀ dm : DM F S, Engaged dm (NewCartesianSegment.loop env l dm) := by
  induction l with
  | nil => intro dm; exact ⟨fun h => Bool.noConfusion (show false = true from h), fun _ => rfl, fun h => h⟩
  | cons seg rest ih =>
    intro dm
    obtain ⟨hm, hd⟩ := cartesianVisit_motion env seg dm
    simp only [NewCartesianSegment.loop]
    split_ifs
    · exact ⟨fun _ => ⟨List.cons_ne_nil _ _, hm⟩, fun h => Bool.noConfusion (show true = false from h), fun h => hd ▸ h⟩
    · obtain ⟨i1, i2, i3⟩ := ih (NewCartesianSegment.visit env seg dm)
      exact ⟨i1, i2, fun h => hd ▸ i3 h⟩

theorem extruderLoop_engaged (env : Env F S) (l : List S) :
    ∀ dm : DM F S, Engaged dm (NewExtruderSegment.loop env l dm) := by
  induction l with
  | nil => intro dm; exact ⟨fun h => Bool.noConfusion (show false = true from h), fun _ => rfl, fun h => h⟩
  | cons seg rest ih =>
    intro dm
    obtain ⟨hm, hd⟩ := extruderVisit_motion env seg dm
    simp only [NewExtruderSegment.loop]
    split_ifs
    · exact ⟨fun _ => ⟨List.cons_ne_nil _ _, hm⟩, fun h => Bool.noConfusion (show true = false from h), fun h => hd ▸ h⟩
    · obtain ⟨i1, i2, i3⟩ := ih (NewExtruderSegment.visit env seg dm)
      exact ⟨i1, i2, fun h => hd ▸ i3 h⟩

theorem deltaLoop_engaged (env : Env F S) (dda : DDA F S) (l : List S) :
    ∀ dm : DM F S, Engaged dm (NewDeltaSegment.loop env dda l dm) := by
  induction l with
  | nil => intro dm; exact ⟨fun h => Bool.noConfusion (show false = true from h), fun _ => rfl, fun h => h⟩
  | cons seg rest ih =>
    intro dm
    obtain ⟨hm, hd⟩ := deltaVisit_motion env dda seg rest.isEmpty dm
    simp only [NewDeltaSegment.loop]
    split_ifs
    · exact ⟨fun _ => ⟨List.cons_ne_nil _ _, hm⟩, fun h => Bool.noConfusion (show true = false from h), fun h => hd h⟩
    · obtain ⟨i1, i2, i3⟩ := ih (NewDeltaSegment.visit env dda seg rest.isEmpty dm)
      exact ⟨i1, i2, fun h => hd (i3 h)⟩

theorem newSegment_engaged (env : Env F S) (dda : DDA F S) (dm : DM F S) :
    Engaged dm (newSegment env dda dm) := by
  unfold newSegment
  split_ifs
  · exact deltaLoop_engaged env dda _ _
  · exact extruderLoop_engaged env _ _
  · exact cartesianLoop_engaged env _ _

theorem isMotion_iff (s : DMState) :
    s.isMotion = true ↔ s ≠ DMState.idle ∧ s ≠ DMState.stepError := by
  cases s <;> simp [DMState.isMotion]

/-- The flags after the delta formula has given a step time. -/
theorem deltaStepTime_flags {env : Env F S} {dda : DDA F S} {dm dm3 : DM F S} {shift : Nat} {t : F}
    (h : deltaStepTime env dda dm shift = some (StepCalc.time t dm3)) :
    dm3.state = dm.state ∧ dm3.direction = dm.direction ∧
    dm3.directionChanged = dm.directionChanged := by
  rcases deltaStepTime_cases env dda dm shift with ⟨-, h2⟩ | ⟨-, -, h2⟩ | ⟨-, t2, d, h2, -, hf⟩
  · rw [h2] at h; simp at h
  · rw [h2] at h; simp at h
  · rw [h2] at h
    simp only [Option.some.injEq, StepCalc.time.injEq] at h
    obtain ⟨-, rfl⟩ := h
    exact hf

theorem deltaTurn_flags (dm : DM F S) :
    (dm.state = DMState.deltaForwardsReversing ∧ dm.nextStep = dm.reverseStartStep →
      (deltaTurn dm).state = DMState.deltaReverse ∧ (deltaTurn dm).direction = false ∧
      (deltaTurn dm).directionChanged = true) ∧
    (¬ (dm.state = DMState.deltaForwardsReversing ∧ dm.nextStep = dm.reverseStartStep) →
      deltaTurn dm = dm) := by
  unfold deltaTurn
  constructor
  · intro h
    rw [if_pos h]
    exact ⟨rfl, rfl, rfl⟩
  · intro h
    rw [if_neg h]

/-- Outside the delta states and `cartDecelForwardsReversing`, a step time leaves the
record as it is. -/
theorem stepTime_plain {env : Env F S} {dda : DDA F S} {dm dm3 : DM F S} {shift : Nat} {t : F}
    (hd : dm.state.isDeltaMotion = false) (hc : dm.state ≠ DMState.cartDecelForwardsReversing)
    (h : stepTime env dda dm shift = some (StepCalc.time t dm3)) : dm3 = dm := by
  unfold stepTime at h
  split at h
  all_goals first
    | (simp only [Option.some.injEq, StepCalc.time.injEq] at h; exact h.2.symm)
    | (rename_i hst; exact absurd hst hc)
    | (rename_i hst; rw [hst] at hd; exact absurd hd (by decide))
    | (simp at h)

/-- In `cartDecelForwardsReversing` the `switch` turns the axis once past
`reverseStartStep`. -/
theorem stepTime_reversing {env : Env F S} {dda : DDA F S} {dm dm3 : DM F S} {shift : Nat} {t : F}
    (hc : dm.state = DMState.cartDecelForwardsReversing)
    (h : stepTime env dda dm shift = some (StepCalc.time t dm3)) :
    (dm.nextStep ≤ dm.reverseStartStep → dm3 = dm) ∧
    (¬ dm.nextStep ≤ dm.reverseStartStep →
      dm3.state = DMState.cartDecelReverse ∧ dm3.direction = false ∧ dm3.directionChanged = true) := by
  simp only [stepTime, hc] at h
  split_ifs at h with hle
  · simp only [Option.some.injEq, StepCalc.time.injEq] at h
    exact ⟨fun _ => h.2.symm, fun hn => absurd hle hn⟩
  · simp only [Option.some.injEq, StepCalc.time.injEq] at h
    obtain ⟨-, rfl⟩ := h
    exact ⟨fun hn => absurd hn hle, fun _ => ⟨rfl, rfl, rfl⟩⟩

/-- How the `switch` changes `state`, `direction` and `directionChanged` when it yields a
step time. -/
theorem stepTime_flags {env : Env F S} {dda : DDA F S} {dm dm3 : DM F S} {shift : Nat} {t : F}
    (h : stepTime env dda dm shift = some (StepCalc.time t dm3)) :
    (dm.state = DMState.cartDecelForwardsReversing ∧ dm.nextStep > dm.reverseStartStep →
      dm3.state = DMState.cartDecelReverse ∧ dm3.direction = false ∧ dm3.directionChanged = true) ∧
    (dm.state = DMState.deltaForwardsReversing ∧ dm.nextStep = dm.reverseStartStep →
      dm3.state = DMState.deltaReverse ∧ dm3.direction = false ∧ dm3.directionChanged = true) ∧
    (¬ (dm.state = DMState.cartDecelForwardsReversing ∧ dm.nextStep > dm.reverseStartStep) →
      ¬ (dm.state = DMState.deltaForwardsReversing ∧ dm.nextStep = dm.reverseStartStep) →
      dm3.state = dm.state ∧ dm3.direction = dm.direction ∧
      dm3.directionChanged = dm.directionChanged) := by
  by_cases hd : dm.state.isDeltaMotion = true
  · rw [stepTime_delta hd] at h
    obtain ⟨f1, f2, f3⟩ := deltaStepTime_flags h
    obtain ⟨t1, t2⟩ := deltaTurn_flags dm
    refine ⟨fun hc => ?_, fun hc => ?_, fun _ hc => ?_⟩
    · rw [hc.1] at hd; exact absurd hd (by decide)
    · obtain ⟨a, b, c⟩ := t1 hc
      exact ⟨f1.trans a, f2.trans b, f3.trans c⟩
    · rw [t2 hc] at f1 f2 f3
      exact ⟨f1, f2, f3⟩
  · have hd2 : dm.state.isDeltaMotion = false := by simpa using hd
    by_cases hc : dm.state = DMState.cartDecelForwardsReversing
    · obtain ⟨r1, r2⟩ := stepTime_reversing hc h
      refine ⟨fun hx => r2 (by omega), fun hx => ?_, fun hx _ => ?_⟩
      · rw [hx.1] at hd; exact absurd rfl hd
      · have hle : dm.nextStep ≤ dm.reverseStartStep := by
          by_contra hgt
          exact hx ⟨hc, by omega⟩
        rw [r1 hle]
        exact ⟨rfl, rfl, rfl⟩
    · have he := stepTime_plain hd2 hc h
      subst he
      exact ⟨fun hx => absurd hx.1 hc, fun hx => absurd (by rw [hx.1]; rfl) hd,
        fun _ _ => ⟨rfl, rfl, rfl⟩⟩

/-- The `switch` never turns an axis upward. -/
theorem stepTime_direction {env : Env F S} {dda : DDA F S} {dm : DM F S} {shift : Nat}
    {c : StepCalc F S} (h : stepTime env dda dm shift = some c) :
    c.record.direction = true → dm.direction = true := by
  cases c with
  | time t dm3 =>
    obtain ⟨f1, f2, f3⟩ := stepTime_flags h
    intro hdir
    have hdir : dm3.direction = true := hdir
    by_cases h1 : dm.state = DMState.cartDecelForwardsReversing ∧ dm.nextStep > dm.reverseStartStep
    · have := (f1 h1).2.1
      rw [this] at hdir
      exact absurd hdir (by decide)
    · by_cases h2 : dm.state = DMState.deltaForwardsReversing ∧ dm.nextStep = dm.reverseStartStep
      · have := (f2 h2).2.1
        rw [this] at hdir
        exact absurd hdir (by decide)
      · rw [← (f3 h1 h2).2.1]
        exact hdir
  | fail dm3 =>
    intro hdir
    have hdir : dm3.direction = true := hdir
    by_cases hd : dm.state.isDeltaMotion = true
    · rw [stepTime_delta hd] at h
      rcases deltaStepTime_cases env dda (deltaTurn dm) shift with ⟨-, h2⟩ | ⟨-, -, h2⟩ |
        ⟨-, t2, d, h2, -⟩
      · rw [h2] at h
        simp only [Option.some.injEq, StepCalc.fail.injEq] at h
        subst h
        have hdir2 : (stepHeight (deltaTurn dm) shift = stepHeight (deltaTurn dm) shift) ∧
            (deltaTurn dm).direction = true := ⟨rfl, hdir⟩
        obtain ⟨t1, t2⟩ := deltaTurn_flags dm
        by_cases hc : dm.state = DMState.deltaForwardsReversing ∧ dm.nextStep = dm.reverseStartStep
        · rw [(t1 hc).2.1] at hdir2
          exact absurd hdir2.2 (by decide)
        · rw [t2 hc] at hdir2
          exact hdir2.2
      · rw [h2] at h; simp at h
      · rw [h2] at h; simp at h
    · rcases stepTime_fail h with ⟨rfl, -⟩ | ⟨h1, -⟩
      · exact hdir
      · exact absurd h1 hd

theorem finishStep_flags (env : Env F S) (dda : DDA F S) (dm : DM F S) (shift c : Nat) :
    (finishStep env dda dm shift c).2.direction = dm.direction ∧
    (finishStep env dda dm shift c).2.directionChanged = dm.directionChanged ∧
    ((finishStep env dda dm shift c).1 = true → (finishStep env dda dm shift c).2.state = dm.state) ∧
    ((finishStep env dda dm shift c).1 = false →
      (finishStep env dda dm shift c).2.state = DMState.stepError) := by
  by_cases hl : c > dda.clocksNeeded
  · by_cases hn : add32 dm.nextStep 1 ≥ dm.totalSteps
    · rw [finishStep_late_last env dda dm shift c hl hn]
      exact ⟨rfl, rfl, fun _ => rfl, fun h => Bool.noConfusion (show true = false from h)⟩
    · rw [finishStep_late_other env dda dm shift c hl hn]
      exact ⟨rfl, rfl, fun h => Bool.noConfusion (show false = true from h), fun _ => rfl⟩
  · rw [finishStep_in_time env dda dm shift c hl]
    exact ⟨rfl, rfl, fun _ => rfl, fun h => Bool.noConfusion (show true = false from h)⟩

/-- A step time comes out of the `switch` only in a state of motion. -/
theorem stepTime_time_motion {env : Env F S} {dda : DDA F S} {dm dm3 : DM F S} {shift : Nat}
    {t : F} (h : stepTime env dda dm shift = some (StepCalc.time t dm3)) :
    dm.state.isMotion = true := by
  cases hst : dm.state <;> first
    | rfl
    | (simp only [stepTime, hst] at h; simp at h)

/-- When no steps are left in the phase and the engine finds a segment, or when steps are
left, `advanceSegment` goes on; these are the only ways. -/
theorem advanceSegment_true {env : Env F S} {dda : DDA F S} {dm dm1 : DM F S}
    (h : advanceSegment env dda dm = some (true, dm1)) :
    (sub32 dm.phaseStepLimit dm.nextStep ≠ 0 ∧ dm1 = dm) ∨
    (sub32 dm.phaseStepLimit dm.nextStep = 0 ∧ ∃ seg rest, dm.currentSegment = seg :: rest ∧
      (newSegment env dda { dm with currentSegment := rest }).1 = true ∧
      dm1 = (newSegment env dda { dm with currentSegment := rest }).2) := by
  rcases advanceSegment_cases env dda dm with ⟨h0, h1⟩ | ⟨-, -, h1⟩ | ⟨seg, rest, h0, hs, hm, h1⟩ |
    ⟨seg, rest, -, -, -, h1⟩
  · rw [h1] at h
    simp only [Option.some.injEq, Prod.mk.injEq, true_and] at h
    exact Or.inl ⟨h0, h.symm⟩
  · rw [h1] at h; simp at h
  · rw [h1] at h
    simp only [Option.some.injEq, Prod.mk.injEq, true_and] at h
    exact Or.inr ⟨h0, seg, rest, hs, hm, h.symm⟩
  · rw [h1] at h; simp at h

theorem stepTime_stepError {env : Env F S} {dda : DDA F S} {dm : DM F S} {shift : Nat}
    (hst : dm.state = DMState.stepError) :
    stepTime env dda dm shift = some (StepCalc.fail dm) := by
  simp only [stepTime, hst]

/-- What the body of the Cartesian loop stores for the segment `seg`. -/
theorem cartesianVisit_fields (env : Env F S) (seg : S) (dm : DM F S) :
    (NewCartesianSegment.visit env seg dm).nextStep = dm.nextStep ∧
    (NewCartesianSegment.visit env seg dm).cart = dm.cart ∧
    (NewCartesianSegment.visit env seg dm).distanceSoFar = dm.distanceSoFar + env.GetSegmentLength seg ∧
    (NewCartesianSegment.visit env seg dm).timeSoFar = dm.timeSoFar + env.GetSegmentTime seg ∧
    (NewCartesianSegment.visit env seg dm).phaseStepLimit = limitAfter env dm [seg] := by
  unfold NewCartesianSegment.visit limitAfter distanceAfter
  dsimp only
  split_ifs <;> exact ⟨rfl, rfl, rfl, rfl, rfl⟩

theorem limitAfter_visit (env : Env F S) (seg : S) (dm : DM F S) (segs : List S) :
    limitAfter env (NewCartesianSegment.visit env seg dm) segs = limitAfter env dm (seg :: segs) := by
  obtain ⟨-, h2, h3, -, -⟩ := cartesianVisit_fields env seg dm
  unfold limitAfter distanceAfter
  rw [h2, h3]
  rfl

/-- The walk of `NewCartesianSegment` over the list `l`, from the record `dm`. -/
theorem cartesianLoop_walk (env : Env F S) (l : List S) : ∀ dm : DM F S,
    (∀ i, i < l.length →
      (∀ k, k < i → limitAfter env dm (l.take (k + 1)) ≤ dm.nextStep) →
      dm.nextStep < limitAfter env dm (l.take (i + 1)) →
      (NewCartesianSegment.loop env l dm).1 = true ∧
      (NewCartesianSegment.loop env l dm).2.currentSegment = l.drop i ∧
      (NewCartesianSegment.loop env l dm).2.phaseStepLimit = limitAfter env dm (l.take (i + 1)) ∧
      (NewCartesianSegment.loop env l dm).2.distanceSoFar
        = distanceAfter env dm.distanceSoFar (l.take (i + 1)) ∧
      (NewCartesianSegment.loop env l dm).2.timeSoFar
        = timeAfter env dm.timeSoFar (l.take (i + 1))) ∧
    ((NewCartesianSegment.loop env l dm).1 = false ↔
      ∀ k, k < l.length → limitAfter env dm (l.take (k + 1)) ≤ dm.nextStep) ∧
    ((NewCartesianSegment.loop env l dm).1 = false →
      (NewCartesianSegment.loop env l dm).2.currentSegment = []) := by
  induction l with
  | nil =>
    intro dm
    refine ⟨fun i hi => absurd hi (Nat.not_lt_zero _), ?_, fun _ => rfl⟩
    exact ⟨fun _ k hk => absurd hk (Nat.not_lt_zero _), fun _ => rfl⟩
  | cons seg rest ih =>
    intro dm
    obtain ⟨v1, v2, v3, v4, v5⟩ := cartesianVisit_fields env seg dm
    obtain ⟨ihA, ihB, ihC⟩ := ih (NewCartesianSegment.visit env seg dm)
    have hlim : ∀ segs, limitAfter env (NewCartesianSegment.visit env seg dm) segs
        = limitAfter env dm (seg :: segs) := limitAfter_visit env seg dm
    by_cases hacc : (NewCartesianSegment.visit env seg dm).nextStep
        < (NewCartesianSegment.visit env seg dm).phaseStepLimit
    · have hloop : NewCartesianSegment.loop env (seg :: rest) dm
          = (true, { NewCartesianSegment.visit env seg dm with currentSegment := seg :: rest }) := by
        simp only [NewCartesianSegment.loop, hacc, if_true]
      have hacc2 : dm.nextStep < limitAfter env dm [seg] := by rw [← v1, ← v5]; exact hacc
      rw [hloop]
      refine ⟨fun i hi hbefore hat => ?_, ?_, fun h => Bool.noConfusion (show true = false from h)⟩
      · cases i with
        | zero =>
          refine ⟨rfl, rfl, v5, ?_, ?_⟩
          · show (NewCartesianSegment.visit env seg dm).distanceSoFar = _
            rw [v3]; rfl
          · show (NewCartesianSegment.visit env seg dm).timeSoFar = _
            rw [v4]; rfl
        | succ j =>
          have h0 := hbefore 0 (Nat.succ_pos j)
          have h0' : limitAfter env dm [seg] ≤ dm.nextStep := h0
          omega
      · constructor
        · intro h
          exact Bool.noConfusion (show true = false from h)
        · intro hall
          have h0 : limitAfter env dm [seg] ≤ dm.nextStep := hall 0 (Nat.succ_pos _)
          omega
    · have hloop : NewCartesianSegment.loop env (seg :: rest) dm
          = NewCartesianSegment.loop env rest (NewCartesianSegment.visit env seg dm) := by
        simp only [NewCartesianSegment.loop, hacc, if_false]
      have hrej : limitAfter env dm [seg] ≤ dm.nextStep := by
        rw [← v1, ← v5]; exact Nat.le_of_not_lt hacc
      rw [hloop]
      refine ⟨fun i hi hbefore hat => ?_, ?_, ihC⟩
      · cases i with
        | zero =>
          have hat' : dm.nextStep < limitAfter env dm [seg] := hat
          omega
        | succ j =>
          have hj : j < rest.length := Nat.lt_of_succ_lt_succ hi
          have hb : ∀ k, k < j → limitAfter env (NewCartesianSegment.visit env seg dm)
              (rest.take (k + 1)) ≤ (NewCartesianSegment.visit env seg dm).nextStep := by
            intro k hk
            rw [hlim, v1]
            exact hbefore (k + 1) (Nat.succ_lt_succ hk)
          have ha : (NewCartesianSegment.visit env seg dm).nextStep
              < limitAfter env (NewCartesianSegment.visit env seg dm) (rest.take (j + 1)) := by
            rw [hlim, v1]
            exact hat
          obtain ⟨r1, r2, r3, r4, r5⟩ := ihA j hj hb ha
          refine ⟨r1, r2, ?_, ?_, ?_⟩
          · rw [r3, hlim]; rfl
          · rw [r4, v3]; rfl
          · rw [r5, v4]; rfl
      · rw [ihB]
        constructor
        · intro hall k hk
          cases k with
          | zero => exact hrej
          | succ j =>
            have := hall j (Nat.lt_of_succ_lt_succ hk)
            rw [hlim, v1] at this
            exact this
        · intro hall k hk
          rw [hlim, v1]
          exact hall (k + 1) (Nat.succ_lt_succ hk)

/-- What `coefficients` leaves for the classification of the segment. -/
theorem deltaCoefficients_fields (env : Env F S) (seg : S) (dm : DM F S) :
    (NewDeltaSegment.coefficients env seg dm).distanceSoFar
      = dm.distanceSoFar + env.GetSegmentLength seg ∧
    (NewDeltaSegment.coefficients env seg dm).direction = dm.direction ∧
    (NewDeltaSegment.coefficients env seg dm).directionChanged = dm.directionChanged ∧
    (NewDeltaSegment.coefficients env seg dm).delta = dm.delta ∧
    (NewDeltaSegment.coefficients env seg dm).totalSteps = dm.totalSteps ∧
    (NewDeltaSegment.coefficients env seg dm).reverseStartStep = dm.reverseStartStep := by
  unfold NewDeltaSegment.coefficients
  dsimp only
  split_ifs <;> exact ⟨rfl, rfl, rfl, rfl, rfl, rfl⟩

/-- The first case of the classification: the segment starts at or after the reversal. -/
theorem classify_reverse (start : F) (net : Int) (last : Bool) (d : DM F S)
    (h : d.delta.reverseStartDistance ≤ start) :
    (NewDeltaSegment.classify start net last d).state = DMState.deltaReverse ∧
    (NewDeltaSegment.classify start net last d).direction = false ∧
    (d.direction = true → (NewDeltaSegment.classify start net last d).directionChanged = true) ∧
    (d.direction = false →
      (NewDeltaSegment.classify start net last d).directionChanged = d.directionChanged) ∧
    (NewDeltaSegment.classify start net last d).distanceSoFar = d.distanceSoFar := by
  unfold NewDeltaSegment.classify
  rw [if_pos h]
  cases hdir : d.direction
  · exact ⟨rfl, hdir, fun hx => Bool.noConfusion hx, fun _ => rfl, rfl⟩
  · exact ⟨rfl, rfl, fun _ => rfl, fun hx => Bool.noConfusion hx, rfl⟩

/-- The second case: the segment ends at or before the reversal. -/
theorem classify_forwards (start : F) (net : Int) (last : Bool) (d : DM F S)
    (h : ¬ d.delta.reverseStartDistance ≤ start)
    (h2 : d.distanceSoFar ≤ d.delta.reverseStartDistance) :
    (NewDeltaSegment.classify start net last d).state = DMState.deltaForwardsNoReverse ∧
    (NewDeltaSegment.classify start net last d).direction = d.direction ∧
    (NewDeltaSegment.classify start net last d).directionChanged = d.directionChanged ∧
    (NewDeltaSegment.classify start net last d).phaseStepLimit
      = (if last then add32 d.totalSteps 1 else intToU32 (net + 1)) ∧
    (NewDeltaSegment.classify start net last d).distanceSoFar = d.distanceSoFar := by
  unfold NewDeltaSegment.classify
  rw [if_neg h, if_pos h2]
  exact ⟨rfl, rfl, rfl, rfl, rfl⟩

/-- The third case: the reversal lies inside the segment. -/
theorem classify_reversing (start : F) (net : Int) (last : Bool) (d : DM F S)
    (h : ¬ d.delta.reverseStartDistance ≤ start)
    (h2 : ¬ d.distanceSoFar ≤ d.delta.reverseStartDistance) :
    (NewDeltaSegment.classify start net last d).state = DMState.deltaForwardsReversing ∧
    (NewDeltaSegment.classify start net last d).direction = d.direction ∧
    (NewDeltaSegment.classify start net last d).directionChanged = d.directionChanged ∧
    (NewDeltaSegment.classify start net last d).phaseStepLimit
      = (if last then add32 d.totalSteps 1
         else intToU32 ((mul32 2 d.reverseStartStep : Int) - net)) ∧
    (NewDeltaSegment.classify start net last d).distanceSoFar = d.distanceSoFar := by
  unfold NewDeltaSegment.classify
  rw [if_neg h, if_neg h2]
  exact ⟨rfl, rfl, rfl, rfl, rfl⟩

/-- The difference of two truncated times lies within one clock, and the errors of the two
times, of the slope. -/
theorem interval_near (c1 c2 n : ℕ) (x1 x2 B C e1 e2 : ℚ)
    (h1 : (c1 : ℚ) ≤ x1 ∧ x1 < c1 + 1) (h2 : (c2 : ℚ) ≤ x2 ∧ x2 < c2 + 1)
    (he1 : |x1 - (B + n * C)| ≤ e1) (he2 : |x2 - (B + (n + 1) * C)| ≤ e2) (hC : 0 ≤ C) :
    |(((if c2 > c1 then c2 - c1 else 0 : ℕ) : ℕ) : ℚ) - C| < 1 + e1 + e2 := by
  obtain ⟨a1, a2⟩ := abs_le.1 he1
  obtain ⟨b1, b2⟩ := abs_le.1 he2
  rw [abs_lt]
  split_ifs with h
  · rw [Nat.cast_sub (Nat.le_of_lt h)]
    constructor <;> linarith
  · have hle : (c2 : ℚ) ≤ c1 := by exact_mod_cast Nat.le_of_not_lt h
    rw [Nat.cast_zero]
    constructor <;> linarith

theorem add32_zero_right {n : Nat} (h : n < u32) : add32 n 0 = n := by
  unfold add32
  rw [Nat.zero_add]
  exact Nat.mod_eq_of_lt h

/-- The `cartLinear` case of the `switch`. -/
theorem stepTime_linear (env : Env F S) (dda : DDA F S) (d : DM F S) (shift : Nat)
    (hs : d.state = DMState.cartLinear) :
    stepTime env dda d shift
      = some (StepCalc.time
          (d.pB + FloatArith.ofUInt32 (add32 d.nextStep d.stepsTillRecalc) * d.pC) d) := by
  simp only [stepTime, hs]

/-- A single-step call in `cartLinear` inside a phase: the time computed and what is done with
it. -/
theorem linear_single_step (env : Env F S) (dda : DDA F S) (dm : DM F S) (hr : dm.InRange)
    (hs : dm.state = DMState.cartLinear) (hseg : dm.nextStep ≠ dm.phaseStepLimit)
    (hshift : chosenShift env dm dm = 0) :
    CalcNextStepTimeFull env dda dm
      = some (finishStep env dda (withRecalc dm (chosenShift env dm dm)) (chosenShift env dm dm)
          (castU32 (dm.pB + FloatArith.ofUInt32 dm.nextStep * dm.pC))) := by
  have hz : sub32 dm.phaseStepLimit dm.nextStep = 0 ↔ dm.phaseStepLimit = dm.nextStep :=
    sub32_eq_zero_iff hr.2.2.2.1 hr.2.1
  have h0 : sub32 dm.phaseStepLimit dm.nextStep ≠ 0 := fun h => hseg (hz.1 h).symm
  have hadv : advanceSegment env dda dm = some (true, dm) := by
    simp only [advanceSegment, h0, if_false]
  have hst : (withRecalc dm (chosenShift env dm dm)).state = DMState.cartLinear := hs
  have hw : (withRecalc dm (chosenShift env dm dm)).stepsTillRecalc = 0 := by
    rw [withRecalc_recalc, hshift]
    rfl
  have hnx : (withRecalc dm (chosenShift env dm dm)).nextStep = dm.nextStep := rfl
  have hpb : (withRecalc dm (chosenShift env dm dm)).pB = dm.pB := rfl
  have hpc : (withRecalc dm (chosenShift env dm dm)).pC = dm.pC := rfl
  have hstep := stepTime_linear env dda (withRecalc dm (chosenShift env dm dm))
    (chosenShift env dm dm) hst
  rw [hw, hnx, hpb, hpc, add32_zero_right hr.2.1] at hstep
  simp only [CalcNextStepTimeFull, hadv, hstep]
/-- What a single-step call that is not late stores. -/
theorem finishStep_single (env : Env F S) (dda : DDA F S) (w : DM F S) (shift c : Nat)
    (hk : shift = 0) (hw : w.stepsTillRecalc = 0) (hc : c < u32) (hl : c ≤ dda.clocksNeeded) :
    finishStep env dda w shift c
      = (true, { w with
          stepInterval := (if c > w.nextStepTime then sub32 c w.nextStepTime else 0)
          nextStepTime := c }) := by
  have hlt : w.stepsTillRecalc < 2 ^ shift := by
    rw [hw]
    exact Nat.two_pow_pos _
  rw [finishStep_in_time env dda w shift c (Nat.not_lt.2 hl)]
  have h1 : newStepTime env w shift c = c := by
    rw [newStepTime_eq env w shift c hc hlt, hw]
    split_ifs <;> simp
  have h2 : newInterval w shift c = (if c > w.nextStepTime then sub32 c w.nextStepTime else 0) := by
    unfold newInterval
    rw [hk, Nat.shiftRight_zero]
  rw [h1, h2]

/-- The interval stored by a call that returns true is the one of lines 609-611, late or not. -/
theorem finishStep_interval (env : Env F S) (dda : DDA F S) (dm : DM F S) (shift c : Nat)
    (ht : (finishStep env dda dm shift c).1 = true) :
    (finishStep env dda dm shift c).2.stepInterval = newInterval dm shift c := by
  by_cases hl : c > dda.clocksNeeded
  · by_cases hn : add32 dm.nextStep 1 ≥ dm.totalSteps
    · rw [finishStep_late_last env dda dm shift c hl hn]
    · rw [finishStep_late_other env dda dm shift c hl hn] at ht
      exact Bool.noConfusion ht
  · rw [finishStep_in_time env dda dm shift c hl]

/-- The record a single-step call in `cartLinear` that is not late leaves behind. -/
theorem linear_step_result {env : Env F S} {dda : DDA F S} {dm dm1 : DM F S} (hr : dm.InRange)
    (hs : dm.state = DMState.cartLinear) (hseg : dm.nextStep ≠ dm.phaseStepLimit)
    (hshift : chosenShift env dm dm = 0)
    (hcall : CalcNextStepTimeFull env dda dm = some (true, dm1))
    (hlate : castU32 (dm.pB + FloatArith.ofUInt32 dm.nextStep * dm.pC) ≤ dda.clocksNeeded) :
    dm1.nextStepTime = castU32 (dm.pB + FloatArith.ofUInt32 dm.nextStep * dm.pC) ∧
    dm1.state = DMState.cartLinear ∧ dm1.pB = dm.pB ∧ dm1.pC = dm.pC ∧
    dm1.phaseStepLimit = dm.phaseStepLimit ∧ dm1.totalSteps = dm.totalSteps ∧
    dm1.reverseStartStep = dm.reverseStartStep ∧ dm1.stepInterval < u32 := by
  have hc := castU32_lt (dm.pB + FloatArith.ofUInt32 dm.nextStep * dm.pC)
  have hw : (withRecalc dm (chosenShift env dm dm)).stepsTillRecalc = 0 := by
    rw [withRecalc_recalc, hshift]
    rfl
  have h1 := linear_single_step env dda dm hr hs hseg hshift
  rw [finishStep_single env dda _ _ _ hshift hw hc hlate, hcall] at h1
  simp only [Option.some.injEq, Prod.mk.injEq, true_and] at h1
  subst h1
  refine ⟨rfl, hs, rfl, rfl, rfl, rfl, rfl, ?_⟩
  show (if _ then sub32 _ _ else 0) < u32
  split_ifs
  · unfold sub32
    exact Nat.mod_lt _ (by unfold u32; omega)
  · unfold u32; omega

/-- The interval of lines 609-611 for single stepping. -/
theorem newInterval_single (w : DM F S) (shift c : Nat) (hk : shift = 0) :
    newInterval w shift c = (if c > w.nextStepTime then sub32 c w.nextStepTime else 0) := by
  unfold newInterval
  rw [hk, Nat.shiftRight_zero]

/-- The interval a single-step call in `cartLinear` stores when it returns true. -/
theorem linear_step_interval {env : Env F S} {dda : DDA F S} {dm dm2 : DM F S} (hr : dm.InRange)
    (hs : dm.state = DMState.cartLinear) (hseg : dm.nextStep ≠ dm.phaseStepLimit)
    (hshift : chosenShift env dm dm = 0)
    (hcall : CalcNextStepTimeFull env dda dm = some (true, dm2)) :
    dm2.stepInterval
      = (if castU32 (dm.pB + FloatArith.ofUInt32 dm.nextStep * dm.pC) > dm.nextStepTime
         then castU32 (dm.pB + FloatArith.ofUInt32 dm.nextStep * dm.pC) - dm.nextStepTime
         else 0) := by
  have hc := castU32_lt (dm.pB + FloatArith.ofUInt32 dm.nextStep * dm.pC)
  have h1 := linear_single_step env dda dm hr hs hseg hshift
  rw [hcall] at h1
  simp only [Option.some.injEq] at h1
  have ht : (finishStep env dda (withRecalc dm (chosenShift env dm dm)) (chosenShift env dm dm)
      (castU32 (dm.pB + FloatArith.ofUInt32 dm.nextStep * dm.pC))).1 = true := by
    rw [← h1]
  have hint := finishStep_interval env dda (withRecalc dm (chosenShift env dm dm))
    (chosenShift env dm dm) (castU32 (dm.pB + FloatArith.ofUInt32 dm.nextStep * dm.pC)) ht
  rw [← h1, newInterval_single _ _ _ hshift] at hint
  have hnt : (withRecalc dm (chosenShift env dm dm)).nextStepTime = dm.nextStepTime := rfl
  rw [hnt] at hint
  rw [hint]
  split_ifs with h
  · exact sub32_of_le hc (Nat.le_of_lt h)
  · rfl

/-- The steps a `shiftFactor` adds stay below the number of steps it was chosen for. -/
theorem shiftFactor_room (m i n : Nat) :
    2 ^ shiftFactor m i n - 1 < n ∨ (n = 0 ∧ shiftFactor m i n = 0) := by
  unfold shiftFactor
  split_ifs <;> simp <;> omega

/-- A segment engine that returns true leaves a limit above `nextStep`. -/
theorem cartesianLoop_limit (env : Env F S) (l : List S) :
    ∀ dm : DM F S, (NewCartesianSegment.loop env l dm).1 = true →
      (NewCartesianSegment.loop env l dm).2.nextStep
        < (NewCartesianSegment.loop env l dm).2.phaseStepLimit := by
  induction l with
  | nil => intro dm h; exact Bool.noConfusion (show false = true from h)
  | cons seg rest ih =>
    intro dm
    simp only [NewCartesianSegment.loop]
    split_ifs with hacc
    · exact fun _ => hacc
    · exact ih _

theorem extruderLoop_limit (env : Env F S) (l : List S) :
    ∀ dm : DM F S, (NewExtruderSegment.loop env l dm).1 = true →
      (NewExtruderSegment.loop env l dm).2.nextStep
        < (NewExtruderSegment.loop env l dm).2.phaseStepLimit := by
  induction l with
  | nil => intro dm h; exact Bool.noConfusion (show false = true from h)
  | cons seg rest ih =>
    intro dm
    simp only [NewExtruderSegment.loop]
    split_ifs with hacc
    · exact fun _ => hacc
    · exact ih _

theorem deltaLoop_limit (env : Env F S) (dda : DDA F S) (l : List S) :
    ∀ dm : DM F S, (NewDeltaSegment.loop env dda l dm).1 = true →
      (NewDeltaSegment.loop env dda l dm).2.nextStep
        < (NewDeltaSegment.loop env dda l dm).2.phaseStepLimit := by
  induction l with
  | nil => intro dm h; exact Bool.noConfusion (show false = true from h)
  | cons seg rest ih =>
    intro dm
    simp only [NewDeltaSegment.loop]
    split_ifs with hacc
    · exact fun _ => hacc
    · exact ih _

theorem newSegment_limit (env : Env F S) (dda : DDA F S) (dm : DM F S)
    (h : (newSegment env dda dm).1 = true) :
    (newSegment env dda dm).2.nextStep < (newSegment env dda dm).2.phaseStepLimit := by
  unfold newSegment at h ⊢
  split_ifs at h ⊢
  · exact deltaLoop_limit env dda _ _ h
  · exact extruderLoop_limit env _ _ h
  · exact cartesianLoop_limit env _ _ h

/-- A call that returns true leaves `nextStep` and `phaseStepLimit` as the `switch` left
them. -/
theorem finishStep_true_fields {env : Env F S} {dda : DDA F S} {dm dm' : DM F S} {shift c : Nat}
    (h : finishStep env dda dm shift c = (true, dm')) :
    dm'.nextStep = dm.nextStep ∧ dm'.phaseStepLimit = dm.phaseStepLimit := by
  by_cases hl : c > dda.clocksNeeded
  · by_cases hn : add32 dm.nextStep 1 ≥ dm.totalSteps
    · rw [finishStep_late_last env dda dm shift c hl hn] at h
      simp only [Prod.mk.injEq, true_and] at h
      subst h
      exact ⟨rfl, rfl⟩
    · rw [finishStep_late_other env dda dm shift c hl hn] at h
      simp only [Prod.mk.injEq, Bool.false_eq_true, false_and] at h
  · rw [finishStep_in_time env dda dm shift c hl] at h
    simp only [Prod.mk.injEq, true_and] at h
    subst h
    exact ⟨rfl, rfl⟩

/-- Up to the turn, the steps computed ahead stay inside the phase: for a call in 32-bit
range with `nextStep <= phaseStepLimit` on entry that returns true, unless `nextStep` and the
`phaseStepLimit` in force are both beyond `reverseStartStep`. -/
theorem substep_within_phase {env : Env F S} {dda : DDA F S} {dm dm' : DM F S}
    (hr : dm.InRange) (hle : dm.nextStep ≤ dm.phaseStepLimit)
    (hcall : CalcNextStepTimeFull env dda dm = some (true, dm'))
    (hfwd : ¬ (dm.reverseStartStep < dm.nextStep ∧ dm.reverseStartStep < dm'.phaseStepLimit)) :
    dm'.nextStep + dm'.stepsTillRecalc < dm'.phaseStepLimit := by
  obtain ⟨-, hn32, hr32, hp32, -, -⟩ := hr
  have hz : sub32 dm.phaseStepLimit dm.nextStep = 0 ↔ dm.phaseStepLimit = dm.nextStep :=
    sub32_eq_zero_iff hp32 hn32
  rcases CalcNextStepTimeFull_cases hcall with ⟨_, _, _, _, _, hr1, -⟩ | ⟨a1, hadv, h2⟩
  · simp only [Prod.mk.injEq, Bool.true_eq_false, false_and] at hr1
  · have hrec := CalcNextStepTimeFull_recalc hadv hcall
    have hrec' : dm'.stepsTillRecalc = 2 ^ chosenShift env dm a1 - 1 := hrec
    obtain ⟨-, -, -, -, k5, k6, -, k8, -⟩ := advanceSegment_kept hadv
    rcases h2 with ⟨dm3, -, hr1⟩ | ⟨t, dm3, h3, hr1⟩
    · simp only [Prod.mk.injEq, Bool.true_eq_false, false_and] at hr1
    · obtain ⟨g1, g2⟩ := finishStep_true_fields hr1.symm
      obtain ⟨-, c2, -, c4, -⟩ := stepTime_carried h3
      have hnext : dm'.nextStep = dm.nextStep := g1.trans (c2.trans k5)
      have hlim : dm'.phaseStepLimit = a1.phaseStepLimit := g2.trans c4
      -- the limit in force exceeds `nextStep`, and what `stepsToLimit` is
      have hcase : (sub32 dm.phaseStepLimit dm.nextStep ≠ 0 ∧ a1.phaseStepLimit = dm.phaseStepLimit) ∨
          (sub32 dm.phaseStepLimit dm.nextStep = 0 ∧ dm.nextStep < a1.phaseStepLimit) := by
        rcases advanceSegment_true hadv with ⟨h0, rfl⟩ | ⟨h0, seg, rest, -, hm, rfl⟩
        · exact Or.inl ⟨h0, rfl⟩
        · right
          refine ⟨h0, ?_⟩
          have := newSegment_limit env dda _ hm
          rw [(newSegment_kept env dda { dm with currentSegment := rest }).2.2.2.2.1] at this
          exact this
      have hroom := shiftFactor_room env.MinCalcInterval a1.stepInterval (stepsToLimit dm a1)
      have hk : chosenShift env dm a1
          = shiftFactor env.MinCalcInterval a1.stepInterval (stepsToLimit dm a1) := rfl
      rw [hnext, hlim, hrec', hk]
      rw [hlim] at hfwd
      unfold stepsToLimit at hroom ⊢
      rw [k6, k5] at hroom ⊢
      by_cases hgt : a1.phaseStepLimit > dm.reverseStartStep
      · rw [if_pos hgt] at hroom ⊢
        have hnr : dm.nextStep ≤ dm.reverseStartStep := by
          by_contra hc
          exact hfwd ⟨by omega, hgt⟩
        rw [sub32_of_le hr32 hnr] at hroom ⊢
        rcases hroom with h | ⟨h, hs0⟩
        · omega
        · rw [hs0]
          rcases hcase with ⟨h0, he⟩ | ⟨-, hlt⟩
          · have : dm.phaseStepLimit ≠ dm.nextStep := fun e => h0 (hz.2 e)
            omega
          · omega
      · rw [if_neg hgt] at hroom ⊢
        rcases hcase with ⟨h0, he⟩ | ⟨h0, hlt⟩
        · rw [sub32_of_le hp32 hle] at hroom ⊢
          rcases hroom with h | ⟨h, hs0⟩
          · omega
          · have : dm.phaseStepLimit ≠ dm.nextStep := fun e => h0 (hz.2 e)
            omega
        · rw [h0] at hroom ⊢
          rcases hroom with h | ⟨-, hs0⟩
          · omega
          · rw [hs0]
            omega

/-- What one pass of the loop of `NewDeltaSegment` does to `direction`, the distance and the
delta constants: lines 150-160. -/
theorem deltaVisit_direction (env : Env F S) (dda : DDA F S) (seg : S) (last : Bool)
    (dm : DM F S) :
    (NewDeltaSegment.visit env dda seg last dm).direction
      = (if dm.delta.reverseStartDistance ≤ dm.distanceSoFar then false else dm.direction) ∧
    (NewDeltaSegment.visit env dda seg last dm).distanceSoFar
      = dm.distanceSoFar + env.GetSegmentLength seg ∧
    (NewDeltaSegment.visit env dda seg last dm).delta = dm.delta := by
  have hk := deltaVisit_kept env dda seg last dm
  obtain ⟨c1, c2, -, c4, -, -⟩ := deltaCoefficients_fields env seg dm
  have hv : NewDeltaSegment.visit env dda seg last dm
      = NewDeltaSegment.classify dm.distanceSoFar
          (netStepsAtEnd env dda (NewDeltaSegment.coefficients env seg dm)) last
          (NewDeltaSegment.coefficients env seg dm) := rfl
  rw [hv]
  refine ⟨?_, ?_, ?_⟩
  · by_cases h : dm.delta.reverseStartDistance ≤ dm.distanceSoFar
    · rw [if_pos h]
      exact (classify_reverse _ _ _ _ (by rw [c4]; exact h)).2.1
    · rw [if_neg h]
      have h' : ¬ (NewDeltaSegment.coefficients env seg dm).delta.reverseStartDistance
          ≤ dm.distanceSoFar := by rw [c4]; exact h
      by_cases h2 : (NewDeltaSegment.coefficients env seg dm).distanceSoFar
          ≤ (NewDeltaSegment.coefficients env seg dm).delta.reverseStartDistance
      · rw [(classify_forwards _ _ _ _ h' h2).2.1, c2]
      · rw [(classify_reversing _ _ _ _ h' h2).2.1, c2]
  · by_cases h : (NewDeltaSegment.coefficients env seg dm).delta.reverseStartDistance
        ≤ dm.distanceSoFar
    · rw [(classify_reverse _ _ _ _ h).2.2.2.2, c1]
    · by_cases h2 : (NewDeltaSegment.coefficients env seg dm).distanceSoFar
          ≤ (NewDeltaSegment.coefficients env seg dm).delta.reverseStartDistance
      · rw [(classify_forwards _ _ _ _ h h2).2.2.2.2, c1]
      · rw [(classify_reversing _ _ _ _ h h2).2.2.2.2, c1]
  · rw [← hv]
    exact hk.2.2.2.2.2.2.2.2.2.2

theorem distanceAfter_cons (env : Env F S) (d0 : F) (seg : S) (l : List S) :
    distanceAfter env d0 (seg :: l) = distanceAfter env (d0 + env.GetSegmentLength seg) l := rfl

/-- The engine never turns the direction upward, and it leaves the direction alone when no
segment starts at or beyond `reverseStartDistance`. -/
theorem deltaLoop_direction (env : Env F S) (dda : DDA F S) (l : List S) :
    ∀ dm : DM F S,
      ((NewDeltaSegment.loop env dda l dm).2.direction = true → dm.direction = true) ∧
      (¬ StartsBeyond env dm.distanceSoFar dm.delta.reverseStartDistance l →
        (NewDeltaSegment.loop env dda l dm).2.direction = dm.direction) := by
  induction l with
  | nil => intro dm; exact ⟨fun h => h, fun _ => rfl⟩
  | cons seg rest ih =>
    intro dm
    obtain ⟨v1, v2, v3⟩ := deltaVisit_direction env dda seg rest.isEmpty dm
    have hup : (NewDeltaSegment.visit env dda seg rest.isEmpty dm).direction = true →
        dm.direction = true := by
      intro h
      rw [v1] at h
      split_ifs at h
      exact h
    have hkeep : ¬ StartsBeyond env dm.distanceSoFar dm.delta.reverseStartDistance (seg :: rest) →
        (NewDeltaSegment.visit env dda seg rest.isEmpty dm).direction = dm.direction := by
      intro hno
      rw [v1, if_neg]
      exact fun hle => hno ⟨[], seg, rest, rfl, hle⟩
    simp only [NewDeltaSegment.loop]
    split_ifs
    · exact ⟨hup, hkeep⟩
    · obtain ⟨i1, i2⟩ := ih (NewDeltaSegment.visit env dda seg rest.isEmpty dm)
      refine ⟨fun h => hup (i1 h), fun hno => ?_⟩
      rw [i2, hkeep hno]
      rintro ⟨pre, s, suf, hl, hle⟩
      rw [v2, v3] at hle
      exact hno ⟨seg :: pre, s, suf, by rw [hl]; rfl, hle⟩

/-- When the engine takes the first segment, the direction it leaves. -/
theorem deltaLoop_first (env : Env F S) (dda : DDA F S) (seg : S) (rest : List S) (dm : DM F S)
    (hacc : (NewDeltaSegment.visit env dda seg rest.isEmpty dm).phaseStepLimit > dm.nextStep) :
    (NewDeltaSegment.loop env dda (seg :: rest) dm).2.direction
      = (if dm.delta.reverseStartDistance ≤ dm.distanceSoFar then false else dm.direction) := by
  have hk := deltaVisit_kept env dda seg rest.isEmpty dm
  have hacc2 : (NewDeltaSegment.visit env dda seg rest.isEmpty dm).phaseStepLimit
      > (NewDeltaSegment.visit env dda seg rest.isEmpty dm).nextStep := by
    rw [hk.2.2.2.2.1]; exact hacc
  simp only [NewDeltaSegment.loop, hacc2, if_true]
  exact (deltaVisit_direction env dda seg rest.isEmpty dm).1

/-- What the plan of `PrepareDeltaAxis` sets besides the reversal: lines 343-348. -/
theorem plan_entry (env : Env F S) (dda : DDA F S) (params : PrepParams F) (dm : DM F S) :
    (PrepareDeltaAxis.plan env dda params dm).distanceSoFar = 0 ∧
    (PrepareDeltaAxis.plan env dda params dm).nextStep = 0 ∧
    (PrepareDeltaAxis.plan env dda params dm).currentSegment = moveSegments dda := by
  unfold PrepareDeltaAxis.plan moveSegments
  exact ⟨rfl, rfl, rfl⟩

/-- What `PrepareDeltaAxis` returns: the engine is run on the plan; the record `x` it leaves
is returned with false when the engine finds no segment, and is otherwise handed, with the
fields of lines 355-357 set, to the step generator, whose result is returned. Either way
`x` has the reversal distance, the step counts of the plan, and the direction the engine
left. -/
theorem prepareDelta_go (env : Env F S) (next : DDA F S → DM F S → Option (Bool × DM F S))
    (dda : DDA F S) (params : PrepParams F) (dm : DM F S) :
    ∃ x : DM F S,
      (PrepareDeltaAxis env next dda params dm = next dda x ∨
        PrepareDeltaAxis env next dda params dm = some (false, x)) ∧
      x.delta.reverseStartDistance
        = (PrepareDeltaAxis.plan env dda params dm).delta.reverseStartDistance ∧
      x.reverseStartStep = (PrepareDeltaAxis.plan env dda params dm).reverseStartStep ∧
      x.totalSteps = (PrepareDeltaAxis.plan env dda params dm).totalSteps ∧
      x.direction = (NewDeltaSegment env dda (PrepareDeltaAxis.plan env dda params dm)).2.direction := by
  obtain ⟨e1, e2, e3⟩ := engine_keeps_plan env dda (PrepareDeltaAxis.plan env dda params dm)
  by_cases he : (NewDeltaSegment env dda (PrepareDeltaAxis.plan env dda params dm)).1 = true
  · refine ⟨{ (NewDeltaSegment env dda (PrepareDeltaAxis.plan env dda params dm)).2 with
        nextStepTime := 0, stepInterval := 999999, stepsTillRecalc := 0 }, Or.inl ?_, e1, e2, e3, rfl⟩
    simp only [PrepareDeltaAxis, he, if_true]
  · refine ⟨(NewDeltaSegment env dda (PrepareDeltaAxis.plan env dda params dm)).2, Or.inr ?_,
      e1, e2, e3, rfl⟩
    simp only [PrepareDeltaAxis, he, if_false]
    rfl

/-- The direction the engine leaves when run on the plan of `PrepareDeltaAxis`. -/
theorem plan_direction (env : Env F S) (dda : DDA F S) (params : PrepParams F) (dm : DM F S) :
    ((NewDeltaSegment env dda (PrepareDeltaAxis.plan env dda params dm)).2.direction = true →
      (PrepareDeltaAxis.plan env dda params dm).direction = true) ∧
    (¬ StartsBeyond env 0 (PrepareDeltaAxis.plan env dda params dm).delta.reverseStartDistance
        (moveSegments dda) →
      (NewDeltaSegment env dda (PrepareDeltaAxis.plan env dda params dm)).2.direction
        = (PrepareDeltaAxis.plan env dda params dm).direction) ∧
    (∀ seg rest, moveSegments dda = seg :: rest →
      (NewDeltaSegment.visit env dda seg rest.isEmpty
        (PrepareDeltaAxis.plan env dda params dm)).phaseStepLimit > 0 →
      (NewDeltaSegment env dda (PrepareDeltaAxis.plan env dda params dm)).2.direction
        = (if (PrepareDeltaAxis.plan env dda params dm).delta.reverseStartDistance ≤ 0 then false
           else (PrepareDeltaAxis.plan env dda params dm).direction)) := by
  obtain ⟨p1, p2, p3⟩ := plan_entry env dda params dm
  obtain ⟨l1, l2⟩ := deltaLoop_direction env dda
    (PrepareDeltaAxis.plan env dda params dm).currentSegment (PrepareDeltaAxis.plan env dda params dm)
  rw [p1, p3] at l2
  refine ⟨l1, l2, fun seg rest hs hacc => ?_⟩
  have hf := deltaLoop_first env dda seg rest (PrepareDeltaAxis.plan env dda params dm)
    (by rw [p2]; exact hacc)
  rw [p1] at hf
  unfold NewDeltaSegment
  rw [p3, hs]
  exact hf

/-- The plan of `PrepareDeltaAxis` on a pure Z move (lines 293-295), and what the segment engine
keeps of it. -/
theorem plan_pureZ (env : Env F S) (dda : DDA F S) (params : PrepParams F) (dm : DM F S)
    (h : params.a2plusb2 ≤ 0) :
    (PrepareDeltaAxis.plan env dda params dm).direction = decide ((0 : F) ≤ dda.directionVector 2) ∧
    (PrepareDeltaAxis.plan env dda params dm).delta.reverseStartDistance
      = (if (0 : F) ≤ dda.directionVector 2 then dda.totalDistance + 1 else -(1 : F)) ∧
    (PrepareDeltaAxis.plan env dda params dm).reverseStartStep = add32 dm.totalSteps 1 ∧
    (PrepareDeltaAxis.plan env dda params dm).totalSteps = dm.totalSteps ∧
    (NewDeltaSegment env dda (PrepareDeltaAxis.plan env dda params dm)).2.delta.reverseStartDistance
      = (if (0 : F) ≤ dda.directionVector 2 then dda.totalDistance + 1 else -(1 : F)) ∧
    (NewDeltaSegment env dda (PrepareDeltaAxis.plan env dda params dm)).2.reverseStartStep
      = add32 dm.totalSteps 1 ∧
    (NewDeltaSegment env dda (PrepareDeltaAxis.plan env dda params dm)).2.totalSteps = dm.totalSteps := by
  obtain ⟨p1, p2, p3, p4⟩ := plan_fields env dda params dm
  obtain ⟨e1, e2, e3⟩ := engine_keeps_plan env dda (PrepareDeltaAxis.plan env dda params dm)
  have hc := constants_kept env dda params dm
  have r1 : (PrepareDeltaAxis.reversal env dda params
      (PrepareDeltaAxis.constants env dda params dm)).direction
        = decide ((0 : F) ≤ dda.directionVector 2) := by
    unfold PrepareDeltaAxis.reversal
    rw [if_pos h]
    rfl
  have r2 : (PrepareDeltaAxis.reversal env dda params
      (PrepareDeltaAxis.constants env dda params dm)).delta.reverseStartDistance
        = (if (0 : F) ≤ dda.directionVector 2 then dda.totalDistance + 1 else -(1 : F)) := by
    unfold PrepareDeltaAxis.reversal
    rw [if_pos h]
    unfold PrepareDeltaAxis.pureZ
    by_cases hz : (0 : F) ≤ dda.directionVector 2 <;> simp [hz]
  have r3 : (PrepareDeltaAxis.reversal env dda params
      (PrepareDeltaAxis.constants env dda params dm)).reverseStartStep = add32 dm.totalSteps 1 := by
    unfold PrepareDeltaAxis.reversal
    rw [if_pos h]
    show add32 (PrepareDeltaAxis.constants env dda params dm).totalSteps 1 = _
    rw [hc.2.1]
  have r4 : (PrepareDeltaAxis.reversal env dda params
      (PrepareDeltaAxis.constants env dda params dm)).totalSteps = dm.totalSteps := by
    unfold PrepareDeltaAxis.reversal
    rw [if_pos h]
    exact hc.2.1
  exact ⟨p1.trans r1, p2.trans r2, p3.trans r3, p4.trans r4, e1.trans (p2.trans r2),
    e2.trans (p3.trans r3), e3.trans (p4.trans r4)⟩

/-- The plan of `PrepareDeltaAxis` with the apex inside the move (lines 304-334), for
`n = numStepsUp`, and what the segment engine keeps of it. -/
theorem plan_apex (env : Env F S) (dda : DDA F S) (params : PrepParams F) (dm : DM F S)
    (n : Int)
    (h1 : ¬ params.a2plusb2 ≤ 0) (h2 : 0 < drev dda params dm)
    (h3 : drev dda params dm < dda.totalDistance)
    (hn : n = castI32 ((hrev dda params dm
            - FloatArith.fastSqrtf (dSquaredMinusAsquaredMinusBsquared params dm))
          * env.DriveStepsPerUnit dm.drive)) :
    (n < 1 →
      (PrepareDeltaAxis.plan env dda params dm).delta.reverseStartDistance = -(1 : F) ∧
      (PrepareDeltaAxis.plan env dda params dm).direction = false ∧
      (PrepareDeltaAxis.plan env dda params dm).reverseStartStep = add32 dm.totalSteps 1 ∧
      (PrepareDeltaAxis.plan env dda params dm).totalSteps = dm.totalSteps) ∧
    (1 ≤ n →
      ((PrepareDeltaAxis.plan env dda params dm).reverseStartStep : Int) = n + 1 ∧
      (PrepareDeltaAxis.plan env dda params dm).direction = true ∧
      (PrepareDeltaAxis.plan env dda params dm).totalSteps
        = (if dm.direction then intToU32 (2 * n - (dm.totalSteps : Int))
           else intToU32 (2 * n + (dm.totalSteps : Int))) ∧
      (dm.direction = true → (dm.totalSteps : Int) ≤ 2 * n →
        ((PrepareDeltaAxis.plan env dda params dm).totalSteps : Int) = 2 * n - dm.totalSteps) ∧
      (dm.direction = false → 2 * n + (dm.totalSteps : Int) < 4294967296 →
        ((PrepareDeltaAxis.plan env dda params dm).totalSteps : Int) = 2 * n + dm.totalSteps)) ∧
    (NewDeltaSegment env dda (PrepareDeltaAxis.plan env dda params dm)).2.reverseStartStep
      = (PrepareDeltaAxis.plan env dda params dm).reverseStartStep ∧
    (NewDeltaSegment env dda (PrepareDeltaAxis.plan env dda params dm)).2.totalSteps
      = (PrepareDeltaAxis.plan env dda params dm).totalSteps := by
  obtain ⟨p1, p2, p3, p4⟩ := plan_fields env dda params dm
  obtain ⟨-, e2, e3⟩ := engine_keeps_plan env dda (PrepareDeltaAxis.plan env dda params dm)
  obtain ⟨d, d1, d2, hplan⟩ := reversal_apex env dda params dm h1 h2 h3
  rw [← hn] at hplan
  have hrange := castI32_range ((hrev dda params dm
      - FloatArith.fastSqrtf (dSquaredMinusAsquaredMinusBsquared params dm))
        * env.DriveStepsPerUnit dm.drive)
  rw [← hn] at hrange
  refine ⟨fun hlt => ?_, fun hge => ?_, e2, e3⟩
  · obtain ⟨a1, a2, a3, a4⟩ := apex_below n d hlt
    rw [p1, p2, p3, p4, hplan, a1, a2, a3, a4, d1]
    exact ⟨rfl, rfl, rfl, rfl⟩
  · have hnlt : ¬ n < 1 := by omega
    rw [p1, p3, p4, hplan]
    by_cases hdir : dm.direction = true
    · obtain ⟨a1, a2, a3⟩ := apex_up n d hnlt (d2.trans hdir)
      rw [a1, a2, a3, d1, if_pos hdir]
      refine ⟨add32_intToU32_succ hge hrange.2, rfl, rfl, fun _ hle => ?_, fun hf => ?_⟩
      · exact intToU32_of_range (by omega) (by omega)
      · rw [hdir] at hf; exact absurd hf (by decide)
    · have hdirf : dm.direction = false := by simpa using hdir
      obtain ⟨a1, a2, a3⟩ := apex_down n d hnlt (d2.trans hdirf)
      rw [a1, a2, a3, d1, if_neg hdir]
      refine ⟨add32_intToU32_succ hge hrange.2, rfl, rfl, fun ht2 => ?_, fun _ hlt => ?_⟩
      · exact absurd ht2 hdir
      · exact intToU32_of_range (by omega) hlt

/-- The step counts in the plan of `PrepareDeltaAxis`, for `n = numStepsUp`: without a reversal
`reverseStartStep = totalSteps + 1`; with one, where `reverseStartStep = n + 1` lies. -/
theorem plan_sentinel (env : Env F S) (dda : DDA F S) (params : PrepParams F) (dm : DM F S)
    (n : Int)
    (hn : n = castI32 ((hrev dda params dm
            - FloatArith.fastSqrtf (dSquaredMinusAsquaredMinusBsquared params dm))
          * env.DriveStepsPerUnit dm.drive)) :
    ((params.a2plusb2 ≤ 0 ∨ ¬ (0 < drev dda params dm ∧ drev dda params dm < dda.totalDistance)
        ∨ n < 1) →
      (PrepareDeltaAxis.plan env dda params dm).reverseStartStep
        = add32 (PrepareDeltaAxis.plan env dda params dm).totalSteps 1) ∧
    (¬ params.a2plusb2 ≤ 0 → 0 < drev dda params dm → drev dda params dm < dda.totalDistance →
      1 ≤ n →
      ((PrepareDeltaAxis.plan env dda params dm).reverseStartStep : Int) = n + 1 ∧
      1 < (PrepareDeltaAxis.plan env dda params dm).reverseStartStep ∧
      (dm.direction = true → (dm.totalSteps : Int) ≤ 2 * n →
        ((PrepareDeltaAxis.plan env dda params dm).reverseStartStep
            < (PrepareDeltaAxis.plan env dda params dm).totalSteps ↔ (dm.totalSteps : Int) + 1 < n) ∧
        ((PrepareDeltaAxis.plan env dda params dm).reverseStartStep
            = (PrepareDeltaAxis.plan env dda params dm).totalSteps + 1 ↔ (dm.totalSteps : Int) = n)) ∧
      (dm.direction = false → 2 * n + (dm.totalSteps : Int) < 4294967296 →
        ((PrepareDeltaAxis.plan env dda params dm).reverseStartStep
            < (PrepareDeltaAxis.plan env dda params dm).totalSteps ↔ 1 < n + (dm.totalSteps : Int)))) := by
  obtain ⟨-, -, p3, p4⟩ := plan_fields env dda params dm
  obtain ⟨-, c2, c3, -⟩ := constants_kept env dda params dm
  have hd := drev_constants env dda params dm
  have hrange := castI32_range ((hrev dda params dm
      - FloatArith.fastSqrtf (dSquaredMinusAsquaredMinusBsquared params dm))
        * env.DriveStepsPerUnit dm.drive)
  rw [← hn] at hrange
  constructor
  · intro hcase
    rw [p3, p4]
    by_cases h1 : params.a2plusb2 ≤ 0
    · obtain ⟨a, b⟩ := reversal_pureZ env dda params _ h1
      rw [a, b]
    · by_cases h2 : 0 < drev dda params dm ∧ drev dda params dm < dda.totalDistance
      · obtain ⟨d, d1, d2, hplan⟩ := reversal_apex env dda params dm h1 h2.1 h2.2
        rw [← hn] at hplan
        have hlt : n < 1 := by
          rcases hcase with h | h | h
          · exact absurd h h1
          · exact absurd h2 h
          · exact h
        obtain ⟨-, -, a3, a4⟩ := apex_below n d hlt
        rw [hplan, a3, a4]
      · have h2' : ¬ (0 < drev dda params (PrepareDeltaAxis.constants env dda params dm) ∧
            drev dda params (PrepareDeltaAxis.constants env dda params dm) < dda.totalDistance) := by
          rw [hd]; exact h2
        obtain ⟨a, b⟩ := reversal_outside env dda params _ h1 h2'
        rw [a, b]
  · intro h1 h2 h3 hge
    obtain ⟨d, d1, d2, hplan⟩ := reversal_apex env dda params dm h1 h2 h3
    rw [← hn] at hplan
    have hnlt : ¬ n < 1 := by omega
    have hrss := add32_intToU32_succ hge hrange.2
    rw [p3, p4, hplan]
    by_cases hdir : dm.direction = true
    · obtain ⟨a1, -, a3⟩ := apex_up n d hnlt (d2.trans hdir)
      rw [a1, a3, d1]
      refine ⟨hrss, by omega, fun _ hle => ?_, fun hf => ?_⟩
      · have ht := intToU32_of_range (show (0 : Int) ≤ 2 * n - dm.totalSteps by omega)
          (show 2 * n - (dm.totalSteps : Int) < 4294967296 by omega)
        constructor <;> omega
      · rw [hdir] at hf; exact absurd hf (by decide)
    · have hdirf : dm.direction = false := by simpa using hdir
      obtain ⟨a1, -, a3⟩ := apex_down n d hnlt (d2.trans hdirf)
      rw [a1, a3, d1]
      refine ⟨hrss, by omega, fun ht2 => absurd ht2 hdir, fun _ hlt => ?_⟩
      have ht := intToU32_of_range (show (0 : Int) ≤ 2 * n + dm.totalSteps by omega) hlt
      omega

/-- With the reversal point inside the move and `numStepsUp >= 1`, the plan keeps `drev` as
`reverseStartDistance` (line 303). -/
theorem plan_apex_distance (env : Env F S) (dda : DDA F S) (params : PrepParams F) (dm : DM F S)
    (h1 : ¬ params.a2plusb2 ≤ 0) (h2 : 0 < drev dda params dm)
    (h3 : drev dda params dm < dda.totalDistance)
    (hn : ¬ castI32 ((hrev dda params dm
            - FloatArith.fastSqrtf (dSquaredMinusAsquaredMinusBsquared params dm))
          * env.DriveStepsPerUnit dm.drive) < 1) :
    (PrepareDeltaAxis.plan env dda params dm).delta.reverseStartDistance = drev dda params dm := by
  obtain ⟨-, p2, -, -⟩ := plan_fields env dda params dm
  have hd := drev_constants env dda params dm
  have hnum := numStepsUp_constants env dda params dm
  have hin : 0 < drev dda params (PrepareDeltaAxis.constants env dda params dm) ∧
      drev dda params (PrepareDeltaAxis.constants env dda params dm) < dda.totalDistance := by
    rw [hd]; exact ⟨h2, h3⟩
  have hnum2 : numStepsUp env dda params
      { PrepareDeltaAxis.constants env dda params dm with
        delta.reverseStartDistance := drev dda params (PrepareDeltaAxis.constants env dda params dm) }
      = _ := hnum
  rw [p2]
  unfold PrepareDeltaAxis.reversal
  rw [if_neg h1]
  simp only [if_pos hin, hnum2]
  unfold PrepareDeltaAxis.apex
  rw [if_neg hn]
  dsimp only
  split_ifs <;> exact hd

/-- A Boolean that is true only if another one is, is false when that one is. -/
theorem false_of_imp {a b : Bool} (h : a = true → b = true) (hb : b = false) : a = false := by
  cases a
  · rfl
  · rw [h rfl] at hb; exact hb

/-- A call that reaches line 608 with the step time `t` returns what lines 608-638 make of
its conversion to `uint32_t`. -/
theorem full_of_stepTime {env : Env F S} {dda : DDA F S} {dm dm1 dm3 : DM F S} {t : F}
    (hadv : advanceSegment env dda dm = some (true, dm1))
    (hst : stepTime env dda (withRecalc dm1 (chosenShift env dm dm1)) (chosenShift env dm dm1)
      = some (StepCalc.time t dm3)) :
    CalcNextStepTimeFull env dda dm
      = some (finishStep env dda dm3 (chosenShift env dm dm1) (castU32 t)) := by
  simp only [CalcNextStepTimeFull, hadv, hst]

/-- C1, as amended. The tiers of `shiftFactor` are strict in `stepsToLimit`: it is 3 exactly
when `stepsToLimit > 8` and `stepInterval < MinCalcInterval/4`; otherwise 2 exactly when
`stepsToLimit > 4` and `stepInterval < MinCalcInterval/2`; otherwise 1 exactly when
`stepsToLimit > 2` and `stepInterval < MinCalcInterval`; otherwise 0. A call of
`CalcNextStepTimeFull` that does not stop at the segment advance leaves
`stepsTillRecalc = 2^shiftFactor - 1`, for the `stepInterval` on entry and the `stepsToLimit`
of the call. -/
theorem C1_shiftFactor_tiers (env : Env F S) (dda : DDA F S) (dm dm1 : DM F S)
    (r : Bool × DM F S) (hadv : advanceSegment env dda dm = some (true, dm1))
    (hr : CalcNextStepTimeFull env dda dm = some r) :
    (∀ m i n : Nat,
      (shiftFactor m i n = 3 ↔ n > 8 ∧ i < m / 4) ∧
      (shiftFactor m i n = 2 ↔ ¬ (n > 8 ∧ i < m / 4) ∧ n > 4 ∧ i < m / 2) ∧
      (shiftFactor m i n = 1 ↔
        ¬ (n > 8 ∧ i < m / 4) ∧ ¬ (n > 4 ∧ i < m / 2) ∧ n > 2 ∧ i < m) ∧
      (shiftFactor m i n = 0 ↔
        ¬ (n > 8 ∧ i < m / 4) ∧ ¬ (n > 4 ∧ i < m / 2) ∧ ¬ (n > 2 ∧ i < m))) ∧
    r.2.stepsTillRecalc
      = 2 ^ shiftFactor env.MinCalcInterval dm.stepInterval (stepsToLimit dm dm1) - 1 := by
  constructor
  · intro m i n
    unfold shiftFactor
    split_ifs with h1 h2 h3 h4 <;> simp only [OfNat.ofNat_ne_zero, OfNat.zero_ne_ofNat,
      OfNat.ofNat_ne_one, OfNat.one_ne_ofNat, false_iff, true_iff, Nat.reduceEqDiff,
      zero_ne_one, one_ne_zero] <;> omega
  · exact CalcNextStepTimeFull_recalc_entry hadv hr

/-- C1 at an example: step 1 of a linear phase that ends at step 9. -/
theorem C1_shiftFactor_tiers_witness :
    ({ tierState with nextStepTime := 11, stepsTillRecalc := 3 } : DM Fixed Seg).stepsTillRecalc
      = 2 ^ shiftFactor (demoEnv true).MinCalcInterval tierState.stepInterval
          (stepsToLimit tierState tierState) - 1 :=
  (C1_shiftFactor_tiers (demoEnv true) demoDDA tierState tierState
    (true, { tierState with nextStepTime := 11, stepsTillRecalc := 3 })
    (by decide) (by decide)).2

/-- C1 as stated fails: with eight steps to the limit and an interval below
`MinCalcInterval/4` the call does quad stepping (`shiftFactor = 2`, three more steps), not
octal stepping. -/
theorem C1_counterexample :
    stepsToLimit tierState tierState ≥ 8 ∧
    tierState.stepInterval < (demoEnv true).MinCalcInterval / 4 ∧
    shiftFactor (demoEnv true).MinCalcInterval tierState.stepInterval
      (stepsToLimit tierState tierState) = 2 ∧
    (CalcNextStepTimeFull (demoEnv true) demoDDA tierState).map (fun r => (r.1, r.2.stepsTillRecalc))
      = some (true, 3) := by
  decide

/-- C2, as amended. For a call in 32-bit range that gets past the segment advance, the
`stepsToLimit` used to choose `shiftFactor` is `min(phaseStepLimit, reverseStartStep) -
nextStep` (in 32-bit arithmetic, `phaseStepLimit` being the one in force after the advance)
when the call advanced no segment or the new `phaseStepLimit` exceeds `reverseStartStep`;
after a segment advance whose new `phaseStepLimit` is at most `reverseStartStep` it is 0,
the value computed before the advance. The `stepsTillRecalc` left by the call is the one
chosen from that value. -/
theorem C2_stepsToLimit (env : Env F S) (dda : DDA F S) (dm dm1 : DM F S) (hr : dm.InRange)
    (hadv : advanceSegment env dda dm = some (true, dm1)) :
    stepsToLimit dm dm1 =
      (if dm.nextStep = dm.phaseStepLimit ∧ dm1.phaseStepLimit ≤ dm1.reverseStartStep then 0
       else sub32 (min dm1.phaseStepLimit dm1.reverseStartStep) dm.nextStep) ∧
    ∀ r, CalcNextStepTimeFull env dda dm = some r →
      r.2.stepsTillRecalc = 2 ^ shiftFactor env.MinCalcInterval dm.stepInterval
        (if dm.nextStep = dm.phaseStepLimit ∧ dm1.phaseStepLimit ≤ dm1.reverseStartStep then 0
         else sub32 (min dm1.phaseStepLimit dm1.reverseStartStep) dm.nextStep) - 1 := by
  have hk := advanceSegment_kept hadv
  have hn : dm1.nextStep = dm.nextStep := hk.2.2.2.2.1
  obtain ⟨-, hn32, -, hp32, -, -⟩ := hr
  have key : stepsToLimit dm dm1 =
      (if dm.nextStep = dm.phaseStepLimit ∧ dm1.phaseStepLimit ≤ dm1.reverseStartStep then 0
       else sub32 (min dm1.phaseStepLimit dm1.reverseStartStep) dm.nextStep) := by
    have hz : sub32 dm.phaseStepLimit dm.nextStep = 0 ↔ dm.phaseStepLimit = dm.nextStep :=
      sub32_eq_zero_iff hp32 hn32
    unfold stepsToLimit
    rw [hn]
    by_cases hgt : dm1.phaseStepLimit > dm1.reverseStartStep
    · have hmin : min dm1.phaseStepLimit dm1.reverseStartStep = dm1.reverseStartStep :=
        Nat.min_eq_right (Nat.le_of_lt hgt)
      have hnot : ¬ (dm.nextStep = dm.phaseStepLimit ∧ dm1.phaseStepLimit ≤ dm1.reverseStartStep) := by
        omega
      rw [if_pos hgt, if_neg hnot, hmin]
    · have hmin : min dm1.phaseStepLimit dm1.reverseStartStep = dm1.phaseStepLimit :=
        Nat.min_eq_left (Nat.le_of_not_lt hgt)
      rw [if_neg hgt, hmin]
      by_cases he : dm.nextStep = dm.phaseStepLimit
      · rw [if_pos ⟨he, Nat.le_of_not_lt hgt⟩]
        exact hz.2 he.symm
      · have hnot : ¬ (dm.nextStep = dm.phaseStepLimit ∧ dm1.phaseStepLimit ≤ dm1.reverseStartStep) :=
          fun h => he h.1
        rw [if_neg hnot]
        rcases advanceSegment_cases env dda dm with ⟨-, h1⟩ | ⟨h0, -, -⟩ | ⟨_, _, h0, -⟩ | ⟨_, _, h0, -⟩
        · rw [h1] at hadv
          simp only [Option.some.injEq, Prod.mk.injEq, true_and] at hadv
          rw [← hadv]
        · exact absurd (hz.1 h0).symm he
        · exact absurd (hz.1 h0).symm he
        · exact absurd (hz.1 h0).symm he
  refine ⟨key, fun r h => ?_⟩
  have h2 := CalcNextStepTimeFull_recalc_entry hadv h
  rw [key] at h2
  exact h2

/-- C2 at an example: a segment advance at step 5, the new phase ending at step 105. -/
theorem C2_stepsToLimit_witness :
    stepsToLimit boundaryState boundaryNext =
      (if boundaryState.nextStep = boundaryState.phaseStepLimit ∧
          boundaryNext.phaseStepLimit ≤ boundaryNext.reverseStartStep then 0
       else sub32 (min boundaryNext.phaseStepLimit boundaryNext.reverseStartStep)
          boundaryState.nextStep) :=
  (C2_stepsToLimit (demoEnv true) demoDDA boundaryState boundaryNext (by decide) (by decide)).1

/-- C2 as stated fails: the call meets its precondition and advances to a segment with 100
steps to its limit, yet the `stepsToLimit` it uses is 0 and it computes a single step,
although the last interval (0 clocks) would allow octal stepping. -/
theorem C2_counterexample :
    boundaryState.nextStep ≤ boundaryState.totalSteps ∧ boundaryState.stepsTillRecalc = 0 ∧
    advanceSegment (demoEnv true) demoDDA boundaryState = some (true, boundaryNext) ∧
    min boundaryNext.phaseStepLimit boundaryNext.reverseStartStep - boundaryState.nextStep = 100 ∧
    stepsToLimit boundaryState boundaryNext = 0 ∧
    shiftFactor (demoEnv true).MinCalcInterval boundaryState.stepInterval 100 = 3 ∧
    (CalcNextStepTimeFull (demoEnv true) demoDDA boundaryState).map
      (fun r => (r.1, r.2.stepsTillRecalc)) = some (true, 0) := by
  decide

/-- C3, as amended. If `CalcNextStepTimeFull` returns true, the step time it computed is not
earlier than the `nextStepTime` held before the call, and that earlier `nextStepTime` does
not exceed `dda.clocksNeeded`, then the `nextStepTime` it stores is at least the earlier one.
(Only `stepInterval` is clamped at zero; `nextStepTime` takes the computed time.) -/
theorem C3_stepTime_monotone (env : Env F S) (dda : DDA F S) (dm dm' : DM F S) (c : Nat)
    (hret : CalcNextStepTimeFull env dda dm = some (true, dm'))
    (hc : nextCalcStepTime env dda dm = some c)
    (hge : dm.nextStepTime ≤ c) (hcl : dm.nextStepTime ≤ dda.clocksNeeded) :
    dm.nextStepTime ≤ dm'.nextStepTime := by
  obtain ⟨dm1, t, dm3, -, -, hct, hfull, -, -, htime, hrec⟩ := nextCalcStepTime_stages hc
  have hc32 : c < u32 := hct ▸ castU32_lt t
  rw [hfull] at hret
  simp only [Option.some.injEq] at hret
  by_cases hl : c > dda.clocksNeeded
  · by_cases hn : add32 dm3.nextStep 1 ≥ dm3.totalSteps
    · rw [finishStep_late_last env dda dm3 _ c hl hn] at hret
      simp only [Prod.mk.injEq, true_and] at hret
      rw [← hret]
      exact hcl
    · rw [finishStep_late_other env dda dm3 _ c hl hn] at hret
      simp only [Prod.mk.injEq, Bool.false_eq_true, false_and] at hret
  · rw [finishStep_in_time env dda dm3 _ c hl] at hret
    simp only [Prod.mk.injEq, true_and] at hret
    rw [← hret, ← htime]
    exact newStepTime_ge env dm3 _ c hc32 hrec (htime ▸ hge)

/-- C3 at an example: the step computed at clock 11 after one at clock 10. -/
theorem C3_stepTime_monotone_witness :
    tierState.nextStepTime
      ≤ ({ tierState with nextStepTime := 11, stepsTillRecalc := 3 } : DM Fixed Seg).nextStepTime :=
  C3_stepTime_monotone (demoEnv true) demoDDA tierState
    { tierState with nextStepTime := 11, stepsTillRecalc := 3 } 11
    (by decide) (by decide) (by decide) (by decide)

/-- C3 as stated fails: the formula gives clock 5 for the step, the previous step time was
10; the call returns true and stores 5, with `EVEN_STEPS` on and off. -/
theorem C3_counterexample :
    earlyState.nextStepTime = 10 ∧
    (CalcNextStepTimeFull (demoEnv true) demoDDA earlyState).map
      (fun r => (r.1, r.2.nextStepTime, r.2.stepInterval)) = some (true, 5, 0) ∧
    (CalcNextStepTimeFull (demoEnv false) demoDDA earlyState).map
      (fun r => (r.1, r.2.nextStepTime, r.2.stepInterval)) = some (true, 5, 0) := by
  decide

/-- C4. Whenever `CalcNextStepTimeFull` returns true, the `nextStepTime` it stores is at
most `dda.clocksNeeded`; this holds for every record and every move, with `EVEN_STEPS` on or
off. -/
theorem C4_stepTime_bounded (env : Env F S) (dda : DDA F S) (dm dm' : DM F S)
    (hret : CalcNextStepTimeFull env dda dm = some (true, dm')) :
    dm'.nextStepTime ≤ dda.clocksNeeded := by
  obtain ⟨c, hc⟩ := nextCalcStepTime_of_true hret
  obtain ⟨dm1, t, dm3, -, -, hct, hfull, -, -, htime, hrec⟩ := nextCalcStepTime_stages hc
  have hc32 : c < u32 := hct ▸ castU32_lt t
  rw [hfull] at hret
  simp only [Option.some.injEq] at hret
  by_cases hl : c > dda.clocksNeeded
  · by_cases hn : add32 dm3.nextStep 1 ≥ dm3.totalSteps
    · rw [finishStep_late_last env dda dm3 _ c hl hn] at hret
      simp only [Prod.mk.injEq, true_and] at hret
      rw [← hret]
    · rw [finishStep_late_other env dda dm3 _ c hl hn] at hret
      simp only [Prod.mk.injEq, Bool.false_eq_true, false_and] at hret
  · rw [finishStep_in_time env dda dm3 _ c hl] at hret
    simp only [Prod.mk.injEq, true_and] at hret
    rw [← hret]
    exact Nat.le_trans (newStepTime_le env dm3 _ c hc32 hrec) (Nat.le_of_not_lt hl)

/-- C4 at an example. -/
theorem C4_stepTime_bounded_witness :
    ({ tierState with nextStepTime := 11, stepsTillRecalc := 3 } : DM Fixed Seg).nextStepTime
      ≤ demoDDA.clocksNeeded :=
  C4_stepTime_bounded (demoEnv true) demoDDA tierState
    { tierState with nextStepTime := 11, stepsTillRecalc := 3 } (by decide)

/-- C5, as amended. When the computed step time exceeds `dda.clocksNeeded`: if
`nextStep + 1 >= totalSteps` (the sum in 32 bits: the last step or the one before it) the
call returns true with `nextStepTime = clocksNeeded`; otherwise it returns false with
`state = stepError` and `nextStep` increased by 120000000 (in 32 bits). -/
theorem C5_late_step (env : Env F S) (dda : DDA F S) (dm : DM F S) (c : Nat)
    (hc : nextCalcStepTime env dda dm = some c) (hlate : c > dda.clocksNeeded) :
    (add32 dm.nextStep 1 ≥ dm.totalSteps →
      ∃ dm', CalcNextStepTimeFull env dda dm = some (true, dm') ∧
        dm'.nextStepTime = dda.clocksNeeded) ∧
    (¬ add32 dm.nextStep 1 ≥ dm.totalSteps →
      ∃ dm', CalcNextStepTimeFull env dda dm = some (false, dm') ∧
        dm'.state = DMState.stepError ∧ dm'.nextStep = add32 dm.nextStep 120000000) := by
  obtain ⟨dm1, t, dm3, -, -, -, hfull, hns, hts, -, -⟩ := nextCalcStepTime_stages hc
  constructor
  · intro hn
    rw [← hns, ← hts] at hn
    rw [hfull, finishStep_late_last env dda dm3 _ c hlate hn]
    exact ⟨_, rfl, rfl⟩
  · intro hn
    rw [← hns, ← hts] at hn
    rw [hfull, finishStep_late_other env dda dm3 _ c hlate hn]
    refine ⟨_, rfl, rfl, ?_⟩
    show add32 dm3.nextStep 120000000 = add32 dm.nextStep 120000000
    rw [hns]

/-- C5 at an example: the last step but one, computed late. -/
theorem C5_late_step_witness :
    (add32 lateState.nextStep 1 ≥ lateState.totalSteps →
      ∃ dm', CalcNextStepTimeFull (demoEnv true) demoDDA lateState = some (true, dm') ∧
        dm'.nextStepTime = demoDDA.clocksNeeded) ∧
    (¬ add32 lateState.nextStep 1 ≥ lateState.totalSteps →
      ∃ dm', CalcNextStepTimeFull (demoEnv true) demoDDA lateState = some (false, dm') ∧
        dm'.state = DMState.stepError ∧ dm'.nextStep = add32 lateState.nextStep 120000000) :=
  C5_late_step (demoEnv true) demoDDA lateState 2000 (by decide) (by decide)

/-- C5 as stated fails: step 4 of 5 is not the last step and is computed late (clock 2000,
the move ends at 1000), yet the call returns true, with the step brought forward to clock
1000 and no error state. -/
theorem C5_counterexample :
    lateState.nextStep < lateState.totalSteps ∧
    nextCalcStepTime (demoEnv true) demoDDA lateState = some 2000 ∧
    2000 > demoDDA.clocksNeeded ∧
    (CalcNextStepTimeFull (demoEnv true) demoDDA lateState).map
      (fun r => (r.1, r.2.state, r.2.nextStep, r.2.nextStepTime))
      = some (true, DMState.cartLinear, 4, 1000) := by
  decide

/-- C6. In a delta state that reaches the formula, with `t1`, `t2` and `ds` as the
specification writes them (`specDs`, on the updated `fHmz0s`, after the turn at
`reverseStartStep`): if `ds < 0` the call returns false leaving `state = stepError` and
`nextStep` increased by 110000000 (a 32-bit sum: it equals `nextStep + 110000000`, hence is
at least 110000000, as long as that sum fits in 32 bits); if `ds` is not negative the call
does not fail with that tag. `fastSqrtf 0 = 0` is assumed, so that `sqrt(max(0, x))` is the
source's `(x > 0) ? sqrt(x) : 0`. -/
theorem C6_delta_breakdown (env : Env F S) (dda : DDA F S) (dm dm1 : DM F S)
    (hsqrt : FloatArith.fastSqrtf (0 : F) = 0)
    (hadv : advanceSegment env dda dm = some (true, dm1))
    (hst : dm1.state.isDeltaMotion = true) :
    (specDs dda (deltaTurn dm1) (chosenShift env dm dm1) < 0 →
      ∃ dm', CalcNextStepTimeFull env dda dm = some (false, dm') ∧
        dm'.state = DMState.stepError ∧ dm'.nextStep = add32 dm.nextStep 110000000 ∧
        (dm.nextStep + 110000000 < u32 →
          dm'.nextStep = dm.nextStep + 110000000 ∧ dm'.nextStep ≥ 110000000)) ∧
    (¬ specDs dda (deltaTurn dm1) (chosenShift env dm dm1) < 0 →
      ∀ dm', CalcNextStepTimeFull env dda dm = some (false, dm') →
        dm'.nextStep ≠ add32 dm.nextStep 110000000) := by
  have hfull := CalcNextStepTimeFull_delta hadv hst
  have hk := advanceSegment_kept hadv
  have hn1 : dm1.nextStep = dm.nextStep := hk.2.2.2.2.1
  have hturn := deltaTurn_carried (withRecalc dm1 (chosenShift env dm dm1))
  have hn2 : (deltaTurn (withRecalc dm1 (chosenShift env dm dm1))).nextStep = dm.nextStep :=
    hturn.2.1.trans hn1
  have hds : specDs dda (deltaTurn dm1) (chosenShift env dm dm1)
      = deltaDs dda (deltaRaise (deltaTurn (withRecalc dm1 (chosenShift env dm dm1)))
          (chosenShift env dm dm1)) := by
    rw [← specDs_eq dda _ _ hsqrt, deltaTurn_withRecalc, specDs_withRecalc]
  rw [hds]
  rcases deltaStepTime_cases env dda (deltaTurn (withRecalc dm1 (chosenShift env dm dm1)))
      (chosenShift env dm dm1) with ⟨h1, h2⟩ | ⟨h1, -, h2⟩ | ⟨h1, t, d3, h2, hc, -⟩
  · rw [h2] at hfull
    refine ⟨fun _ => ⟨_, hfull, rfl, ?_, ?_⟩, fun h => absurd h1 h⟩
    · show add32 (deltaTurn (withRecalc dm1 (chosenShift env dm dm1))).nextStep 110000000 = _
      rw [hn2]
    · intro hlt
      show add32 (deltaTurn (withRecalc dm1 (chosenShift env dm dm1))).nextStep 110000000
          = dm.nextStep + 110000000 ∧
        add32 (deltaTurn (withRecalc dm1 (chosenShift env dm dm1))).nextStep 110000000 ≥ 110000000
      rw [hn2]
      unfold add32 u32 at *
      omega
  · rw [h2] at hfull
    refine ⟨fun h => absurd h h1, fun _ dm' h => ?_⟩
    rw [hfull] at h
    simp at h
  · rw [h2] at hfull
    refine ⟨fun h => absurd h h1, fun _ dm' h => ?_⟩
    rw [hfull] at h
    simp only [Option.some.injEq] at h
    rw [finishStep_false h, hc.2.1, hn2]
    exact (add32_tag_ne dm.nextStep).1

/-- C6 at an example: `ds = -100` at step 3. -/
theorem C6_delta_breakdown_witness :
    (specDs demoDDA (deltaTurn breakState) (chosenShift (demoEnv true) breakState breakState) < 0 →
      ∃ dm', CalcNextStepTimeFull (demoEnv true) demoDDA breakState = some (false, dm') ∧
        dm'.state = DMState.stepError ∧ dm'.nextStep = add32 breakState.nextStep 110000000 ∧
        (breakState.nextStep + 110000000 < u32 →
          dm'.nextStep = breakState.nextStep + 110000000 ∧ dm'.nextStep ≥ 110000000)) ∧
    (¬ specDs demoDDA (deltaTurn breakState) (chosenShift (demoEnv true) breakState breakState) < 0 →
      ∀ dm', CalcNextStepTimeFull (demoEnv true) demoDDA breakState = some (false, dm') →
        dm'.nextStep ≠ add32 breakState.nextStep 110000000) :=
  C6_delta_breakdown (demoEnv true) demoDDA breakState breakState (by decide) (by decide)
    (by decide)

/-- C7. For a record in 32-bit range, `CalcNextStepTimeFull` returns false with
`state = stepError` and `nextStep` increased by 100000000 (in 32 bits) if and only if
`nextStep == phaseStepLimit` on entry and the segment engine of the kinematics, run from the
successor of `currentSegment`, returns false; and when `nextStep != phaseStepLimit` on entry
the call leaves `currentSegment` where it was. -/
theorem C7_segment_exhaustion (env : Env F S) (dda : DDA F S) (dm : DM F S) (hr : dm.InRange) :
    ((∃ dm', CalcNextStepTimeFull env dda dm = some (false, dm') ∧
        dm'.state = DMState.stepError ∧ dm'.nextStep = add32 dm.nextStep 100000000) ↔
      (dm.nextStep = dm.phaseStepLimit ∧ ∃ seg rest, dm.currentSegment = seg :: rest ∧
        (if dm.isDelta then NewDeltaSegment env dda { dm with currentSegment := rest }
         else if dm.isExtruder then NewExtruderSegment env { dm with currentSegment := rest }
         else NewCartesianSegment env { dm with currentSegment := rest }).1 = false)) ∧
    (dm.nextStep ≠ dm.phaseStepLimit →
      ∀ r, CalcNextStepTimeFull env dda dm = some r → r.2.currentSegment = dm.currentSegment) := by
  have hz : sub32 dm.phaseStepLimit dm.nextStep = 0 ↔ dm.phaseStepLimit = dm.nextStep :=
    sub32_eq_zero_iff hr.2.2.2.1 hr.2.1
  have hnew : ∀ rest, newSegment env dda { dm with currentSegment := rest } =
      (if dm.isDelta then NewDeltaSegment env dda { dm with currentSegment := rest }
       else if dm.isExtruder then NewExtruderSegment env { dm with currentSegment := rest }
       else NewCartesianSegment env { dm with currentSegment := rest }) := fun _ => rfl
  have htag := add32_tag_ne dm.nextStep
  refine ⟨⟨?_, ?_⟩, ?_⟩
  · rintro ⟨dm', h, -, hn⟩
    rcases CalcNextStepTimeFull_cases h with ⟨seg, rest, h0, hs, hm, -, -⟩ | ⟨d1, h1, h2⟩
    · exact ⟨(hz.1 h0).symm, seg, rest, hs, by rw [← hnew]; exact hm⟩
    · exfalso
      have hk := advanceSegment_kept h1
      have hn1 : d1.nextStep = dm.nextStep := hk.2.2.2.2.1
      rcases h2 with ⟨dm3, h3, h4⟩ | ⟨t, dm3, h3, h4⟩
      · simp only [Prod.mk.injEq, true_and] at h4
        subst h4
        rcases stepTime_fail h3 with ⟨h5, -⟩ | ⟨-, -, -, h5, -⟩
        · rw [h5] at hn
          have : (withRecalc d1 (chosenShift env dm d1)).nextStep = dm.nextStep := hn1
          rw [this] at hn
          exact htag.2.2.2.1 hn
        · have : (withRecalc d1 (chosenShift env dm d1)).nextStep = dm.nextStep := hn1
          rw [h5, this] at hn
          exact htag.2.2.1 hn
      · have h5 := finishStep_false h4.symm
        have h6 := (stepTime_carried h3).2.1
        have : (withRecalc d1 (chosenShift env dm d1)).nextStep = dm.nextStep := hn1
        rw [h5, h6, this] at hn
        exact htag.2.1 hn
  · rintro ⟨he, seg, rest, hs, hm⟩
    rw [← hnew] at hm
    rcases advanceSegment_cases env dda dm with ⟨h0, -⟩ | ⟨-, hs2, -⟩ | ⟨_, _, -, hs2, hm2, -⟩ |
      ⟨_, _, -, hs2, -, h1⟩
    · exact absurd (hz.2 he.symm) h0
    · rw [hs] at hs2; simp at hs2
    · rw [hs] at hs2
      simp only [List.cons.injEq] at hs2
      rw [← hs2.2, hm] at hm2
      simp at hm2
    · refine ⟨_, CalcNextStepTimeFull_exhausted h1, rfl, ?_⟩
      show add32 (newSegment env dda _).2.nextStep 100000000 = add32 dm.nextStep 100000000
      rw [(newSegment_kept env dda _).2.2.2.2.1]
  · intro hne r h
    have h0 : sub32 dm.phaseStepLimit dm.nextStep ≠ 0 := fun h0 => hne (hz.1 h0).symm
    rcases CalcNextStepTimeFull_cases h with ⟨_, _, h0', -⟩ | ⟨d1, h1, h2⟩
    · exact absurd h0' h0
    · have hd : d1 = dm := by
        rcases advanceSegment_cases env dda dm with ⟨-, h3⟩ | ⟨h3, -⟩ | ⟨_, _, h3, -⟩ | ⟨_, _, h3, -⟩
        · rw [h3] at h1
          simp only [Option.some.injEq, Prod.mk.injEq, true_and] at h1
          exact h1.symm
        · exact absurd h3 h0
        · exact absurd h3 h0
        · exact absurd h3 h0
      subst hd
      rcases h2 with ⟨dm3, h3, rfl⟩ | ⟨t, dm3, h3, rfl⟩
      · exact (stepTime_fail_segment h3).trans rfl
      · rw [finishStep_segment]
        exact ((stepTime_carried h3).2.2.2.2.2.2.2).trans rfl

/-- C7 at an example: a record at the end of its first segment, with a second one to go. -/
theorem C7_segment_exhaustion_witness :
    (∃ dm', CalcNextStepTimeFull (demoEnv true) demoDDA boundaryState = some (false, dm') ∧
        dm'.state = DMState.stepError ∧
        dm'.nextStep = add32 boundaryState.nextStep 100000000) ↔
      (boundaryState.nextStep = boundaryState.phaseStepLimit ∧
        ∃ seg rest, boundaryState.currentSegment = seg :: rest ∧
          (if boundaryState.isDelta then
              NewDeltaSegment (demoEnv true) demoDDA { boundaryState with currentSegment := rest }
           else if boundaryState.isExtruder then
              NewExtruderSegment (demoEnv true) { boundaryState with currentSegment := rest }
           else
              NewCartesianSegment (demoEnv true) { boundaryState with currentSegment := rest }).1
            = false) :=
  (C7_segment_exhaustion (demoEnv true) demoDDA boundaryState (by decide)).1

/-- C8. A call of `CalcNextStepTimeFull` in a Cartesian state, with `n = nextStep` and `r`
the `stepsTillRecalc` chosen by the call (sums and differences of step numbers in 32 bits).
The step time computed before its conversion to integer clocks is `pB + (n + r)*pC` in
`cartLinear`, `pB + sqrt(pA + pC*(n + r))` in `cartAccel`, `pB - sqrt(pA + pC*(n + r))` in
`cartDecelNoReverse` and in `cartDecelForwardsReversing` while `n <= reverseStartStep`, and
`pB + sqrt(pA + pC*((2*reverseStartStep - n) + r))` in `cartDecelReverse`, also on the call
that enters it from `cartDecelForwardsReversing` with `n > reverseStartStep` (lines 546-552).
In each case the call returns what lines 608-638 make of that time converted to `uint32_t`.
The state and the coefficients are those in force after the segment advance of the call. -/
theorem C8_cartesian_formulas (env : Env F S) (dda : DDA F S) (dm dm1 : DM F S) (n r : Nat)
    (hadv : advanceSegment env dda dm = some (true, dm1))
    (hn : n = dm.nextStep) (hr : r = 2 ^ chosenShift env dm dm1 - 1) :
    (dm1.state = DMState.cartLinear →
      ComputesStepTime env dda dm dm1 r (dm1.pB + FloatArith.ofUInt32 (add32 n r) * dm1.pC) ∧
      CalcNextStepTimeFull env dda dm
        = some (finishStep env dda (withRecalc dm1 (chosenShift env dm dm1))
            (chosenShift env dm dm1)
            (castU32 (dm1.pB + FloatArith.ofUInt32 (add32 n r) * dm1.pC)))) ∧
    (dm1.state = DMState.cartAccel →
      ComputesStepTime env dda dm dm1 r
        (dm1.pB + FloatArith.fastSqrtf (dm1.pA + dm1.pC * FloatArith.ofUInt32 (add32 n r))) ∧
      CalcNextStepTimeFull env dda dm
        = some (finishStep env dda (withRecalc dm1 (chosenShift env dm dm1))
            (chosenShift env dm dm1)
            (castU32 (dm1.pB
              + FloatArith.fastSqrtf (dm1.pA + dm1.pC * FloatArith.ofUInt32 (add32 n r)))))) ∧
    (dm1.state = DMState.cartDecelNoReverse →
      ComputesStepTime env dda dm dm1 r
        (dm1.pB - FloatArith.fastSqrtf (dm1.pA + dm1.pC * FloatArith.ofUInt32 (add32 n r))) ∧
      CalcNextStepTimeFull env dda dm
        = some (finishStep env dda (withRecalc dm1 (chosenShift env dm dm1))
            (chosenShift env dm dm1)
            (castU32 (dm1.pB
              - FloatArith.fastSqrtf (dm1.pA + dm1.pC * FloatArith.ofUInt32 (add32 n r)))))) ∧
    (dm1.state = DMState.cartDecelForwardsReversing → n ≤ dm1.reverseStartStep →
      ComputesStepTime env dda dm dm1 r
        (dm1.pB - FloatArith.fastSqrtf (dm1.pA + dm1.pC * FloatArith.ofUInt32 (add32 n r))) ∧
      CalcNextStepTimeFull env dda dm
        = some (finishStep env dda (withRecalc dm1 (chosenShift env dm dm1))
            (chosenShift env dm dm1)
            (castU32 (dm1.pB
              - FloatArith.fastSqrtf (dm1.pA + dm1.pC * FloatArith.ofUInt32 (add32 n r)))))) ∧
    (dm1.state = DMState.cartDecelForwardsReversing → ¬ n ≤ dm1.reverseStartStep →
      ComputesStepTime env dda dm dm1 r
        (dm1.pB + FloatArith.fastSqrtf (dm1.pA + dm1.pC * FloatArith.ofUInt32
          (add32 (sub32 (mul32 2 dm1.reverseStartStep) n) r))) ∧
      CalcNextStepTimeFull env dda dm
        = some (finishStep env dda
            { withRecalc dm1 (chosenShift env dm dm1) with
              direction := false, directionChanged := true, state := DMState.cartDecelReverse }
            (chosenShift env dm dm1)
            (castU32 (dm1.pB + FloatArith.fastSqrtf (dm1.pA + dm1.pC * FloatArith.ofUInt32
              (add32 (sub32 (mul32 2 dm1.reverseStartStep) n) r)))))) ∧
    (dm1.state = DMState.cartDecelReverse →
      ComputesStepTime env dda dm dm1 r
        (dm1.pB + FloatArith.fastSqrtf (dm1.pA + dm1.pC * FloatArith.ofUInt32
          (add32 (sub32 (mul32 2 dm1.reverseStartStep) n) r))) ∧
      CalcNextStepTimeFull env dda dm
        = some (finishStep env dda (withRecalc dm1 (chosenShift env dm dm1))
            (chosenShift env dm dm1)
            (castU32 (dm1.pB + FloatArith.fastSqrtf (dm1.pA + dm1.pC * FloatArith.ofUInt32
              (add32 (sub32 (mul32 2 dm1.reverseStartStep) n) r)))))) := by
  have hk := advanceSegment_kept hadv
  have hn1 : (withRecalc dm1 (chosenShift env dm dm1)).nextStep = n := hk.2.2.2.2.1.trans hn.symm
  have hw : (withRecalc dm1 (chosenShift env dm dm1)).stepsTillRecalc = r :=
    (withRecalc_recalc env dm dm1).trans hr.symm
  subst hr
  refine ⟨fun h => ?_, fun h => ?_, fun h => ?_, fun h hle => ?_, fun h hgt => ?_, fun h => ?_⟩
  · have hs : (withRecalc dm1 (chosenShift env dm dm1)).state = _ := h
    constructor
    · apply computesStepTime_intro hadv
      simp only [stepTime, hs, hn1, hw]
      rfl
    · apply full_of_stepTime hadv
      simp only [stepTime, hs, hn1, hw]
      rfl
  · have hs : (withRecalc dm1 (chosenShift env dm dm1)).state = _ := h
    constructor
    · apply computesStepTime_intro hadv
      simp only [stepTime, hs, hn1, hw]
      rfl
    · apply full_of_stepTime hadv
      simp only [stepTime, hs, hn1, hw]
      rfl
  · have hs : (withRecalc dm1 (chosenShift env dm dm1)).state = _ := h
    constructor
    · apply computesStepTime_intro hadv
      simp only [stepTime, hs, hn1, hw]
      rfl
    · apply full_of_stepTime hadv
      simp only [stepTime, hs, hn1, hw]
      rfl
  · have hs : (withRecalc dm1 (chosenShift env dm dm1)).state = _ := h
    have hle2 : n ≤ (withRecalc dm1 (chosenShift env dm dm1)).reverseStartStep := hle
    constructor
    · apply computesStepTime_intro hadv
      simp only [stepTime, hs, hn1, hw, if_pos hle2]
      rfl
    · apply full_of_stepTime hadv
      simp only [stepTime, hs, hn1, hw, if_pos hle2]
      rfl
  · have hs : (withRecalc dm1 (chosenShift env dm dm1)).state = _ := h
    have hgt2 : ¬ n ≤ (withRecalc dm1 (chosenShift env dm dm1)).reverseStartStep := hgt
    constructor
    · apply computesStepTime_intro hadv
      simp only [stepTime, hs, hn1, hw, if_neg hgt2]
      rfl
    · apply full_of_stepTime hadv
      simp only [stepTime, hs, hn1, hw, if_neg hgt2]
      rfl
  · have hs : (withRecalc dm1 (chosenShift env dm dm1)).state = _ := h
    constructor
    · apply computesStepTime_intro hadv
      simp only [stepTime, hs, hn1, hw]
      rfl
    · apply full_of_stepTime hadv
      simp only [stepTime, hs, hn1, hw]
      rfl

/-- C8 at two examples: step 1 of a linear phase with three further steps (`pB = 3`,
`pC = 2`), and an extruder one step past its turn at step 6 (`pB = 10`, `pC = 5`), whose
time is that of the reverse phase: `10 + sqrt(5 * (2*6 - 7)) = 15`. -/
theorem C8_cartesian_formulas_witness :
    (ComputesStepTime (demoEnv true) demoDDA tierState tierState 3
        (tierState.pB + FloatArith.ofUInt32 (add32 1 3) * tierState.pC) ∧
      CalcNextStepTimeFull (demoEnv true) demoDDA tierState
        = some (finishStep (demoEnv true) demoDDA
            (withRecalc tierState (chosenShift (demoEnv true) tierState tierState))
            (chosenShift (demoEnv true) tierState tierState)
            (castU32 (tierState.pB + FloatArith.ofUInt32 (add32 1 3) * tierState.pC)))) ∧
    (ComputesStepTime (demoEnv true) demoDDA turnState turnState 0
        (turnState.pB + FloatArith.fastSqrtf (turnState.pA + turnState.pC * FloatArith.ofUInt32
          (add32 (sub32 (mul32 2 turnState.reverseStartStep) 7) 0))) ∧
      CalcNextStepTimeFull (demoEnv true) demoDDA turnState
        = some (finishStep (demoEnv true) demoDDA
            { withRecalc turnState (chosenShift (demoEnv true) turnState turnState) with
              direction := false, directionChanged := true, state := DMState.cartDecelReverse }
            (chosenShift (demoEnv true) turnState turnState)
            (castU32 (turnState.pB + FloatArith.fastSqrtf (turnState.pA + turnState.pC
              * FloatArith.ofUInt32 (add32 (sub32 (mul32 2 turnState.reverseStartStep) 7) 0)))))) :=
  ⟨(C8_cartesian_formulas (demoEnv true) demoDDA tierState tierState 1 3
      (by decide) (by decide) (by decide)).1 (by decide),
    (C8_cartesian_formulas (demoEnv true) demoDDA turnState turnState 7 0
      (by decide) (by decide) (by decide)).2.2.2.2.1 (by decide) (by decide)⟩

/-- C9. On a pure Z move (`a2plusb2 <= 0`) `PrepareDeltaAxis` sets
`direction = (directionVector[Z] >= 0)` (line 293), `reverseStartDistance` to
`totalDistance + 1` when that is upward and to `-1` when it is downward,
`reverseStartStep = totalSteps + 1` (in 32 bits) and leaves `totalSteps` as it was. The
record `x` that the call hands to the step generator, or returns with false when the engine
finds no segment, has these values of `reverseStartDistance`, `reverseStartStep` and
`totalSteps`. Its direction is false on a downward move; on an upward move it is true when
no segment of the move starts at or beyond `totalDistance + 1`; when the engine takes the
first segment it is true exactly when `totalDistance + 1 <= 0` fails (lines 152-160); it is
never true on a downward move. -/
theorem C9_pure_z (env : Env F S) (next : DDA F S → DM F S → Option (Bool × DM F S))
    (dda : DDA F S) (params : PrepParams F) (dm : DM F S) (h : params.a2plusb2 ≤ 0) :
    ∃ x : DM F S,
      (PrepareDeltaAxis env next dda params dm = next dda x ∨
        PrepareDeltaAxis env next dda params dm = some (false, x)) ∧
      x.delta.reverseStartDistance
        = (if (0 : F) ≤ dda.directionVector 2 then dda.totalDistance + 1 else -(1 : F)) ∧
      x.reverseStartStep = add32 dm.totalSteps 1 ∧
      x.totalSteps = dm.totalSteps ∧
      (PrepareDeltaAxis.plan env dda params dm).direction
        = decide ((0 : F) ≤ dda.directionVector 2) ∧
      (x.direction = true → (0 : F) ≤ dda.directionVector 2) ∧
      (¬ (0 : F) ≤ dda.directionVector 2 → x.direction = false) ∧
      ((0 : F) ≤ dda.directionVector 2 →
        ¬ StartsBeyond env 0 (dda.totalDistance + 1) (moveSegments dda) → x.direction = true) ∧
      ((0 : F) ≤ dda.directionVector 2 → ∀ seg rest, moveSegments dda = seg :: rest →
        (NewDeltaSegment.visit env dda seg rest.isEmpty
          (PrepareDeltaAxis.plan env dda params dm)).phaseStepLimit > 0 →
        (x.direction = true ↔ ¬ dda.totalDistance + 1 ≤ 0)) := by
  obtain ⟨x, hx, x1, x2, x3, x4⟩ := prepareDelta_go env next dda params dm
  obtain ⟨d1, d2, d3⟩ := plan_direction env dda params dm
  obtain ⟨q1, q2, q3, q4, -⟩ := plan_pureZ env dda params dm h
  have hup : x.direction = true → (0 : F) ≤ dda.directionVector 2 := by
    intro hd
    rw [x4] at hd
    have := d1 hd
    rw [q1] at this
    exact of_decide_eq_true this
  refine ⟨x, hx, x1.trans q2, x2.trans q3, x3.trans q4, q1, hup, fun hz => ?_, fun hz hno => ?_,
    fun hz seg rest hs hacc => ?_⟩
  · cases hd : x.direction
    · rfl
    · exact absurd (hup hd) hz
  · rw [x4, d2 (by rw [q2, if_pos hz]; exact hno), q1]
    exact decide_eq_true hz
  · rw [x4, d3 seg rest hs hacc, q2, if_pos hz, q1]
    by_cases hc : dda.totalDistance + 1 ≤ 0
    · rw [if_pos hc]
      exact ⟨fun h => Bool.noConfusion h, fun h => absurd hc h⟩
    · rw [if_neg hc]
      exact ⟨fun _ => hc, fun _ => decide_eq_true hz⟩

set_option maxRecDepth 100000 in
/-- C9 at two examples in single precision, 5 mm down and 5 mm up along Z with 5 steps:
`reverseStartDistance` is `-1` and 6, `reverseStartStep = 6`, `totalSteps = 5`, and the
direction is down and up. -/
theorem C9_pure_z_witness :
    (∃ x : DM F32 Seg,
      (PrepareDeltaAxis f32Env (CalcNextStepTimeFull f32Env) dropDDA plumbParams downFive
          = CalcNextStepTimeFull f32Env dropDDA x ∨
        PrepareDeltaAxis f32Env (CalcNextStepTimeFull f32Env) dropDDA plumbParams downFive
          = some (false, x)) ∧
      x.delta.reverseStartDistance = F32.whole (-1) ∧ x.reverseStartStep = 6 ∧
      x.totalSteps = 5 ∧ x.direction = false) ∧
    (∃ x : DM F32 Seg,
      (PrepareDeltaAxis f32Env (CalcNextStepTimeFull f32Env) liftDDA plumbParams upFive
          = CalcNextStepTimeFull f32Env liftDDA x ∨
        PrepareDeltaAxis f32Env (CalcNextStepTimeFull f32Env) liftDDA plumbParams upFive
          = some (false, x)) ∧
      x.delta.reverseStartDistance = F32.whole 6 ∧ x.reverseStartStep = 6 ∧
      x.totalSteps = 5 ∧ x.direction = true) := by
  constructor
  · obtain ⟨x, hx, h1, h2, h3, -, -, h6, -⟩ :=
      C9_pure_z f32Env (CalcNextStepTimeFull f32Env) dropDDA plumbParams downFive (by decide)
    exact ⟨x, hx, h1.trans (by decide), h2.trans (by decide), h3, h6 (by decide)⟩
  · obtain ⟨x, hx, h1, h2, h3, -, -, -, -, h8⟩ :=
      C9_pure_z f32Env (CalcNextStepTimeFull f32Env) liftDDA plumbParams upFive (by decide)
    exact ⟨x, hx, h1.trans (by decide), h2.trans (by decide), h3,
      (h8 (by decide) _ _ rfl (by decide)).2 (by decide)⟩

/-- C10. `PrepareDeltaAxis` with the apex inside the move (`a2plusb2 <= 0` false and
`0 < drev < totalDistance`) and `n = numStepsUp = (int32_t)((hrev - h0MinusZ0)*stepsPerMm)`.
The record `x` that the call hands to the step generator, or returns with false when the
engine finds no segment, is as follows. If `n < 1` then `reverseStartDistance = -1`,
`direction = false`, `reverseStartStep = totalSteps + 1` and `totalSteps` is unchanged.
Otherwise `reverseStartStep = n + 1`, `reverseStartDistance = drev`, and `totalSteps` is
`2n - totalSteps` when the incoming direction was up and `2n + totalSteps` when it was down
(as `uint32_t`; exactly so when the value lies in range); `direction` is set to true (lines
322-332), and it is still true in `x` when no segment of the move starts at or beyond
`drev`; when the engine takes the first segment it is true in `x` exactly when
`drev <= 0` fails (lines 152-160). -/
theorem C10_apex_inside (env : Env F S) (next : DDA F S → DM F S → Option (Bool × DM F S))
    (dda : DDA F S) (params : PrepParams F) (dm : DM F S) (n : Int)
    (h1 : ¬ params.a2plusb2 ≤ 0) (h2 : 0 < drev dda params dm)
    (h3 : drev dda params dm < dda.totalDistance)
    (hn : n = castI32 ((hrev dda params dm
            - FloatArith.fastSqrtf (dSquaredMinusAsquaredMinusBsquared params dm))
          * env.DriveStepsPerUnit dm.drive)) :
    ∃ x : DM F S,
      (PrepareDeltaAxis env next dda params dm = next dda x ∨
        PrepareDeltaAxis env next dda params dm = some (false, x)) ∧
      (n < 1 →
        x.delta.reverseStartDistance = -(1 : F) ∧ x.direction = false ∧
        x.reverseStartStep = add32 dm.totalSteps 1 ∧ x.totalSteps = dm.totalSteps) ∧
      (1 ≤ n →
        (x.reverseStartStep : Int) = n + 1 ∧
        x.delta.reverseStartDistance = drev dda params dm ∧
        x.totalSteps
          = (if dm.direction then intToU32 (2 * n - (dm.totalSteps : Int))
             else intToU32 (2 * n + (dm.totalSteps : Int))) ∧
        (dm.direction = true → (dm.totalSteps : Int) ≤ 2 * n →
          (x.totalSteps : Int) = 2 * n - dm.totalSteps) ∧
        (dm.direction = false → 2 * n + (dm.totalSteps : Int) < 4294967296 →
          (x.totalSteps : Int) = 2 * n + dm.totalSteps) ∧
        (PrepareDeltaAxis.plan env dda params dm).direction = true ∧
        (¬ StartsBeyond env 0 (drev dda params dm) (moveSegments dda) → x.direction = true) ∧
        (∀ seg rest, moveSegments dda = seg :: rest →
          (NewDeltaSegment.visit env dda seg rest.isEmpty
            (PrepareDeltaAxis.plan env dda params dm)).phaseStepLimit > 0 →
          (x.direction = true ↔ ¬ drev dda params dm ≤ 0))) := by
  obtain ⟨x, hx, x1, x2, x3, x4⟩ := prepareDelta_go env next dda params dm
  obtain ⟨d1, d2, d3⟩ := plan_direction env dda params dm
  obtain ⟨q1, q2, -, -⟩ := plan_apex env dda params dm n h1 h2 h3 hn
  refine ⟨x, hx, fun hlt => ?_, fun hge => ?_⟩
  · obtain ⟨a1, a2, a3, a4⟩ := q1 hlt
    exact ⟨x1.trans a1, by rw [x4]; exact false_of_imp d1 a2, x2.trans a3, x3.trans a4⟩
  · obtain ⟨b1, b2, b3, b4, b5⟩ := q2 hge
    have hdist := plan_apex_distance env dda params dm h1 h2 h3 (by rw [← hn]; omega)
    refine ⟨by rw [x2]; exact b1, x1.trans hdist, x3.trans b3, fun hd hle => ?_,
      fun hd hlt => ?_, b2, fun hno => ?_, fun seg rest hs hacc => ?_⟩
    · rw [x3]; exact b4 hd hle
    · rw [x3]; exact b5 hd hlt
    · rw [x4, d2 (by rw [hdist]; exact hno), b2]
    · rw [x4, d3 seg rest hs hacc, hdist, b2]
      by_cases hc : drev dda params dm ≤ 0
      · rw [if_pos hc]
        exact ⟨fun h => Bool.noConfusion h, fun h => absurd hc h⟩
      · rw [if_neg hc]
        exact ⟨fun _ => hc, fun _ => rfl⟩

set_option maxRecDepth 100000 in
/-- C10 at an example in single precision: the 14 mm move along X past the tower, with
`numStepsUp = 2` and a net movement of 2 steps down: the turn is at step 3 of 6 and the
move starts upward. -/
theorem C10_apex_inside_witness :
    ∃ x : DM F32 Seg,
      (PrepareDeltaAxis f32Env (CalcNextStepTimeFull f32Env) passDDA towerParams downTwo
          = CalcNextStepTimeFull f32Env passDDA x ∨
        PrepareDeltaAxis f32Env (CalcNextStepTimeFull f32Env) passDDA towerParams downTwo
          = some (false, x)) ∧
      x.reverseStartStep = 3 ∧ x.delta.reverseStartDistance = F32.whole 6 ∧
      x.totalSteps = 6 ∧ x.direction = true := by
  obtain ⟨x, hx, -, h⟩ :=
    C10_apex_inside f32Env (CalcNextStepTimeFull f32Env) passDDA towerParams downTwo 2
      (by decide) (by decide) (by decide) (by decide)
  obtain ⟨a1, a2, a3, -, -, -, -, a8⟩ := h (by decide)
  refine ⟨x, hx, ?_, a2.trans (by decide), a3.trans (by decide),
    (a8 _ _ rfl (by decide)).2 (by decide)⟩
  have : ((x.reverseStartStep : Nat) : Int) = ((3 : Nat) : Int) := a1
  exact_mod_cast this

/-- C11 (amended). After `PrepareDeltaAxis`, in the record `x` that the call hands to the
step generator, or returns with false when the engine finds no segment, with
`n = numStepsUp`: if no reversal was found (pure Z, apex outside the move, or `n < 1`) then
`reverseStartStep = totalSteps + 1`. If a reversal was found (`n >= 1`) then
`reverseStartStep = n + 1 > 1`; it is below the rewritten `totalSteps` exactly when more
than one step is left after the turn (net movement up, old `totalSteps <= 2n`:
`totalSteps + 1 < n`; net movement down: `1 < n + totalSteps`), and for a net movement up
by exactly `n` steps the rewritten `totalSteps` is `n` again and
`reverseStartStep = totalSteps + 1` although a reversal was found. -/
theorem C11_sentinel (env : Env F S) (next : DDA F S → DM F S → Option (Bool × DM F S))
    (dda : DDA F S) (params : PrepParams F) (dm : DM F S) (n : Int)
    (hn : n = castI32 ((hrev dda params dm
            - FloatArith.fastSqrtf (dSquaredMinusAsquaredMinusBsquared params dm))
          * env.DriveStepsPerUnit dm.drive)) :
    ∃ x : DM F S,
      (PrepareDeltaAxis env next dda params dm = next dda x ∨
        PrepareDeltaAxis env next dda params dm = some (false, x)) ∧
      ((params.a2plusb2 ≤ 0 ∨ ¬ (0 < drev dda params dm ∧ drev dda params dm < dda.totalDistance)
          ∨ n < 1) →
        x.reverseStartStep = add32 x.totalSteps 1) ∧
      (¬ params.a2plusb2 ≤ 0 → 0 < drev dda params dm → drev dda params dm < dda.totalDistance →
        1 ≤ n →
        (x.reverseStartStep : Int) = n + 1 ∧
        1 < x.reverseStartStep ∧
        (dm.direction = true → (dm.totalSteps : Int) ≤ 2 * n →
          (x.reverseStartStep < x.totalSteps ↔ (dm.totalSteps : Int) + 1 < n) ∧
          (x.reverseStartStep = x.totalSteps + 1 ↔ (dm.totalSteps : Int) = n)) ∧
        (dm.direction = false → 2 * n + (dm.totalSteps : Int) < 4294967296 →
          (x.reverseStartStep < x.totalSteps ↔ 1 < n + (dm.totalSteps : Int)))) := by
  obtain ⟨x, hx, -, x2, x3, -⟩ := prepareDelta_go env next dda params dm
  obtain ⟨q1, q2⟩ := plan_sentinel env dda params dm n hn
  rw [← x2, ← x3] at q1 q2
  exact ⟨x, hx, q1, q2⟩

set_option maxRecDepth 100000 in
/-- C11 at an example in single precision: the 14 mm move along X past the tower, with
`numStepsUp = 2` and a net movement of 2 steps down; the turn is at step 3 of 6. -/
theorem C11_sentinel_witness :
    ∃ x : DM F32 Seg,
      (PrepareDeltaAxis f32Env (CalcNextStepTimeFull f32Env) passDDA towerParams downTwo
          = CalcNextStepTimeFull f32Env passDDA x ∨
        PrepareDeltaAxis f32Env (CalcNextStepTimeFull f32Env) passDDA towerParams downTwo
          = some (false, x)) ∧
      ((x.reverseStartStep : Nat) : Int) = 2 + 1 ∧ 1 < x.reverseStartStep ∧
      x.reverseStartStep < x.totalSteps := by
  obtain ⟨x, hx, -, h⟩ :=
    C11_sentinel f32Env (CalcNextStepTimeFull f32Env) passDDA towerParams downTwo 2 (by decide)
  obtain ⟨a1, a2, -, a4⟩ := h (by decide) (by decide) (by decide) (by decide)
  exact ⟨x, hx, a1, a2, (a4 (by decide) (by decide)).2 (by decide)⟩

set_option maxRecDepth 100000 in
/-- C11 fails as stated, in single precision. The 7 mm move along X passes the highest
point of the carriage at distance 6 and `numStepsUp = 2`, so a reversal is found. With a net
movement of 2 steps up (from height 8 to about 9.95), `totalSteps` stays 2 and
`reverseStartStep = 3 = totalSteps + 1`, the value that stands for no reversal. With a net
movement of 1 step up, `totalSteps` becomes 3 and `reverseStartStep = 3` is not below it. -/
theorem C11_counterexample :
    ¬ towerParams.a2plusb2 ≤ 0 ∧ 0 < drev arcDDA towerParams upTwo ∧
    drev arcDDA towerParams upTwo < arcDDA.totalDistance ∧
    numStepsUp f32Env arcDDA towerParams
      (PrepareDeltaAxis.constants f32Env arcDDA towerParams upTwo) = 2 ∧
    (PrepareDeltaAxis f32Env (CalcNextStepTimeFull f32Env) arcDDA towerParams upTwo).map
      (fun r => (r.2.reverseStartStep, r.2.totalSteps)) = some (3, 2) ∧
    numStepsUp f32Env arcDDA towerParams
      (PrepareDeltaAxis.constants f32Env arcDDA towerParams upOne) = 2 ∧
    (PrepareDeltaAxis f32Env (CalcNextStepTimeFull f32Env) arcDDA towerParams upOne).map
      (fun r => (r.2.reverseStartStep, r.2.totalSteps)) = some (3, 3) := by
  decide

/-- C12 (amended). `PrepareExtruder` on a sub-step move. Let `forwardDistance` and
`reverseDistance` be the two distances it works out (the forward one starting from what is
pending, `pending / dirVector[drive]`). If `reverseDistance > 0`, the net distance
`forwardDistance - reverseDistance` gives 0 net steps and the forward distance gives at most
one step; or if `reverseDistance > 0` fails and the forward distance gives less than one step
either way: then `PrepareExtruder` returns false, `totalSteps` is left as it was (0 when it
was 0), and the pending extrusion becomes
`(forwardDistance - reverseDistance) * dirVector[drive]` (with no reverse distance:
`forwardDistance * dirVector[drive]`). In an arithmetic where the multiplication
distributes over the sum, the sum and difference associate, and dividing the pending
extrusion by `dirVector[drive]` is undone by multiplying, that is the old pending extrusion
plus the net distance of the move itself times `dirVector[drive]`. -/
theorem C12_substep_move (env : Env F S) (next : DDA F S → DM F S → Option (Bool × DM F S))
    (dda : DDA F S) (params : PrepParams F) (shaper : ExtruderShaper F) (dm dm1 : DM F S)
    (d : Distances F)
    (hd : PrepareExtruder.distances env dda params shaper (PrepareExtruder.start env dda shaper dm)
      = some (dm1, d))
    (hsub :
      (0 < d.reverseDistance ∧
        castI32 ((d.forwardDistance - d.reverseDistance)
          * (env.DriveStepsPerUnit dm.drive * FloatArith.fabsf (dda.directionVector dm.drive))) = 0 ∧
        d.forwardDistance
          * (env.DriveStepsPerUnit dm.drive * FloatArith.fabsf (dda.directionVector dm.drive))
            ≤ FloatArith.ofInt32 1) ∨
      (¬ 0 < d.reverseDistance ∧
        ¬ 1 ≤ d.forwardDistance
          * (env.DriveStepsPerUnit dm.drive * FloatArith.fabsf (dda.directionVector dm.drive)) ∧
        ¬ d.forwardDistance
          * (env.DriveStepsPerUnit dm.drive * FloatArith.fabsf (dda.directionVector dm.drive))
            ≤ -(1 : F))) :
    ∃ dm' sh', PrepareExtruder env next dda params shaper dm = some (false, dm', sh') ∧
      dm'.totalSteps = dm.totalSteps ∧ sh'.k = shaper.k ∧
      (0 < d.reverseDistance →
        sh'.extrusionPending
          = (d.forwardDistance - d.reverseDistance) * dda.directionVector dm.drive) ∧
      (¬ 0 < d.reverseDistance →
        sh'.extrusionPending = d.forwardDistance * dda.directionVector dm.drive) ∧
      (¬ (dda.usePressureAdvance = true ∧ 0 < shaper.k) →
        d.forwardDistance
          = shaper.extrusionPending / dda.directionVector dm.drive + dda.totalDistance ∧
        d.reverseDistance = 0) ∧
      (∀ own : F,
        d.forwardDistance = shaper.extrusionPending / dda.directionVector dm.drive + own →
        (∀ a b c : F, (a + b) * c = a * c + b * c) →
        (∀ a b c : F, a + b - c = a + (b - c)) →
        shaper.extrusionPending / dda.directionVector dm.drive * dda.directionVector dm.drive
          = shaper.extrusionPending →
        (0 < d.reverseDistance →
          sh'.extrusionPending
            = shaper.extrusionPending + (own - d.reverseDistance) * dda.directionVector dm.drive) ∧
        (¬ 0 < d.reverseDistance →
          sh'.extrusionPending
            = shaper.extrusionPending + own * dda.directionVector dm.drive)) := by
  obtain ⟨s1, s2, s3, s4⟩ := extruderStart_fields env dda shaper dm
  obtain ⟨k1, k2, k3, -⟩ := distances_kept hd
  have hsteps : dm1.cart.effectiveStepsPerMm
      = env.DriveStepsPerUnit dm.drive * FloatArith.fabsf (dda.directionVector dm.drive) :=
    k3.trans s4
  have hdrive : dm1.drive = dm.drive := k2.trans s2
  have htotal : dm1.totalSteps = dm.totalSteps := k1.trans s1
  have hplain : ¬ (dda.usePressureAdvance = true ∧ 0 < shaper.k) →
      d.forwardDistance
          = shaper.extrusionPending / dda.directionVector dm.drive + dda.totalDistance ∧
        d.reverseDistance = 0 := by
    intro hc
    rw [distances_plain env dda params shaper _ hc] at hd
    simp only [Option.some.injEq, Prod.mk.injEq] at hd
    obtain ⟨-, rfl⟩ := hd
    exact ⟨rfl, rfl⟩
  rcases hsub with ⟨hrev, hnet, hfwd⟩ | ⟨hrev, h1, h2⟩
  · have hs := steps_skip_reverse dda shaper dm1 d hrev (by rw [hsteps]; exact hnet)
      (by rw [hsteps]; exact hfwd)
    rw [hdrive] at hs
    refine ⟨dm1, _, prepareExtruder_skip next hd hs, htotal, rfl, fun _ => rfl,
      fun hn => absurd hrev hn, hplain, fun own hown hdist hassoc hdiv => ?_⟩
    refine ⟨fun _ => ?_, fun hn => absurd hrev hn⟩
    show (d.forwardDistance - d.reverseDistance) * dda.directionVector dm.drive = _
    rw [hown, hassoc, hdist, hdiv]
  · have hs := steps_skip_forward dda shaper dm1 d hrev (by rw [hsteps]; exact h1)
      (by rw [hsteps]; exact h2)
    rw [hdrive] at hs
    refine ⟨dm1, _, prepareExtruder_skip next hd hs, htotal, rfl, fun hp => absurd hp hrev,
      fun _ => rfl, hplain, fun own hown hdist hassoc hdiv => ?_⟩
    refine ⟨fun hp => absurd hp hrev, fun _ => ?_⟩
    show d.forwardDistance * dda.directionVector dm.drive = _
    rw [hown, hdist, hdiv]

/-- C12 at an example: forward distance 1, reverse distance 7/8, so 0 net steps and one
step forward: nothing is done and 1/8 stays pending. -/
theorem C12_substep_move_witness :
    ∃ dm' sh', PrepareExtruder fracEnv (CalcNextStepTimeFull fracEnv) retractDDA tinyParams
        advShaper fracDM = some (false, dm', sh') ∧
      dm'.totalSteps = 0 ∧ sh'.extrusionPending = (⟨1, 8⟩ : Frac) := by
  obtain ⟨dm', sh', h1, h2, -, h4, -⟩ :=
    C12_substep_move fracEnv (CalcNextStepTimeFull fracEnv) retractDDA tinyParams advShaper fracDM
      { fracDM with cart := ⟨⟨1, 1⟩, ⟨1, 1⟩, ⟨1, 1⟩, ⟨0, 1⟩⟩ } ⟨⟨1, 1⟩, ⟨7, 8⟩⟩
      (by decide) (Or.inl (by decide))
  exact ⟨dm', sh', h1, h2, (h4 (by decide)).trans (by decide)⟩

/-- C12 fails as stated: with forward distance 5 and reverse distance 5 the net extrusion
is 0 steps, yet the forward steps exceed 1, so the move is planned (`reverseStartStep = 6`,
`totalSteps = 7`) and handed to the step generator, whose result is returned. -/
theorem C12_counterexample :
    (PrepareExtruder.distances fracEnv retractDDA retractParams advShaper
        (PrepareExtruder.start fracEnv retractDDA advShaper fracDM)).map (fun r => r.2)
      = some ⟨⟨5, 1⟩, ⟨5, 1⟩⟩ ∧
    castI32 (((⟨5, 1⟩ : Frac) - ⟨5, 1⟩)
      * (fracEnv.DriveStepsPerUnit 0 * FloatArith.fabsf (retractDDA.directionVector 0))) = 0 ∧
    (PrepareExtruder fracEnv (CalcNextStepTimeFull fracEnv) retractDDA retractParams advShaper
        fracDM).map (fun r => (r.1, r.2.1.totalSteps, r.2.1.reverseStartStep))
      = some (true, 7, 6) := by
  decide

/-- C13 (amended). `PrepareExtruder` with pressure advance (`usePressureAdvance`, `K > 0`)
and a deceleration segment `seg`: `extraExtrusionDistance = K*acceleration*accelClocks` is
stored and added to the forward distance, which starts from `pending / dirVector[drive]`.
With `v = topSpeed - K*deceleration`: if `v <= 0` the whole deceleration is in reverse; if
not, and `timeToReverse = v * (-0.5 * c)` (`c` the `GetC()` of `seg`) is less than
`decelClocks`, a reversal is planned with
`reverseDistance = 0.5*deceleration*(decelClocks - timeToReverse)^2`; only when
`timeToReverse < decelClocks` fails as well is no reversal planned: `reverseDistance` is 0
and, when the move has steps, `reverseStartStep = totalSteps + 1` in the plan, in the record
handed to the step generator and in the record returned when the engine finds no segment. -/
theorem C13_pressure_advance (env : Env F S) (next : DDA F S → DM F S → Option (Bool × DM F S))
    (dda : DDA F S) (params : PrepParams F) (shaper : ExtruderShaper F) (dm : DM F S)
    (seg : S) (more : List S)
    (hpa : dda.usePressureAdvance = true) (hk : 0 < shaper.k)
    (hne : dda.unshapedSegments ≠ [])
    (hdec : env.GetFirstDecelSegment dda.unshapedSegments = seg :: more)
    (h00 : ¬ (0 : F) < 0) :
    ∃ dm1 d,
      PrepareExtruder.distances env dda params shaper (PrepareExtruder.start env dda shaper dm)
        = some (dm1, d) ∧
      dm1.cart.pressureAdvanceK = shaper.k ∧
      dm1.cart.extraExtrusionDistance = shaper.k * dda.acceleration * params.accelClocks ∧
      (initialDecelSpeed dda shaper.k ≤ 0 →
        d.forwardDistance
          = (shaper.extrusionPending / dda.directionVector dm.drive
              + shaper.k * dda.acceleration * params.accelClocks) + params.decelStartDistance ∧
        d.reverseDistance
          = ((half * dda.deceleration * params.decelClocks) - initialDecelSpeed dda shaper.k)
              * params.decelClocks) ∧
      (¬ initialDecelSpeed dda shaper.k ≤ 0 →
        timeToReverse env dda shaper.k seg < params.decelClocks →
        d.forwardDistance
          = (shaper.extrusionPending / dda.directionVector dm.drive
              + shaper.k * dda.acceleration * params.accelClocks)
            + (params.decelStartDistance
                + half * dda.deceleration * fsquare (timeToReverse env dda shaper.k seg)) ∧
        d.reverseDistance
          = half * dda.deceleration
              * fsquare (params.decelClocks - timeToReverse env dda shaper.k seg)) ∧
      (¬ initialDecelSpeed dda shaper.k ≤ 0 →
        ¬ timeToReverse env dda shaper.k seg < params.decelClocks →
        d.forwardDistance
          = (shaper.extrusionPending / dda.directionVector dm.drive
              + shaper.k * dda.acceleration * params.accelClocks)
            + (dda.totalDistance - shaper.k * dda.deceleration * params.decelClocks) ∧
        d.reverseDistance = 0 ∧
        ((PrepareExtruder.steps dda shaper dm1 d).1 = true →
          (PrepareExtruder.steps dda shaper dm1 d).2.1.reverseStartStep
            = add32 (PrepareExtruder.steps dda shaper dm1 d).2.1.totalSteps 1 ∧
          ∃ x : DM F S, x.reverseStartStep = add32 x.totalSteps 1 ∧
            (PrepareExtruder env next dda params shaper dm
                = (next dda x).map
                    (fun c => (c.1, c.2, (PrepareExtruder.steps dda shaper dm1 d).2.2)) ∨
             PrepareExtruder env next dda params shaper dm
                = some (false, x, (PrepareExtruder.steps dda shaper dm1 d).2.2)))) := by
  obtain ⟨-, -, s3, -⟩ := extruderStart_fields env dda shaper dm
  have hd := distances_advance env dda params shaper (PrepareExtruder.start env dda shaper dm)
    hpa hk hne
  rw [hdec, s3] at hd
  obtain ⟨a1, a2, a3⟩ := advanced_cases env dda params shaper.k
    (shaper.extrusionPending / dda.directionVector dm.drive
      + shaper.k * dda.acceleration * params.accelClocks) seg more
  refine ⟨_, _, hd, rfl, rfl, fun h => ?_, fun h h2 => ?_, fun h h2 => ?_⟩
  · rw [a1 h]
    exact ⟨rfl, rfl⟩
  · rw [a2 h h2]
    exact ⟨rfl, rfl⟩
  · rw [a3 h h2] at hd ⊢
    refine ⟨rfl, rfl, fun ht => ?_⟩
    have hsent := steps_no_reverse dda shaper _ _ (show ¬ (0 : F) < (Distances.mk _ (0 : F)).reverseDistance from h00) ht
    refine ⟨hsent, ?_⟩
    obtain ⟨x, x1, x2, hx⟩ := prepareExtruder_go next hd ht
    exact ⟨x, by rw [x1, x2]; exact hsent, hx⟩

/-- C13 at an example: `topSpeed - K*deceleration = 1`, the speed would reach zero after
half a clock, and the deceleration lasts a quarter clock: no reverse distance. -/
theorem C13_pressure_advance_witness :
    ∃ dm1 d,
      PrepareExtruder.distances fracEnv slowDDA calmParams advShaper
          (PrepareExtruder.start fracEnv slowDDA advShaper fracDM) = some (dm1, d) ∧
      d.forwardDistance = (⟨9, 2⟩ : Frac) ∧ d.reverseDistance = 0 := by
  obtain ⟨dm1, d, h1, -, -, -, -, h5⟩ :=
    C13_pressure_advance fracEnv (CalcNextStepTimeFull fracEnv) slowDDA calmParams advShaper fracDM
      decelSeg [] rfl (by decide) (by decide) (by decide) (by decide)
  obtain ⟨a, b, -⟩ := h5 (by decide) (by decide)
  exact ⟨dm1, d, h1, a.trans (by decide), b⟩

/-- C13 fails as stated: with `topSpeed - K*deceleration = 1 > 0` the speed reaches zero
after half a clock of a deceleration of 2 clocks, so a reversal is planned: the reverse
distance is 9/4, `reverseStartStep = 6` and `totalSteps = 6`. -/
theorem C13_counterexample :
    slowDDA.usePressureAdvance = true ∧ 0 < advShaper.k ∧
    fracEnv.GetFirstDecelSegment slowDDA.unshapedSegments = [decelSeg] ∧
    0 < initialDecelSpeed slowDDA advShaper.k ∧
    (PrepareExtruder.distances fracEnv slowDDA slowParams advShaper
        (PrepareExtruder.start fracEnv slowDDA advShaper fracDM)).map (fun r => r.2)
      = some ⟨⟨21, 4⟩, ⟨9, 4⟩⟩ ∧
    (PrepareExtruder fracEnv (CalcNextStepTimeFull fracEnv) slowDDA slowParams advShaper
        fracDM).map (fun r => (r.1, r.2.1.totalSteps, r.2.1.reverseStartStep))
      = some (true, 6, 6) := by
  decide

/-- C14. `Allocate(p_drive, st)`: with a non-empty free list it returns the head record,
the free list becomes the former tail and `numCreated` is unchanged; with an empty free
list it returns a fresh record, the free list stays empty and `numCreated` goes up by 1 (an
`unsigned int`: exactly so while the sum fits). In both cases the record returned has
`drive = (uint8_t)p_drive`, which is `p_drive` for every drive number below 256, `state = st`
and a null `nextDM`; nothing else of the record is written. -/
theorem C14_allocate (fresh : DM F S) (pool : Pool F S) (p_drive : Nat) (st : DMState) :
    (∀ dm rest, pool.freeList = dm :: rest →
      (Allocate fresh pool p_drive st).1 = { dm with drive := p_drive % 256, state := st } ∧
      (Allocate fresh pool p_drive st).2.2.freeList = rest ∧
      (Allocate fresh pool p_drive st).2.2.numCreated = pool.numCreated) ∧
    (pool.freeList = [] →
      (Allocate fresh pool p_drive st).1 = { fresh with drive := p_drive % 256, state := st } ∧
      (Allocate fresh pool p_drive st).2.2.freeList = [] ∧
      (Allocate fresh pool p_drive st).2.2.numCreated = add32 pool.numCreated 1 ∧
      (pool.numCreated + 1 < u32 →
        (Allocate fresh pool p_drive st).2.2.numCreated = pool.numCreated + 1)) ∧
    (Allocate fresh pool p_drive st).1.drive = p_drive % 256 ∧
    (p_drive < 256 → (Allocate fresh pool p_drive st).1.drive = p_drive) ∧
    (Allocate fresh pool p_drive st).1.state = st ∧
    (Allocate fresh pool p_drive st).2.1 = [] := by
  have hfit : p_drive < 256 → p_drive % 256 = p_drive := fun h => Nat.mod_eq_of_lt h
  cases hf : pool.freeList with
  | nil =>
    have hA : Allocate fresh pool p_drive st
        = ({ fresh with drive := p_drive % 256, state := st }, [],
            { pool with numCreated := add32 pool.numCreated 1 }) := by
      unfold Allocate
      rw [hf]
    rw [hA]
    refine ⟨fun dm rest h => List.noConfusion h, fun _ => ⟨rfl, hf, rfl, fun hlt => ?_⟩, rfl, hfit, rfl, rfl⟩
    show add32 pool.numCreated 1 = pool.numCreated + 1
    unfold add32
    unfold u32 at hlt ⊢
    omega
  | cons d tl =>
    have hA : Allocate fresh pool p_drive st
        = ({ d with drive := p_drive % 256, state := st }, [], { pool with freeList := tl }) := by
      unfold Allocate
      rw [hf]
    rw [hA]
    refine ⟨fun dm rest h => ?_, fun h => List.noConfusion h, rfl, hfit, rfl, rfl⟩
    obtain ⟨rfl, rfl⟩ := List.cons.inj h
    exact ⟨rfl, rfl, rfl⟩

/-- C14 at an example: a free list of one record and 5 records made so far. -/
theorem C14_allocate_witness :
    (Allocate demoDM ⟨[tierState], 5⟩ 3 DMState.idle).1
      = { tierState with drive := 3 % 256, state := DMState.idle } ∧
    (Allocate demoDM ⟨[tierState], 5⟩ 3 DMState.idle).2.2.freeList = [] ∧
    (Allocate demoDM ⟨[tierState], 5⟩ 3 DMState.idle).2.2.numCreated = 5 :=
  (C14_allocate demoDM ⟨[tierState], 5⟩ 3 DMState.idle).1 tierState [] rfl

/-- C15 (amended). For a record in `stepError` (its counters 32-bit values): if
`nextStep != phaseStepLimit`, `CalcNextStepTimeFull` returns false and leaves
`state = stepError`. If `nextStep == phaseStepLimit` the segment advance runs first; the
call still returns false in `stepError` unless the segment engine, run from the successor
of `currentSegment`, finds a segment, in which case the engine has replaced the state and
the call goes on to compute a step. -/
theorem C15_stepError (env : Env F S) (dda : DDA F S) (dm : DM F S)
    (hst : dm.state = DMState.stepError) (hr : dm.InRange) :
    (dm.nextStep ≠ dm.phaseStepLimit →
      ∃ dm', CalcNextStepTimeFull env dda dm = some (false, dm') ∧
        dm'.state = DMState.stepError) ∧
    (∀ r, CalcNextStepTimeFull env dda dm = some r →
      (r.1 = false ∧ r.2.state = DMState.stepError) ∨
      (dm.nextStep = dm.phaseStepLimit ∧ ∃ seg rest, dm.currentSegment = seg :: rest ∧
        (newSegment env dda { dm with currentSegment := rest }).1 = true)) := by
  have hz : sub32 dm.phaseStepLimit dm.nextStep = 0 ↔ dm.phaseStepLimit = dm.nextStep :=
    sub32_eq_zero_iff hr.2.2.2.1 hr.2.1
  have hw : ∀ k, (withRecalc dm k).state = DMState.stepError := fun _ => hst
  constructor
  · intro hne
    have h0 : sub32 dm.phaseStepLimit dm.nextStep ≠ 0 := fun h0 => hne (hz.1 h0).symm
    have hadv : advanceSegment env dda dm = some (true, dm) := by
      simp only [advanceSegment, h0, if_false]
    refine ⟨withRecalc dm (chosenShift env dm dm), ?_, hw _⟩
    simp only [CalcNextStepTimeFull, hadv, stepTime_stepError (hw _)]
  · intro r h
    rcases CalcNextStepTimeFull_cases h with ⟨_, _, _, _, _, hr1, -⟩ | ⟨d1, h1, h2⟩
    · left
      rw [hr1]
      exact ⟨rfl, rfl⟩
    · rcases advanceSegment_true h1 with ⟨-, rfl⟩ | ⟨h0, seg, rest, hs, hm, -⟩
      · left
        rw [stepTime_stepError (hw _)] at h2
        rcases h2 with ⟨dm3, h3, rfl⟩ | ⟨t, dm3, h3, -⟩
        · simp only [Option.some.injEq, StepCalc.fail.injEq] at h3
          rw [← h3]
          exact ⟨rfl, hw _⟩
        · simp at h3
      · right
        exact ⟨(hz.1 h0).symm, seg, rest, hs, hm⟩

/-- C15 at an example: `stepError` at step 1 of a phase that ends at step 9. -/
theorem C15_stepError_witness :
    ∃ dm', CalcNextStepTimeFull (demoEnv true) demoDDA stuckState = some (false, dm') ∧
      dm'.state = DMState.stepError :=
  (C15_stepError (demoEnv true) demoDDA stuckState rfl (by decide)).1 (by decide)

/-- C15 fails as stated: a record in `stepError` with `nextStep = phaseStepLimit = 5` and a
further segment in the list is taken into that segment; the call returns true and leaves
`state = cartLinear`. -/
theorem C15_counterexample :
    errorState.state = DMState.stepError ∧
    (CalcNextStepTimeFull (demoEnv true) demoDDA errorState).map (fun r => (r.1, r.2.state))
      = some (true, DMState.cartLinear) := by
  decide

/-- C16 (amended). Each of the three segment engines, when it returns true, leaves
`currentSegment` non-null and a state that is neither `idle` nor `stepError`; when it
returns false it leaves `currentSegment` null (the state being that of the last segment it
examined, if any). `CalcNextStepTimeFull`, called on a record with the invariant (outside
`idle` and `stepError`, `currentSegment` is non-null), leaves the invariant in force
whether it returns true or false. `PrepareCartesianAxis` returns false with `currentSegment`
null when its engine finds no segment, and otherwise hands a record with a non-null
`currentSegment` to the step generator, whose result it returns. -/
theorem C16_segment_invariant (env : Env F S) (dda : DDA F S) (dm : DM F S) :
    (((NewCartesianSegment env dm).1 = true →
        (NewCartesianSegment env dm).2.currentSegment ≠ [] ∧
        (NewCartesianSegment env dm).2.state.isMotion = true) ∧
      ((NewCartesianSegment env dm).1 = false → (NewCartesianSegment env dm).2.currentSegment = [])) ∧
    (((NewDeltaSegment env dda dm).1 = true →
        (NewDeltaSegment env dda dm).2.currentSegment ≠ [] ∧
        (NewDeltaSegment env dda dm).2.state.isMotion = true) ∧
      ((NewDeltaSegment env dda dm).1 = false → (NewDeltaSegment env dda dm).2.currentSegment = [])) ∧
    (((NewExtruderSegment env dm).1 = true →
        (NewExtruderSegment env dm).2.currentSegment ≠ [] ∧
        (NewExtruderSegment env dm).2.state.isMotion = true) ∧
      ((NewExtruderSegment env dm).1 = false → (NewExtruderSegment env dm).2.currentSegment = [])) ∧
    (HasSegment dm → ∀ r, CalcNextStepTimeFull env dda dm = some r → HasSegment r.2) ∧
    (∀ next : DDA F S → DM F S → Option (Bool × DM F S),
      ((NewCartesianSegment env (PrepareCartesianAxis.plan env dda dm)).1 = false →
        ∃ d, PrepareCartesianAxis env next dda dm = some (false, d) ∧ d.currentSegment = []) ∧
      ((NewCartesianSegment env (PrepareCartesianAxis.plan env dda dm)).1 = true →
        ∃ d, PrepareCartesianAxis env next dda dm = next dda d ∧ d.currentSegment ≠ [] ∧
          d.state.isMotion = true)) := by
  obtain ⟨c1, c2, -⟩ := cartesianLoop_engaged env dm.currentSegment dm
  obtain ⟨d1, d2, -⟩ := deltaLoop_engaged env dda dm.currentSegment dm
  obtain ⟨e1, e2, -⟩ := extruderLoop_engaged env dm.currentSegment dm
  refine ⟨⟨c1, c2⟩, ⟨d1, d2⟩, ⟨e1, e2⟩, ?_, ?_⟩
  · intro hinv r h
    rcases CalcNextStepTimeFull_cases h with ⟨_, _, _, _, _, hr1, -⟩ | ⟨a1, h1, h2⟩
    · rw [hr1]
      intro _ hne
      exact absurd rfl hne
    · have ha : a1.state.isMotion = true → a1.currentSegment ≠ [] := by
        rcases advanceSegment_true h1 with ⟨-, rfl⟩ | ⟨-, seg, rest, -, hm, rfl⟩
        · intro hmot
          obtain ⟨m1, m2⟩ := (isMotion_iff _).1 hmot
          exact hinv m1 m2
        · intro _
          exact ((newSegment_engaged env dda _).1 hm).1
      rcases h2 with ⟨dm3, h3, rfl⟩ | ⟨t, dm3, h3, rfl⟩
      · rcases stepTime_fail h3 with ⟨rfl, -⟩ | ⟨-, -, hs, -⟩
        · intro m1 m2
          exact ha ((isMotion_iff _).2 ⟨m1, m2⟩)
        · intro _ hne
          exact absurd hs hne
      · intro _ _
        rw [finishStep_segment, (stepTime_carried h3).2.2.2.2.2.2.2]
        have hm : (withRecalc a1 (chosenShift env dm a1)).state.isMotion = true :=
          stepTime_time_motion h3
        exact ha hm
  · intro next
    obtain ⟨p1, p2, -⟩ := cartesianLoop_engaged env
      (PrepareCartesianAxis.plan env dda dm).currentSegment (PrepareCartesianAxis.plan env dda dm)
    constructor
    · intro hf
      refine ⟨_, ?_, p2 hf⟩
      simp only [PrepareCartesianAxis, hf]
      rfl
    · intro ht
      refine ⟨PrepareCartesianAxis.firstStep
        (NewCartesianSegment env (PrepareCartesianAxis.plan env dda dm)).2, ?_, (p1 ht).1, (p1 ht).2⟩
      simp only [PrepareCartesianAxis, ht, if_true]

/-- C16 at an example: the engine skips a segment of length 4 and stops in the next one. -/
theorem C16_segment_invariant_witness :
    (NewCartesianSegment (demoEnv true) walkState).2.currentSegment ≠ [] ∧
    (NewCartesianSegment (demoEnv true) walkState).2.state.isMotion = true :=
  (C16_segment_invariant (demoEnv true) demoDDA walkState).1.1 (by decide)

/-- C16 fails as stated: `NewCartesianSegment`, at step 5 with one linear segment that
ends before step 5, returns false with `state = cartLinear` and `currentSegment` null. -/
theorem C16_counterexample :
    (NewCartesianSegment (demoEnv true) skippedState).1 = false ∧
    (NewCartesianSegment (demoEnv true) skippedState).2.state = DMState.cartLinear ∧
    (NewCartesianSegment (demoEnv true) skippedState).2.currentSegment = [] := by
  decide

/-- C17. `NewCartesianSegment` on the list from `currentSegment`, with `D_i` the entry
`distanceSoFar` plus the lengths of the segments up to and including segment `i` and
`L_i = (uint32_t)(D_i * effectiveStepsPerMm) + 1`: if `i` is the first segment with
`L_i > nextStep`, it returns true with `currentSegment` at segment `i`,
`phaseStepLimit = L_i > nextStep`, `distanceSoFar = D_i` and `timeSoFar` the entry value
plus the durations of the same segments. It returns false exactly when no segment of the
list has `L_i > nextStep`, and then `currentSegment` is null. -/
theorem C17_cartesian_walk (env : Env F S) (dm : DM F S) :
    (∀ i, i < dm.currentSegment.length →
      (∀ k, k < i → limitAfter env dm (dm.currentSegment.take (k + 1)) ≤ dm.nextStep) →
      dm.nextStep < limitAfter env dm (dm.currentSegment.take (i + 1)) →
      (NewCartesianSegment env dm).1 = true ∧
      (NewCartesianSegment env dm).2.currentSegment = dm.currentSegment.drop i ∧
      (NewCartesianSegment env dm).2.phaseStepLimit
        = limitAfter env dm (dm.currentSegment.take (i + 1)) ∧
      (NewCartesianSegment env dm).2.nextStep < (NewCartesianSegment env dm).2.phaseStepLimit ∧
      (NewCartesianSegment env dm).2.distanceSoFar
        = distanceAfter env dm.distanceSoFar (dm.currentSegment.take (i + 1)) ∧
      (NewCartesianSegment env dm).2.timeSoFar
        = timeAfter env dm.timeSoFar (dm.currentSegment.take (i + 1))) ∧
    ((NewCartesianSegment env dm).1 = false ↔
      ∀ k, k < dm.currentSegment.length →
        limitAfter env dm (dm.currentSegment.take (k + 1)) ≤ dm.nextStep) ∧
    ((NewCartesianSegment env dm).1 = false → (NewCartesianSegment env dm).2.currentSegment = []) := by
  obtain ⟨hA, hB, hC⟩ := cartesianLoop_walk env dm.currentSegment dm
  have hk : (NewCartesianSegment env dm).2.nextStep = dm.nextStep :=
    (cartesianLoop_kept env dm.currentSegment dm).2.2.2.2.1
  refine ⟨fun i hi hb ha => ?_, hB, hC⟩
  obtain ⟨r1, r2, r3, r4, r5⟩ := hA i hi hb ha
  refine ⟨r1, r2, r3, ?_, r4, r5⟩
  rw [hk]
  have r3' : (NewCartesianSegment env dm).2.phaseStepLimit
      = limitAfter env dm (dm.currentSegment.take (i + 1)) := r3
  rw [r3']
  exact ha

/-- C17 at an example: at step 5 the first segment (`L_0 = 5`) is skipped and the second
(`L_1 = 105`) is taken; the distance is 104 and the time 210. -/
theorem C17_cartesian_walk_witness :
    (NewCartesianSegment (demoEnv true) walkState).1 = true ∧
    (NewCartesianSegment (demoEnv true) walkState).2.currentSegment
      = [⟨true, false, 100, 200, 1⟩] ∧
    (NewCartesianSegment (demoEnv true) walkState).2.phaseStepLimit = 105 ∧
    (NewCartesianSegment (demoEnv true) walkState).2.distanceSoFar = ⟨104⟩ ∧
    (NewCartesianSegment (demoEnv true) walkState).2.timeSoFar = ⟨210⟩ :=
  have h := (C17_cartesian_walk (demoEnv true) walkState).1 1 (by decide) (by decide) (by decide)
  ⟨h.1, h.2.1.trans (by decide), h.2.2.1.trans (by decide), h.2.2.2.2.1.trans (by decide),
    h.2.2.2.2.2.trans (by decide)⟩

/-- C20. A call of `CalcNextStepTimeFull` with `nextStep != phaseStepLimit` on entry (the
counters being 32-bit values) that returns true: `cartDecelForwardsReversing` with
`nextStep > reverseStartStep` becomes `cartDecelReverse`, `deltaForwardsReversing` with
`nextStep == reverseStartStep` becomes `deltaReverse`, and in both cases direction becomes
false and `directionChanged` true; in every other case state, direction and
`directionChanged` are unchanged. And no call, whatever it returns, leaves direction true
when it was false. -/
theorem C20_transitions (env : Env F S) (dda : DDA F S) (dm : DM F S) :
    (∀ dm', dm.InRange → dm.nextStep ≠ dm.phaseStepLimit →
      CalcNextStepTimeFull env dda dm = some (true, dm') →
      (dm.state = DMState.cartDecelForwardsReversing ∧ dm.nextStep > dm.reverseStartStep →
        dm'.state = DMState.cartDecelReverse ∧ dm'.direction = false ∧
        dm'.directionChanged = true) ∧
      (dm.state = DMState.deltaForwardsReversing ∧ dm.nextStep = dm.reverseStartStep →
        dm'.state = DMState.deltaReverse ∧ dm'.direction = false ∧ dm'.directionChanged = true) ∧
      (¬ (dm.state = DMState.cartDecelForwardsReversing ∧ dm.nextStep > dm.reverseStartStep) →
        ¬ (dm.state = DMState.deltaForwardsReversing ∧ dm.nextStep = dm.reverseStartStep) →
        dm'.state = dm.state ∧ dm'.direction = dm.direction ∧
        dm'.directionChanged = dm.directionChanged)) ∧
    (∀ r, CalcNextStepTimeFull env dda dm = some r → r.2.direction = true →
      dm.direction = true) := by
  constructor
  · intro dm' hr hne h
    have hz : sub32 dm.phaseStepLimit dm.nextStep = 0 ↔ dm.phaseStepLimit = dm.nextStep :=
      sub32_eq_zero_iff hr.2.2.2.1 hr.2.1
    have h0 : sub32 dm.phaseStepLimit dm.nextStep ≠ 0 := fun h0 => hne (hz.1 h0).symm
    rcases CalcNextStepTimeFull_cases h with ⟨_, _, h0', -⟩ | ⟨a1, h1, h2⟩
    · exact absurd h0' h0
    · rcases advanceSegment_true h1 with ⟨-, rfl⟩ | ⟨h0', -⟩
      · rcases h2 with ⟨dm3, -, hr1⟩ | ⟨t, dm3, h3, hr1⟩
        · simp only [Prod.mk.injEq, Bool.true_eq_false, false_and] at hr1
        · obtain ⟨f1, f2, f3⟩ := stepTime_flags h3
          obtain ⟨g1, g2, g3, -⟩ := finishStep_flags env dda dm3 (chosenShift env a1 a1) (castU32 t)
          rw [← hr1] at g1 g2 g3
          have g3' := g3 rfl
          have e1 : dm'.state = dm3.state := g3'
          have e2 : dm'.direction = dm3.direction := g1
          have e3 : dm'.directionChanged = dm3.directionChanged := g2
          rw [e1, e2, e3]
          exact ⟨f1, f2, f3⟩
      · exact absurd h0' h0
  · intro r h hdir
    rcases CalcNextStepTimeFull_cases h with ⟨seg, rest, _, _, _, hr1, -⟩ | ⟨a1, h1, h2⟩
    · rw [hr1] at hdir
      exact (newSegment_engaged env dda { dm with currentSegment := rest }).2.2 hdir
    · have ha : a1.direction = true → dm.direction = true := by
        rcases advanceSegment_true h1 with ⟨-, rfl⟩ | ⟨-, seg, rest, -, -, rfl⟩
        · exact fun h => h
        · exact (newSegment_engaged env dda { dm with currentSegment := rest }).2.2
      rcases h2 with ⟨dm3, h3, rfl⟩ | ⟨t, dm3, h3, rfl⟩
      · have hd3 : (StepCalc.fail dm3 : StepCalc F S).record.direction = true := hdir
        have hd4 : (withRecalc a1 (chosenShift env dm a1)).direction = true :=
          stepTime_direction h3 hd3
        exact ha hd4
      · rw [(finishStep_flags env dda dm3 _ _).1] at hdir
        have hd3 : (StepCalc.time t dm3 : StepCalc F S).record.direction = true := hdir
        have hd4 : (withRecalc a1 (chosenShift env dm a1)).direction = true :=
          stepTime_direction h3 hd3
        exact ha hd4

/-- C20 at an example: an extruder one step past `reverseStartStep` turns round. -/
theorem C20_transitions_witness :
    ((CalcNextStepTimeFull (demoEnv true) demoDDA turnState).getD (false, turnState)).2.state
      = DMState.cartDecelReverse ∧
    ((CalcNextStepTimeFull (demoEnv true) demoDDA turnState).getD (false, turnState)).2.direction
      = false ∧
    ((CalcNextStepTimeFull (demoEnv true) demoDDA turnState).getD
      (false, turnState)).2.directionChanged = true :=
  ((C20_transitions (demoEnv true) demoDDA turnState).1
    ((CalcNextStepTimeFull (demoEnv true) demoDDA turnState).getD (false, turnState)).2
    (by decide) (by decide) (by decide)).1 ⟨rfl, by decide⟩

/-- C21 (amended). Two consecutive single-step calls of `CalcNextStepTimeFull` in `cartLinear`
inside one phase, at steps `n` and `n + 1`, both returning true, the first not late. With
`t_n` the float `pB + (float)n * pC` and `c_n = (uint32_t)t_n`, the first call stores
`nextStepTime = c_n` and the second `stepInterval = c_(n+1) - c_n` (0 when that would be
negative). For any reading `val` of the floats as numbers under which the conversion to
`uint32_t` truncates, `pC >= 0`, and the floats `t_n`, `t_(n+1)` are within `e1`, `e2` of the
exact `pB + n*pC`, `pB + (n+1)*pC`, the interval differs from `pC` by less than
`1 + e1 + e2` clocks: by less than one clock when both times are computed exactly. -/
theorem C21_linear_interval (env : Env F S) (dda : DDA F S) (dm dm1 dm2 : DM F S)
    (val : F → ℚ) (e1 e2 : ℚ)
    (hr : dm.InRange) (hs : dm.state = DMState.cartLinear)
    (hn : dm.nextStep < dm.totalSteps)
    (hseg1 : dm.nextStep ≠ dm.phaseStepLimit) (hshift1 : chosenShift env dm dm = 0)
    (hcall1 : CalcNextStepTimeFull env dda dm = some (true, dm1))
    (hlate1 : castU32 (dm.pB + FloatArith.ofUInt32 dm.nextStep * dm.pC) ≤ dda.clocksNeeded)
    (hseg2 : dm.nextStep + 1 ≠ dm.phaseStepLimit)
    (hshift2 : chosenShift env { dm1 with nextStep := dm.nextStep + 1 }
      { dm1 with nextStep := dm.nextStep + 1 } = 0)
    (hcall2 : CalcNextStepTimeFull env dda { dm1 with nextStep := dm.nextStep + 1 }
      = some (true, dm2))
    (htr1 : (castU32 (dm.pB + FloatArith.ofUInt32 dm.nextStep * dm.pC) : ℚ)
        ≤ val (dm.pB + FloatArith.ofUInt32 dm.nextStep * dm.pC) ∧
      val (dm.pB + FloatArith.ofUInt32 dm.nextStep * dm.pC)
        < castU32 (dm.pB + FloatArith.ofUInt32 dm.nextStep * dm.pC) + 1)
    (htr2 : (castU32 (dm.pB + FloatArith.ofUInt32 (dm.nextStep + 1) * dm.pC) : ℚ)
        ≤ val (dm.pB + FloatArith.ofUInt32 (dm.nextStep + 1) * dm.pC) ∧
      val (dm.pB + FloatArith.ofUInt32 (dm.nextStep + 1) * dm.pC)
        < castU32 (dm.pB + FloatArith.ofUInt32 (dm.nextStep + 1) * dm.pC) + 1)
    (herr1 : |val (dm.pB + FloatArith.ofUInt32 dm.nextStep * dm.pC)
        - (val dm.pB + dm.nextStep * val dm.pC)| ≤ e1)
    (herr2 : |val (dm.pB + FloatArith.ofUInt32 (dm.nextStep + 1) * dm.pC)
        - (val dm.pB + (dm.nextStep + 1) * val dm.pC)| ≤ e2)
    (hpc : 0 ≤ val dm.pC) :
    dm1.nextStepTime = castU32 (dm.pB + FloatArith.ofUInt32 dm.nextStep * dm.pC) ∧
    dm2.stepInterval
      = (if castU32 (dm.pB + FloatArith.ofUInt32 (dm.nextStep + 1) * dm.pC)
            > castU32 (dm.pB + FloatArith.ofUInt32 dm.nextStep * dm.pC)
         then castU32 (dm.pB + FloatArith.ofUInt32 (dm.nextStep + 1) * dm.pC)
            - castU32 (dm.pB + FloatArith.ofUInt32 dm.nextStep * dm.pC)
         else 0) ∧
    |(dm2.stepInterval : ℚ) - val dm.pC| < 1 + e1 + e2 := by
  obtain ⟨f1, f2, f3, f4, f5, f6, f7, f8⟩ := linear_step_result hr hs hseg1 hshift1 hcall1 hlate1
  have hc1 := castU32_lt (dm.pB + FloatArith.ofUInt32 dm.nextStep * dm.pC)
  have hr2 : ({ dm1 with nextStep := dm.nextStep + 1 } : DM F S).InRange := by
    obtain ⟨r1, r2, r3, r4, r5, r6⟩ := hr
    refine ⟨?_, ?_, ?_, ?_, ?_, f8⟩
    · show dm1.totalSteps < u32
      rw [f6]; exact r1
    · show dm.nextStep + 1 < u32
      omega
    · show dm1.reverseStartStep < u32
      rw [f7]; exact r3
    · show dm1.phaseStepLimit < u32
      rw [f5]; exact r4
    · show dm1.nextStepTime < u32
      rw [f1]; exact hc1
  have hs2 : ({ dm1 with nextStep := dm.nextStep + 1 } : DM F S).state = DMState.cartLinear := f2
  have hseg2' : ({ dm1 with nextStep := dm.nextStep + 1 } : DM F S).nextStep
      ≠ ({ dm1 with nextStep := dm.nextStep + 1 } : DM F S).phaseStepLimit := by
    show dm.nextStep + 1 ≠ dm1.phaseStepLimit
    rw [f5]; exact hseg2
  have hint := linear_step_interval hr2 hs2 hseg2' hshift2 hcall2
  have g1 : ({ dm1 with nextStep := dm.nextStep + 1 } : DM F S).pB = dm.pB := f3
  have g2 : ({ dm1 with nextStep := dm.nextStep + 1 } : DM F S).pC = dm.pC := f4
  have g3 : ({ dm1 with nextStep := dm.nextStep + 1 } : DM F S).nextStep = dm.nextStep + 1 := rfl
  have g4 : ({ dm1 with nextStep := dm.nextStep + 1 } : DM F S).nextStepTime
      = castU32 (dm.pB + FloatArith.ofUInt32 dm.nextStep * dm.pC) := f1
  rw [g1, g2, g3, g4] at hint
  refine ⟨f1, hint, ?_⟩
  rw [hint]
  exact interval_near _ _ dm.nextStep _ _ (val dm.pB) (val dm.pC) e1 e2 htr1 htr2 herr1 herr2 hpc

/-- C21 at an example in exact arithmetic: `pB = 3`, `pC = 50`, steps 1 and 2, at clocks 53
and 103; the interval stored is 50. -/
theorem C21_linear_interval_witness :
    CalcNextStepTimeFull (demoEnv true) demoDDA cruiseState = some (true, cruiseFirst) ∧
    CalcNextStepTimeFull (demoEnv true) demoDDA { cruiseFirst with nextStep := cruiseState.nextStep + 1 }
      = some (true, cruiseSecond) ∧
    cruiseSecond.stepInterval = 50 ∧
    |((cruiseSecond.stepInterval : ℕ) : ℚ) - ((cruiseState.pC.val : ℤ) : ℚ)| < 1 + 0 + 0 :=
  have e1 : cruiseState.pB + FloatArith.ofUInt32 cruiseState.nextStep * cruiseState.pC
      = (⟨53⟩ : Fixed) := by decide
  have e2 : cruiseState.pB + FloatArith.ofUInt32 (cruiseState.nextStep + 1) * cruiseState.pC
      = (⟨103⟩ : Fixed) := by decide
  have c1 : castU32 (cruiseState.pB + FloatArith.ofUInt32 cruiseState.nextStep * cruiseState.pC)
      = 53 := by decide
  have c2 : castU32 (cruiseState.pB
      + FloatArith.ofUInt32 (cruiseState.nextStep + 1) * cruiseState.pC) = 103 := by decide
  have e3 : cruiseState.pB = (⟨3⟩ : Fixed) := rfl
  have e4 : cruiseState.pC = (⟨50⟩ : Fixed) := rfl
  have e5 : cruiseState.nextStep = 1 := rfl
  have h := C21_linear_interval (demoEnv true) demoDDA cruiseState cruiseFirst cruiseSecond
    (fun a => (a.val : ℚ)) 0 0
    (by decide) (by decide) (by decide) (by decide) (by decide) (by decide) (by decide)
    (by decide) (by decide) (by decide)
    (by rw [c1, e1]; norm_num) (by rw [c2, e2]; norm_num)
    (by rw [e1, e3, e4, e5]; norm_num) (by rw [e2, e3, e4, e5]; norm_num)
    (by rw [e4]; norm_num)
  ⟨by decide, by decide, by decide, h.2.2⟩

/-- C21 fails in single precision. In `longState` (`cartLinear`, `pB = 2^25`, `pC = 101.5`,
steps 1 and 2 of a phase that ends at step 100) both calls are single-step, return true and
are not late. The times `pB + 1*pC = 33554533.5` and `pB + 2*pC = 33554635` are rounded to
the multiples of 4 nearest to them, 33554532 and 33554636, so the second call stores
`stepInterval = 104`, which is the difference of the two truncated times and is 2.5 clocks
away from `pC`. -/
theorem C21_counterexample :
    longState.state = DMState.cartLinear ∧ (0 : F32) ≤ longState.pC ∧
    chosenShift f32Env longState longState = 0 ∧
    CalcNextStepTimeFull f32Env longDDA longState = some (true, longFirst) ∧
    longFirst.nextStepTime = castU32 (longState.pB + FloatArith.ofUInt32 1 * longState.pC) ∧
    longFirst.nextStepTime ≤ longDDA.clocksNeeded ∧
    chosenShift f32Env { longFirst with nextStep := 2 } { longFirst with nextStep := 2 } = 0 ∧
    CalcNextStepTimeFull f32Env longDDA { longFirst with nextStep := 2 } = some (true, longSecond) ∧
    longSecond.pB = longState.pB ∧ longSecond.pC = longState.pC ∧
    longSecond.nextStepTime = castU32 (longState.pB + FloatArith.ofUInt32 2 * longState.pC) ∧
    longSecond.nextStepTime ≤ longDDA.clocksNeeded ∧
    longSecond.stepInterval = 104 ∧
    longSecond.stepInterval
      = castU32 (longState.pB + FloatArith.ofUInt32 2 * longState.pC)
        - castU32 (longState.pB + FloatArith.ofUInt32 1 * longState.pC) ∧
    ¬ (FloatArith.fabsf (FloatArith.ofUInt32 longSecond.stepInterval - longState.pC) < (1 : F32)) := by
  decide

/-- C22. Up to the turn the bound holds: a call of `CalcNextStepTimeFull` in 32-bit range with
`nextStep <= phaseStepLimit` on entry that returns true leaves
`nextStep + stepsTillRecalc < phaseStepLimit`, unless `nextStep` and the `phaseStepLimit` in
force are both beyond `reverseStartStep`. Beyond the turn it fails: line 506 computes
`stepsToLimit = reverseStartStep - nextStep` in `uint32_t`, which wraps round to a huge value.
An extruder at step 7 of 7 (turn at step 6, phase limit 8, last interval 5 clocks with
`MinCalcInterval = 40`) meets the precondition, the call returns true and leaves
`stepsTillRecalc = 7`: `7 + 7 = 14` is not below the limit 8 and is past the end of the
move. A delta axis on its way down at step 5 of 7 (turn at step 3, phase limit 8) is left
with `stepsTillRecalc = 7` as well, its height moved by 8 steps with 3 steps to go. -/
theorem C22_substep_bound :
    (∀ (env : Env F S) (dda : DDA F S) (dm dm' : DM F S), dm.InRange →
      dm.nextStep ≤ dm.phaseStepLimit →
      CalcNextStepTimeFull env dda dm = some (true, dm') →
      ¬ (dm.reverseStartStep < dm.nextStep ∧ dm.reverseStartStep < dm'.phaseStepLimit) →
      dm'.nextStep + dm'.stepsTillRecalc < dm'.phaseStepLimit) ∧
    (overrunState.nextStep ≤ overrunState.totalSteps ∧ overrunState.stepsTillRecalc = 0 ∧
      overrunState.nextStep ≤ overrunState.phaseStepLimit ∧
      overrunState.phaseStepLimit ≤ overrunState.totalSteps + 1 ∧
      stepsToLimit overrunState overrunState = 4294967295 ∧
      (CalcNextStepTimeFull (demoEnv true) demoDDA overrunState).map
          (fun r => (r.1, r.2.nextStep, r.2.stepsTillRecalc, r.2.phaseStepLimit, r.2.totalSteps))
        = some (true, 7, 7, 8, 7)) ∧
    (descentState.nextStep ≤ descentState.totalSteps ∧ descentState.stepsTillRecalc = 0 ∧
      descentState.nextStep ≤ descentState.phaseStepLimit ∧
      descentState.phaseStepLimit ≤ descentState.totalSteps + 1 ∧
      stepsToLimit descentState descentState = 4294967294 ∧
      (CalcNextStepTimeFull (demoEnv true) zDownDDA descentState).map
          (fun r => (r.1, r.2.nextStep, r.2.stepsTillRecalc, r.2.phaseStepLimit, r.2.totalSteps,
            r.2.delta.fHmz0s))
        = some (true, 5, 7, 8, 7, ⟨2⟩)) :=
  ⟨fun _ _ _ _ hr hle hcall hfwd => substep_within_phase hr hle hcall hfwd, by decide, by decide⟩

end DriveMovement
